import Mathlib

/-!
# The code editor widget of `source/gui_text_editor.cpp`

A shallow embedding of the editable document model of `code_editor_widget`:
the line/glyph buffer, the error-marker map, cursor, selection and the dirty
range of the colorizer, with the edit and navigation operations acting on them.

Conventions of the embedding

* `int` is `Int`, and an `unsigned int` argument is a `Nat` whose conversion
  `int(amount)` is explicit.  The sums of a line number and a number that is not of
  the document, `_cursor_pos.line - int(amount)` in `move_up`, `_cursor_pos.line +
  int(amount)` in `move_down` and `from + 1000` in `colorize`, can leave the range of
  a 32-bit `int`; they are reduced modulo 2^32 into that range by `int_wrap`, the
  result on two's complement hardware of what is an overflow in C++.  The other sums
  add 1, or the location of a token, to a line or column number and are not reduced.
* `std::string` is the list of its characters, `std::vector<T>` is `List T`.
* Every operation is a function from the widget state to `Except fault` of the
  new state.  An access outside a vector, which is undefined behaviour in C++,
  is the fault `out_of_range`; a failed `assert` is the fault `assertion`.
* `std::unordered_map<int, std::string>` is an association list with unique
  keys, read with `List.lookup`; `insert` keeps an entry that is already there.
-/

namespace reshade

/-! ## Data model -/

/-- The semantic color classes, `enum color_palette`. -/
inductive color_palette where
  | color_default
  | color_keyword
  | color_number_literal
  | color_string_literal
  | color_char_literal
  | color_punctuation
  | color_preprocessor
  | color_identifier
  | color_known_identifier
  | color_preprocessor_identifier
  | color_comment
  | color_multiline_comment
  | color_background
  | color_cursor
  | color_selection
  | color_error_marker
  | color_line_number
  | color_current_line_fill
  | color_current_line_fill_inactive
  | color_current_line_edge
deriving DecidableEq, Repr

/-- One character with its color class, `struct glyph { char c; uint8_t col; }`. -/
structure glyph where
  c : Char
  col : color_palette
deriving DecidableEq, Repr

/-- A (line, column) coordinate, `struct text_pos { int line, column; }`. -/
structure text_pos where
  line : Int
  column : Int
deriving DecidableEq, Repr

/-- Modelled from the spec: `text_pos::operator<` is declared in
`gui_text_editor.hpp`; the order compares `line` first, then `column`. -/
def text_pos.lt (a b : text_pos) : Bool :=
  if a.line ≠ b.line then decide (a.line < b.line) else decide (a.column < b.column)

/-- Modelled from the spec: `text_pos::operator<=` is declared in
`gui_text_editor.hpp`; the order compares `line` first, then `column`. -/
def text_pos.le (a b : text_pos) : Bool :=
  if a.line ≠ b.line then decide (a.line < b.line) else decide (a.column ≤ b.column)

/-- Modelled from the spec: `text_pos::operator>` is declared in
`gui_text_editor.hpp`; `a > b` is `b < a`. -/
def text_pos.gt (a b : text_pos) : Bool := b.lt a

/-- The selection extension modes, `enum class selection_mode`. -/
inductive selection_mode where
  | normal
  | word
  | line
deriving DecidableEq, Repr

/-- How an operation can leave the defined behaviour of the C++ program. -/
inductive fault where
  | out_of_range
  | assertion
  | out_of_fuel
deriving DecidableEq, Repr

/-- The fields of `code_editor_widget` that the document model uses. -/
structure code_editor_widget where
  _lines : List (List glyph)
  _errors : List (Int × String)
  _cursor_pos : text_pos
  _select_beg : text_pos
  _select_end : text_pos
  _interactive_beg : text_pos
  _interactive_end : text_pos
  _colorize_line_beg : Int
  _colorize_line_end : Int
  _overwrite : Bool
  _tab_size : Int
  _scroll_to_cursor : Bool
deriving DecidableEq, Repr

/-- Modelled from the spec: the token kinds of the lexer, `enum class
reshadefx::tokenid` of the lexer header; these are the kinds that the `switch` of
`colorize` names (`in_` is the kind `in`), and `other` stands for every other kind.
The kind `end_of_file` ends the token sequence and is not part of it. -/
inductive tokenid where
  | exclaim | percent | ampersand | parenthesis_open | parenthesis_close | star | plus | comma
  | minus | dot | slash | colon | semicolon | less | equal | greater | question | bracket_open
  | backslash | bracket_close | caret | brace_open | pipe | brace_close | tilde | exclaim_equal
  | percent_equal | ampersand_ampersand | ampersand_equal | star_equal | plus_plus | plus_equal
  | minus_minus | minus_equal | arrow | ellipsis | slash_equal | colon_colon | less_less_equal
  | less_less | less_equal | equal_equal | greater_greater_equal | greater_greater
  | greater_equal | caret_equal | pipe_equal | pipe_pipe | identifier | int_literal
  | uint_literal | float_literal | double_literal | string_literal | true_literal | false_literal
  | namespace_ | struct_ | technique | pass | for_ | while_ | do_ | if_ | else_ | switch_ | case_
  | default_ | break_ | continue_ | return_ | discard_ | extern_ | static_ | uniform_ | volatile_
  | precise | in_ | out | inout | const_ | linear | noperspective | centroid | nointerpolation
  | void_ | bool_ | bool2 | bool3 | bool4 | bool2x2 | bool3x3 | bool4x4 | int_ | int2 | int3
  | int4 | int2x2 | int3x3 | int4x4 | uint_ | uint2 | uint3 | uint4 | uint2x2 | uint3x3 | uint4x4
  | float_ | float2 | float3 | float4 | float2x2 | float3x3 | float4x4 | vector | matrix
  | string_ | texture | sampler | hash_def | hash_undef | hash_if | hash_ifdef | hash_ifndef
  | hash_else | hash_elif | hash_endif | hash_error | hash_warning | hash_pragma | hash_include
  | hash_unknown | single_line_comment | multi_line_comment | other
deriving DecidableEq, Repr

/-- Modelled from the spec: a token of the lexer, `struct reshadefx::token` of the
lexer header, with the fields that `colorize` reads: the kind, the text of an
identifier, the length in characters and the 1-based location `(line, column)` of the
first character in the input. -/
structure token where
  id : tokenid
  literal_as_string : String
  length : Nat
  line : Nat
  column : Nat
deriving DecidableEq, Repr

/-! ## `std::vector` primitives -/

/-- The `assert` of `<cassert>`. -/
def assert_that (b : Bool) : Except fault Unit :=
  if b then .ok () else .error fault.assertion

/-- Element access `v[i]`. -/
def vec_at {α : Type} (v : List α) (i : Int) : Except fault α :=
  if i < 0 then .error fault.out_of_range
  else
    match v[i.toNat]? with
    | some x => .ok x
    | none => .error fault.out_of_range

/-- Assignment to `v[i]`. -/
def vec_set {α : Type} (v : List α) (i : Int) (x : α) : Except fault (List α) :=
  if 0 ≤ i ∧ i < v.length then .ok (v.set i.toNat x) else .error fault.out_of_range

/-- Insertion of a run of elements before position i, `v.insert(v.begin() + i, first, last)`. -/
def vec_insert_range {α : Type} (v : List α) (i : Int) (xs : List α) : Except fault (List α) :=
  if 0 ≤ i ∧ i ≤ v.length then .ok (v.take i.toNat ++ xs ++ v.drop i.toNat)
  else .error fault.out_of_range

/-- Insertion of one element before position i, `v.insert(v.begin() + i, x)`. -/
def vec_insert {α : Type} (v : List α) (i : Int) (x : α) : Except fault (List α) :=
  vec_insert_range v i [x]

/-- Removal of the elements in `[a, b)`, `v.erase(v.begin() + a, v.begin() + b)`. -/
def vec_erase_range {α : Type} (v : List α) (a b : Int) : Except fault (List α) :=
  if 0 ≤ a ∧ a ≤ b ∧ b ≤ v.length then .ok (v.take a.toNat ++ v.drop b.toNat)
  else .error fault.out_of_range

/-- Removal of the element at position i, `v.erase(v.begin() + i)`. -/
def vec_erase {α : Type} (v : List α) (i : Int) : Except fault (List α) :=
  if 0 ≤ i ∧ i < v.length then .ok (v.take i.toNat ++ v.drop (i.toNat + 1))
  else .error fault.out_of_range

/-- The elements from position i to the end, the iterator range `[v.begin() + i, v.end())`. -/
def vec_from {α : Type} (v : List α) (i : Int) : Except fault (List α) :=
  if 0 ≤ i ∧ i ≤ v.length then .ok (v.drop i.toNat) else .error fault.out_of_range

/-- Appending to the last element of a vector of vectors, `v.back().push_back(x)`. -/
def vec_back_push {α : Type} : List (List α) → α → Except fault (List (List α))
  | [], _ => .error fault.out_of_range
  | [l], x => .ok [l ++ [x]]
  | l :: m :: ls, x => do
    let r ← vec_back_push (m :: ls) x
    pure (l :: r)

/-- The conversion `int(amount)` of an `unsigned int`. -/
def int_of_unsigned (amount : Nat) : Int :=
  if amount % 4294967296 < 2147483648 then ((amount % 4294967296 : Nat) : Int)
  else ((amount % 4294967296 : Nat) : Int) - 4294967296

/-- The value that a sum or difference of two `int` has in the compiled code: its
residue modulo 2^32 in the range from -2^31 to 2^31 - 1. -/
def int_wrap (x : Int) : Int :=
  (x + 2147483648) % 4294967296 - 2147483648

/-! ## Error markers -/

/-- The member `insert` of `std::unordered_map`: an existing key keeps its entry. -/
def errors_insert (m : List (Int × String)) (k : Int) (v : String) : List (Int × String) :=
  if (m.lookup k).isSome then m else m ++ [(k, v)]

namespace code_editor_widget

/-- Modelled from the spec: `has_selection` is defined in `gui_text_editor.hpp`;
a zero-width selection denotes no selection, so there is one when the end is
past the begin. -/
def has_selection (s : code_editor_widget) : Bool :=
  s._select_end.gt s._select_beg

/-- The constructor: one empty line.  Modelled from the spec: the initial values
of the other fields are member initializers of `gui_text_editor.hpp`; no
markers, cursor and selection at the origin, the dirty range at its sentinel,
tab width 4, overwrite mode off. -/
def create : code_editor_widget :=
  { _lines := [[]]
    _errors := []
    _cursor_pos := ⟨0, 0⟩
    _select_beg := ⟨0, 0⟩
    _select_end := ⟨0, 0⟩
    _interactive_beg := ⟨0, 0⟩
    _interactive_end := ⟨0, 0⟩
    _colorize_line_beg := 2147483647
    _colorize_line_end := 0
    _overwrite := false
    _tab_size := 4
    _scroll_to_cursor := false }

/-! ## Selection -/

/-- The first loop of the word mode of `select`, entered with `column = k > 0`:
it moves the begin column to the left while the glyph before it has color `col`. -/
def select_word_beg (line : List glyph) (col : color_palette) : Nat → Except fault Int
  | 0 => .ok 0
  | k + 1 => do
    let g ← vec_at line (k : Int)
    if col ≠ g.col then pure ((k : Int) + 1) else select_word_beg line col k

/-- The second loop of the word mode of `select`, entered with
`column = line.size() - n`: it moves the end column to the right while the
glyph before it has color `col`. -/
def select_word_end (line : List glyph) (col : color_palette) : Nat → Except fault Int
  | 0 => .ok (line.length : Int)
  | n + 1 => do
    let g ← vec_at line ((line.length : Int) - ((n : Int) + 1) - 1)
    if col ≠ g.col then pure ((line.length : Int) - ((n : Int) + 1))
    else select_word_end line col n

/-- The member `select(beg, end, mode)`. -/
def select (s : code_editor_widget) (beg end_ : text_pos) (mode : selection_mode) :
    Except fault code_editor_widget :=
  let select_beg := if end_.gt beg then beg else end_
  let select_end := if end_.gt beg then end_ else beg
  match mode with
  | selection_mode.normal =>
    .ok { s with _select_beg := select_beg, _select_end := select_end }
  | selection_mode.word => do
    let beg_line ← vec_at s._lines select_beg.line
    let col ← vec_at beg_line (select_beg.column - 1)
    let beg_column ←
      if select_beg.column > 0 then select_word_beg beg_line col.col select_beg.column.toNat
      else pure select_beg.column
    let end_line ← vec_at s._lines select_end.line
    let col ← vec_at end_line (select_end.column - 1)
    let end_column ←
      if select_end.column < end_line.length then
        select_word_end end_line col.col ((end_line.length : Int) - select_end.column).toNat
      else pure select_end.column
    pure { s with _select_beg := ⟨select_beg.line, beg_column⟩,
                  _select_end := ⟨select_end.line, end_column⟩ }
  | selection_mode.line => do
    let end_column ←
      if select_end.line < s._lines.length then do
        let end_line ← vec_at s._lines select_end.line
        pure (end_line.length : Int)
      else pure 0
    pure { s with _select_beg := ⟨select_beg.line, 0⟩,
                  _select_end := ⟨select_end.line, end_column⟩ }

/-- The member `select_all()`; the mode argument of `select` is left to its
default, `selection_mode::normal`. -/
def select_all (s : code_editor_widget) : Except fault code_editor_widget :=
  match s._lines.getLast? with
  | none => .ok s
  | some back =>
    select s ⟨0, 0⟩
      ⟨(s._lines.length : Int) - 1, if back.isEmpty then 0 else (back.length : Int) - 1⟩
      selection_mode.normal

/-! ## Document buffer -/

/-- The loop of `set_text` over the characters of the text. -/
def set_text_loop : List Char → List (List glyph) → Except fault (List (List glyph))
  | [], lines => .ok lines
  | c :: cs, lines =>
    if c = '\r' then set_text_loop cs lines
    else if c = '\n' then set_text_loop cs (lines ++ [[]])
    else do
      let lines ← vec_back_push lines ⟨c, color_palette.color_default⟩
      set_text_loop cs lines

/-- The member `set_text(text)`. -/
def set_text (s : code_editor_widget) (text : List Char) : Except fault code_editor_widget := do
  let lines ← set_text_loop text [[]]
  pure { s with _lines := lines, _errors := [],
                _colorize_line_beg := 0, _colorize_line_end := (lines.length : Int) }

/-- The loop of `insert_line` that builds the new marker map. -/
def insert_line_errors (_errors : List (Int × String)) (line_pos : Int) : List (Int × String) :=
  _errors.foldl
    (fun errors i => errors_insert errors (if i.1 ≥ line_pos then i.1 + 1 else i.1) i.2) []

/-- The member `insert_line(line_pos)`; the reference it returns is to the line at
index `line_pos` of the new state. -/
def insert_line (s : code_editor_widget) (line_pos : Int) : Except fault code_editor_widget := do
  let errors := insert_line_errors s._errors line_pos
  let lines ← vec_insert s._lines line_pos []
  pure { s with _colorize_line_beg := min s._colorize_line_beg line_pos,
                _colorize_line_end := max s._colorize_line_end (line_pos + 1),
                _errors := errors, _lines := lines }

/-- The loop of `delete_lines` that builds the new marker map. -/
def delete_lines_errors (_errors : List (Int × String)) (first_line last_line : Int) :
    List (Int × String) :=
  _errors.foldl
    (fun errors i =>
      if i.1 < first_line ∧ i.1 > last_line then
        errors_insert errors
          (if i.1 > last_line then i.1 - (last_line - first_line) else i.1) i.2
      else errors) []

/-- The member `delete_lines(first_line, last_line)`. -/
def delete_lines (s : code_editor_widget) (first_line last_line : Int) :
    Except fault code_editor_widget := do
  let errors := delete_lines_errors s._errors first_line last_line
  let lines ← vec_erase_range s._lines first_line (last_line + 1)
  pure { s with _colorize_line_beg := min s._colorize_line_beg first_line,
                _colorize_line_end := max s._colorize_line_end (last_line + 1),
                _errors := errors, _lines := lines }

/-- The loop of `get_text(beg, end)`: one iteration for each unit of fuel. -/
def get_text_loop (lines : List (List glyph)) (end_ : text_pos) :
    Nat → text_pos → Int → List Char → Except fault (List Char)
  | 0, _, _, _ => .error fault.out_of_fuel
  | fuel + 1, it, prev_line_no, result =>
    if it.le end_ then
      let result :=
        if prev_line_no ≠ it.line ∧ it.line < lines.length then result ++ ['\n'] else result
      if it = end_ then .ok result
      else do
        let line ← vec_at lines it.line
        let result ←
          if ¬ line.isEmpty ∧ it.column < line.length then do
            let g ← vec_at line it.column
            pure (result ++ [g.c])
          else pure result
        if it.column + 1 < line.length then
          get_text_loop lines end_ fuel ⟨it.line, it.column + 1⟩ it.line result
        else
          get_text_loop lines end_ fuel ⟨it.line + 1, 0⟩ it.line result
    else .ok result

/-- A bound on the number of iterations of the loop of `get_text`: every
iteration moves to the next glyph of a line or to the next line. -/
def get_text_fuel (lines : List (List glyph)) : Nat :=
  (lines.map (fun line => line.length + 1)).sum + 2

/-- The member `get_text(beg, end)`. -/
def get_text_range (s : code_editor_widget) (beg end_ : text_pos) : Except fault (List Char) :=
  get_text_loop s._lines end_ (get_text_fuel s._lines) beg beg.line []

/-- The member `get_text()`: `get_text(0, int(_lines.size()))`, where an `int`
converts to the `text_pos` of that line and column 0. -/
def get_text (s : code_editor_widget) : Except fault (List Char) :=
  get_text_range s ⟨0, 0⟩ ⟨(s._lines.length : Int), 0⟩

/-- The member `get_selected_text()`. -/
def get_selected_text (s : code_editor_widget) : Except fault (List Char) :=
  get_text_range s s._select_beg s._select_end

/-! ## Edit operations -/

/-- The body of the loop of `insert_text` for one character. -/
def insert_text_step (s : code_editor_widget) (c : Char) : Except fault code_editor_widget :=
  if c = '\r' then .ok s
  else if c = '\n' then do
    let s ← insert_line s (s._cursor_pos.line + 1)
    let line ← vec_at s._lines s._cursor_pos.line
    let s ←
      if s._cursor_pos.column < line.length then do
        let moved ← vec_from line s._cursor_pos.column
        let new_line ← vec_at s._lines (s._cursor_pos.line + 1)
        let new_line ← vec_insert_range new_line 0 moved
        let line ← vec_erase_range line s._cursor_pos.column line.length
        let lines ← vec_set s._lines (s._cursor_pos.line + 1) new_line
        let lines ← vec_set lines s._cursor_pos.line line
        pure { s with _lines := lines }
      else pure s
    pure { s with _cursor_pos := ⟨s._cursor_pos.line + 1, 0⟩ }
  else do
    let line ← vec_at s._lines s._cursor_pos.line
    let line ← vec_insert line s._cursor_pos.column ⟨c, color_palette.color_default⟩
    let lines ← vec_set s._lines s._cursor_pos.line line
    pure { s with _lines := lines,
                  _cursor_pos := ⟨s._cursor_pos.line, s._cursor_pos.column + 1⟩ }

/-- The loop of `insert_text` over the characters of the text. -/
def insert_text_loop : List Char → code_editor_widget → Except fault code_editor_widget
  | [], s => .ok s
  | c :: cs, s => do
    let s ← insert_text_step s c
    insert_text_loop cs s

/-- The member `insert_text(text)`. -/
def insert_text (s : code_editor_widget) (text : List Char) : Except fault code_editor_widget := do
  let s := { s with _colorize_line_beg := min s._colorize_line_beg s._cursor_pos.line }
  let s ← insert_text_loop text s
  let s ← select s s._cursor_pos s._cursor_pos selection_mode.normal
  pure { s with _scroll_to_cursor := true,
                _colorize_line_end := max s._colorize_line_end (s._cursor_pos.line + 1) }

/-- The member `delete_range(beg, end)`. -/
def delete_range (s : code_editor_widget) (beg end_ : text_pos) :
    Except fault code_editor_widget :=
  if end_ = beg then .ok s
  else do
    assert_that (end_.gt beg)
    assert_that (decide (end_.column ≥ 0))
    let s := { s with _colorize_line_beg := min s._colorize_line_beg beg.line,
                      _colorize_line_end := max s._colorize_line_end (end_.line + 1) }
    if beg.line = end_.line then do
      let line ← vec_at s._lines beg.line
      let line ←
        if end_.column ≥ line.length then vec_erase_range line beg.column line.length
        else vec_erase_range line beg.column end_.column
      let lines ← vec_set s._lines beg.line line
      pure { s with _lines := lines }
    else do
      let beg_line ← vec_at s._lines beg.line
      let end_line ← vec_at s._lines end_.line
      let beg_line ← vec_erase_range beg_line beg.column beg_line.length
      let end_line ← vec_erase_range end_line 0 end_.column
      let beg_line ←
        if beg.line < end_.line then vec_insert_range beg_line beg_line.length end_line
        else pure beg_line
      let lines ← vec_set s._lines beg.line beg_line
      let lines ← vec_set lines end_.line end_line
      let s := { s with _lines := lines }
      let s ← if beg.line < end_.line then delete_lines s (beg.line + 1) end_.line else pure s
      assert_that (!s._lines.isEmpty)
      pure s

/-- The member `delete_selection()`. -/
def delete_selection (s : code_editor_widget) : Except fault code_editor_widget :=
  if s._select_end = s._select_beg then .ok s
  else do
    assert_that s.has_selection
    let s ← delete_range s s._select_beg s._select_end
    let s ← select s s._select_beg s._select_beg selection_mode.normal
    pure { s with _cursor_pos := s._select_beg }

/-- The member `delete_next()`. -/
def delete_next (s : code_editor_widget) : Except fault code_editor_widget :=
  if s._lines.isEmpty then .ok s
  else if s.has_selection then delete_selection s
  else do
    let line ← vec_at s._lines s._cursor_pos.line
    if s._cursor_pos.column = line.length then
      if s._cursor_pos.line = (s._lines.length : Int) - 1 then pure s
      else do
        let next_line ← vec_at s._lines (s._cursor_pos.line + 1)
        let line ← vec_insert_range line line.length next_line
        let lines ← vec_set s._lines s._cursor_pos.line line
        delete_lines { s with _lines := lines } (s._cursor_pos.line + 1) (s._cursor_pos.line + 1)
    else do
      let line ← vec_erase line s._cursor_pos.column
      let lines ← vec_set s._lines s._cursor_pos.line line
      pure { s with _lines := lines,
                    _colorize_line_beg := min s._colorize_line_beg s._cursor_pos.line,
                    _colorize_line_end := max s._colorize_line_end (s._cursor_pos.line + 1) }

/-- The member `delete_previous()`. -/
def delete_previous (s : code_editor_widget) : Except fault code_editor_widget :=
  if s._lines.isEmpty then .ok s
  else if s.has_selection then delete_selection s
  else if s._cursor_pos.column = 0 then
    if s._cursor_pos.line = 0 then .ok s
    else do
      let line ← vec_at s._lines s._cursor_pos.line
      let prev_line ← vec_at s._lines (s._cursor_pos.line - 1)
      let s := { s with _cursor_pos := ⟨s._cursor_pos.line, (prev_line.length : Int)⟩ }
      let prev_line ← vec_insert_range prev_line prev_line.length line
      let lines ← vec_set s._lines (s._cursor_pos.line - 1) prev_line
      let s ← delete_lines { s with _lines := lines } s._cursor_pos.line s._cursor_pos.line
      pure { s with _cursor_pos := ⟨s._cursor_pos.line - 1, s._cursor_pos.column⟩,
                    _scroll_to_cursor := true }
  else do
    let line ← vec_at s._lines s._cursor_pos.line
    let s := { s with _cursor_pos := ⟨s._cursor_pos.line, s._cursor_pos.column - 1⟩ }
    let s ←
      if s._cursor_pos.column < (line.length : Int) then do
        let line ← vec_erase line s._cursor_pos.column
        let lines ← vec_set s._lines s._cursor_pos.line line
        pure { s with _lines := lines }
      else pure s
    pure { s with _colorize_line_beg := min s._colorize_line_beg s._cursor_pos.line,
                  _colorize_line_end := max s._colorize_line_end (s._cursor_pos.line + 1),
                  _scroll_to_cursor := true }

/-- The function `isblank` of `<cctype>` in the C locale: space and horizontal tab. -/
def isblank (c : Char) : Bool := c = ' ' || c = '\t'

/-- The inner loop of the outdent branch of `insert_character` for line i, with
n the number of values of j still below `_tab_size`: it removes leading spaces. -/
def outdent_spaces (i : Int) : Nat → code_editor_widget → Except fault code_editor_widget
  | 0, s => .ok s
  | n + 1, s => do
    let line ← vec_at s._lines i
    let g ← vec_at line 0
    if g.c = ' ' then do
      let line ← vec_erase line 0
      let lines ← vec_set s._lines i line
      outdent_spaces i n { s with _lines := lines, _scroll_to_cursor := true }
    else pure s

/-- The loop `for (int i = beg.line; i <= end.line; i++)` of the tab branch of
`insert_character`, with n the number of lines still to visit.  The updates of
the local copy `end.column` have no effect on the widget and are left out. -/
def indent_lines (shift : Bool) : Nat → Int → code_editor_widget → Except fault code_editor_widget
  | 0, _, s => .ok s
  | n + 1, i, s => do
    let line ← vec_at s._lines i
    let s ←
      if shift then do
        let g ← vec_at line 0
        if g.c = '\t' then do
          let line ← vec_erase line 0
          let lines ← vec_set s._lines i line
          pure { s with _lines := lines, _scroll_to_cursor := true }
        else outdent_spaces i s._tab_size.toNat s
      else do
        let line ← vec_insert line 0 ⟨'\t', color_palette.color_background⟩
        let lines ← vec_set s._lines i line
        pure { s with _lines := lines, _scroll_to_cursor := true }
    indent_lines shift n (i + 1) s

/-- The member `insert_character(c, shift)`. -/
def insert_character (s : code_editor_widget) (c : Char) (shift : Bool) :
    Except fault code_editor_widget := do
  let tab_with_selection := s.has_selection && c = '\t'
  if tab_with_selection then
    let beg := s._select_beg
    let end_ := s._select_end
    let s := { s with _colorize_line_beg := min s._colorize_line_beg beg.line,
                      _colorize_line_end := max s._colorize_line_end (end_.line + 1) }
    if end_.column = 0 ∧ end_.line > 0 then do
      let _ ← vec_at s._lines (end_.line - 1)
      indent_lines shift ((end_.line - 1) - beg.line + 1).toNat beg.line s
    else
      indent_lines shift (end_.line - beg.line + 1).toNat beg.line s
  else do
    let s ← if s.has_selection then delete_selection s else pure s
    assert_that (!s._lines.isEmpty)
    let s := { s with _colorize_line_beg := min s._colorize_line_beg s._cursor_pos.line }
    let s ←
      if c = '\n' then do
        let s ← insert_line s (s._cursor_pos.line + 1)
        let line ← vec_at s._lines s._cursor_pos.line
        let new_line ← vec_at s._lines (s._cursor_pos.line + 1)
        let new_line := new_line ++ line.takeWhile (fun g => isblank g.c)
        let indentation := (new_line.length : Int)
        let moved ← vec_from line s._cursor_pos.column
        let new_line ← vec_insert_range new_line new_line.length moved
        let line ← vec_erase_range line s._cursor_pos.column line.length
        let lines ← vec_set s._lines (s._cursor_pos.line + 1) new_line
        let lines ← vec_set lines s._cursor_pos.line line
        pure { s with _lines := lines, _cursor_pos := ⟨s._cursor_pos.line + 1, indentation⟩ }
      else do
        let line ← vec_at s._lines s._cursor_pos.line
        let line ←
          if s._overwrite ∧ (line.length : Int) > s._cursor_pos.column then
            vec_set line s._cursor_pos.column ⟨c, color_palette.color_default⟩
          else
            vec_insert line s._cursor_pos.column ⟨c, color_palette.color_default⟩
        let lines ← vec_set s._lines s._cursor_pos.line line
        pure { s with _lines := lines,
                      _cursor_pos := ⟨s._cursor_pos.line, s._cursor_pos.column + 1⟩ }
    pure { s with _scroll_to_cursor := true,
                  _colorize_line_end := max s._colorize_line_end (s._cursor_pos.line + 1) }

/-! ## Navigation -/

/-- The member `move_up(amount, selection)`; the difference `_cursor_pos.line -
int(amount)` is an `int`. -/
def move_up (s : code_editor_widget) (amount : Nat) (selection : Bool) :
    Except fault code_editor_widget :=
  if s._lines.isEmpty then .ok s
  else do
    let prev_pos := s._cursor_pos
    let cursor_pos : text_pos :=
      ⟨max (int_wrap (s._cursor_pos.line - int_of_unsigned amount)) 0, s._cursor_pos.column⟩
    let s := { s with _cursor_pos := cursor_pos }
    let s :=
      if selection then
        if prev_pos = s._interactive_beg then { s with _interactive_beg := cursor_pos }
        else if prev_pos = s._interactive_end then { s with _interactive_end := cursor_pos }
        else { s with _interactive_beg := cursor_pos, _interactive_end := prev_pos }
      else { s with _interactive_beg := cursor_pos, _interactive_end := cursor_pos }
    let s ← select s s._interactive_beg s._interactive_end selection_mode.normal
    pure { s with _scroll_to_cursor := true }

/-- The member `move_down(amount, selection)`; the sum `_cursor_pos.line +
int(amount)` is an `int`. -/
def move_down (s : code_editor_widget) (amount : Nat) (selection : Bool) :
    Except fault code_editor_widget :=
  if s._lines.isEmpty then .ok s
  else do
    assert_that (decide (s._cursor_pos.column ≥ 0))
    let prev_pos := s._cursor_pos
    let cursor_pos : text_pos :=
      ⟨min (int_wrap (s._cursor_pos.line + int_of_unsigned amount))
          ((s._lines.length : Int) - 1),
        s._cursor_pos.column⟩
    let s := { s with _cursor_pos := cursor_pos }
    let s :=
      if selection then
        if prev_pos = s._interactive_beg then { s with _interactive_beg := cursor_pos }
        else if prev_pos = s._interactive_end then { s with _interactive_end := cursor_pos }
        else { s with _interactive_beg := prev_pos, _interactive_end := cursor_pos }
      else { s with _interactive_beg := cursor_pos, _interactive_end := cursor_pos }
    let s ← select s s._interactive_beg s._interactive_end selection_mode.normal
    pure { s with _scroll_to_cursor := true }

/-- The loop `while (amount-- > 0)` of `move_left`. -/
def move_left_loop (lines : List (List glyph)) : Nat → text_pos → Except fault text_pos
  | 0, cursor_pos => .ok cursor_pos
  | amount + 1, cursor_pos =>
    if cursor_pos.column = 0 then
      if cursor_pos.line = 0 then .ok cursor_pos
      else do
        let line ← vec_at lines (cursor_pos.line - 1)
        move_left_loop lines amount ⟨cursor_pos.line - 1, (line.length : Int)⟩
    else move_left_loop lines amount ⟨cursor_pos.line, cursor_pos.column - 1⟩

/-- The member `move_left(amount, selection, word_mode)`; the `unsigned int`
amount is read modulo 2^32. -/
def move_left (s : code_editor_widget) (amount : Nat) (selection word_mode : Bool) :
    Except fault code_editor_widget :=
  if s._lines.isEmpty then .ok s
  else do
    let prev_pos := s._cursor_pos
    let cursor_pos ← move_left_loop s._lines (amount % 4294967296) s._cursor_pos
    let s := { s with _cursor_pos := cursor_pos }
    assert_that (decide (cursor_pos.line ≥ 0))
    assert_that (decide (cursor_pos.column ≥ 0))
    let s :=
      if selection then
        if prev_pos = s._interactive_beg then { s with _interactive_beg := cursor_pos }
        else if prev_pos = s._interactive_end then { s with _interactive_end := cursor_pos }
        else { s with _interactive_beg := cursor_pos, _interactive_end := prev_pos }
      else { s with _interactive_beg := cursor_pos, _interactive_end := cursor_pos }
    let s ← select s s._interactive_beg s._interactive_end
      (if selection && word_mode then selection_mode.word else selection_mode.normal)
    pure { s with _scroll_to_cursor := true }

/-- The loop `while (amount-- > 0)` of `move_right`. -/
def move_right_loop (lines : List (List glyph)) : Nat → text_pos → Except fault text_pos
  | 0, cursor_pos => .ok cursor_pos
  | amount + 1, cursor_pos => do
    let line ← vec_at lines cursor_pos.line
    if cursor_pos.column ≥ (line.length : Int) - 1 then
      if cursor_pos.line ≥ (lines.length : Int) - 1 then pure cursor_pos
      else move_right_loop lines amount ⟨cursor_pos.line + 1, 0⟩
    else move_right_loop lines amount ⟨cursor_pos.line, cursor_pos.column + 1⟩

/-- The member `move_right(amount, selection, word_mode)`; the `unsigned int`
amount is read modulo 2^32. -/
def move_right (s : code_editor_widget) (amount : Nat) (selection word_mode : Bool) :
    Except fault code_editor_widget :=
  if s._lines.isEmpty then .ok s
  else do
    let prev_pos := s._cursor_pos
    let cursor_pos ← move_right_loop s._lines (amount % 4294967296) s._cursor_pos
    let s := { s with _cursor_pos := cursor_pos }
    assert_that (decide (cursor_pos.line < (s._lines.length : Int)))
    let line ← vec_at s._lines cursor_pos.line
    assert_that (decide (cursor_pos.column < (line.length : Int)) || line.isEmpty)
    let s :=
      if selection then
        if prev_pos = s._interactive_end then { s with _interactive_end := cursor_pos }
        else if prev_pos = s._interactive_beg then { s with _interactive_beg := cursor_pos }
        else { s with _interactive_beg := prev_pos, _interactive_end := cursor_pos }
      else { s with _interactive_beg := cursor_pos, _interactive_end := cursor_pos }
    let s ← select s s._interactive_beg s._interactive_end
      (if selection && word_mode then selection_mode.word else selection_mode.normal)
    pure { s with _scroll_to_cursor := true }

/-- The member `move_top(selection)`. -/
def move_top (s : code_editor_widget) (selection : Bool) : Except fault code_editor_widget := do
  let prev_pos := s._cursor_pos
  let cursor_pos : text_pos := ⟨0, 0⟩
  let s := { s with _cursor_pos := cursor_pos }
  let s :=
    if selection then
      let s :=
        if s._interactive_beg.gt s._interactive_end then
          { s with _interactive_beg := s._interactive_end, _interactive_end := s._interactive_beg }
        else s
      let s := if prev_pos ≠ s._interactive_beg then { s with _interactive_end := s._interactive_beg } else s
      { s with _interactive_beg := cursor_pos }
    else { s with _interactive_beg := cursor_pos, _interactive_end := cursor_pos }
  let s ← select s s._interactive_beg s._interactive_end selection_mode.normal
  pure { s with _scroll_to_cursor := true }

/-- The member `move_bottom(selection)`. -/
def move_bottom (s : code_editor_widget) (selection : Bool) : Except fault code_editor_widget := do
  let prev_pos := s._cursor_pos
  let cursor_pos : text_pos := ⟨(s._lines.length : Int) - 1, 0⟩
  let s := { s with _cursor_pos := cursor_pos }
  let s :=
    if selection then
      let s :=
        if s._interactive_beg.gt s._interactive_end then
          { s with _interactive_beg := s._interactive_end, _interactive_end := s._interactive_beg }
        else s
      let s := if prev_pos ≠ s._interactive_end then { s with _interactive_beg := s._interactive_end } else s
      { s with _interactive_end := cursor_pos }
    else { s with _interactive_beg := cursor_pos, _interactive_end := cursor_pos }
  let s ← select s s._interactive_beg s._interactive_end selection_mode.normal
  pure { s with _scroll_to_cursor := true }

/-- The member `move_home(selection)`. -/
def move_home (s : code_editor_widget) (selection : Bool) : Except fault code_editor_widget :=
  let prev_pos := s._cursor_pos
  let cursor_pos : text_pos := ⟨s._cursor_pos.line, 0⟩
  let s := { s with _cursor_pos := cursor_pos }
  if cursor_pos = prev_pos then .ok s
  else
    let s :=
      if selection then
        if prev_pos = s._interactive_beg then { s with _interactive_beg := cursor_pos }
        else if prev_pos = s._interactive_end then { s with _interactive_end := cursor_pos }
        else { s with _interactive_beg := cursor_pos, _interactive_end := prev_pos }
      else { s with _interactive_beg := cursor_pos, _interactive_end := cursor_pos }
    select s s._interactive_beg s._interactive_end selection_mode.normal

/-- The member `move_end(selection)`. -/
def move_end (s : code_editor_widget) (selection : Bool) : Except fault code_editor_widget := do
  let prev_pos := s._cursor_pos
  let line ← vec_at s._lines prev_pos.line
  let cursor_pos : text_pos := ⟨s._cursor_pos.line, (line.length : Int)⟩
  let s := { s with _cursor_pos := cursor_pos }
  if cursor_pos = prev_pos then pure s
  else
    let s :=
      if selection then
        if prev_pos = s._interactive_end then { s with _interactive_end := cursor_pos }
        else if prev_pos = s._interactive_beg then { s with _interactive_beg := cursor_pos }
        else { s with _interactive_beg := prev_pos, _interactive_end := cursor_pos }
      else { s with _interactive_beg := cursor_pos, _interactive_end := cursor_pos }
    select s s._interactive_beg s._interactive_end selection_mode.normal

/-! ## Syntax coloring -/

/-- The `switch (tok.id)` of `colorize`: the color class of a token and its length
afterwards, one more for a preprocessor directive (`tok.length++`; the field
`tok.offset`, changed there too, is not read). -/
def token_color (tok : token) : color_palette × Nat :=
  match tok.id with
  | .exclaim | .percent | .ampersand | .parenthesis_open | .parenthesis_close | .star | .plus
  | .comma | .minus | .dot | .slash | .colon | .semicolon | .less | .equal | .greater | .question
  | .bracket_open | .backslash | .bracket_close | .caret | .brace_open | .pipe | .brace_close
  | .tilde | .exclaim_equal | .percent_equal | .ampersand_ampersand | .ampersand_equal
  | .star_equal | .plus_plus | .plus_equal | .minus_minus | .minus_equal | .arrow | .ellipsis
  | .slash_equal | .colon_colon | .less_less_equal | .less_less | .less_equal | .equal_equal
  | .greater_greater_equal | .greater_greater | .greater_equal | .caret_equal | .pipe_equal
  | .pipe_pipe =>
    (color_palette.color_punctuation, tok.length)
  | .identifier =>
    if tok.literal_as_string = "Width" ∨ tok.literal_as_string = "Height" ∨
        tok.literal_as_string = "Format" ∨ tok.literal_as_string = "MipLevels" ∨
        tok.literal_as_string = "Texture" ∨ tok.literal_as_string = "MinFilter" ∨
        tok.literal_as_string = "MagFilter" ∨ tok.literal_as_string = "MipFilter" ∨
        tok.literal_as_string = "MipLODBias" ∨ tok.literal_as_string = "MaxMipLevel" ∨
        tok.literal_as_string = "abs" ∨ tok.literal_as_string = "tex2D" ∨
        tok.literal_as_string = "tex2Dlod" ∨ tok.literal_as_string = "tex2Dfetch" then
      (color_palette.color_known_identifier, tok.length)
    else (color_palette.color_identifier, tok.length)
  | .int_literal | .uint_literal | .float_literal | .double_literal =>
    (color_palette.color_number_literal, tok.length)
  | .string_literal =>
    (color_palette.color_string_literal, tok.length)
  | .true_literal | .false_literal | .namespace_ | .struct_ | .technique | .pass | .for_
  | .while_ | .do_ | .if_ | .else_ | .switch_ | .case_ | .default_ | .break_ | .continue_
  | .return_ | .discard_ | .extern_ | .static_ | .uniform_ | .volatile_ | .precise | .in_ | .out
  | .inout | .const_ | .linear | .noperspective | .centroid | .nointerpolation | .void_ | .bool_
  | .bool2 | .bool3 | .bool4 | .bool2x2 | .bool3x3 | .bool4x4 | .int_ | .int2 | .int3 | .int4
  | .int2x2 | .int3x3 | .int4x4 | .uint_ | .uint2 | .uint3 | .uint4 | .uint2x2 | .uint3x3
  | .uint4x4 | .float_ | .float2 | .float3 | .float4 | .float2x2 | .float3x3 | .float4x4
  | .vector | .matrix | .string_ | .texture | .sampler =>
    (color_palette.color_keyword, tok.length)
  | .hash_def | .hash_undef | .hash_if | .hash_ifdef | .hash_ifndef | .hash_else | .hash_elif
  | .hash_endif | .hash_error | .hash_warning | .hash_pragma | .hash_include | .hash_unknown =>
    (color_palette.color_preprocessor, tok.length + 1)
  | .single_line_comment =>
    (color_palette.color_comment, tok.length)
  | .multi_line_comment =>
    (color_palette.color_multiline_comment, tok.length)
  | .other => (color_palette.color_default, tok.length)

/-- The loop `for (size_t k = 0; k < tok.length; ++k)` of `colorize`, with n the
number of values of k still to visit: at the end of a line it moves on to the next
line, else it writes the color class of the glyph at `(line, column)`. -/
def colorize_span (col : color_palette) :
    Nat → List (List glyph) → Int → Int → Except fault (List (List glyph))
  | 0, lines, _, _ => .ok lines
  | n + 1, lines, line, column => do
    let l ← vec_at lines line
    if column = (l.length : Int) then colorize_span col n lines (line + 1) 0
    else do
      let g ← vec_at l column
      let l ← vec_set l column { g with col := col }
      let lines ← vec_set lines line l
      colorize_span col n lines line (column + 1)

/-- The loop of `colorize` over the tokens that the lexer returns before the end of
the input: the walk over a token starts at `line = from + tok.location.line - 1` and
`column = tok.location.column - 1`. -/
def colorize_tokens (from_ : Int) : List token → List (List glyph) →
    Except fault (List (List glyph))
  | [], lines => .ok lines
  | tok :: toks, lines => do
    let lines ← colorize_span (token_color tok).1 (token_color tok).2 lines
      (from_ + (tok.line : Int) - 1) ((tok.column : Int) - 1)
    colorize_tokens from_ toks lines

/-- The text of some lines, a newline behind each of them. -/
def batch_text : List (List glyph) → List Char
  | [] => []
  | line :: lines => line.map glyph.c ++ '\n' :: batch_text lines

/-- The loop of `colorize` that builds `input_string` from the lines `l` with
`from <= l < to` and `l < _lines.size()`; the counter is a `size_t`, so that a
negative `from` is above every line number, and so is a negative `to`. -/
def colorize_input (lines : List (List glyph)) (from_ to_ : Int) : List Char :=
  if from_ < 0 then []
  else batch_text ((lines.take (if to_ < 0 then lines.length else to_.toNat)).drop from_.toNat)

/-- The member `colorize()`; the sum `from + 1000` is an `int`.  The lexer,
`reshadefx::lexer`, is a parameter: lex maps the input text to the tokens that
`lexer.lex()` returns before the token of kind `end_of_file`. -/
def colorize (lex : List Char → List token) (s : code_editor_widget) :
    Except fault code_editor_widget :=
  if s._lines.isEmpty ∨ s._colorize_line_beg ≥ s._colorize_line_end then .ok s
  else do
    let from_ := s._colorize_line_beg
    let to_ := min (int_wrap (from_ + 1000)) s._colorize_line_end
    let s := { s with _colorize_line_beg := to_ }
    let s :=
      if s._colorize_line_beg = s._colorize_line_end then
        { s with _colorize_line_beg := 2147483647, _colorize_line_end := 0 }
      else s
    let input_string := colorize_input s._lines from_ to_
    let lines ← colorize_tokens from_ (lex input_string) s._lines
    pure { s with _lines := lines }

end code_editor_widget

/-! ## Sequences of operations -/

/-- The operations of the editing session, with their arguments. -/
inductive operation where
  | set_text (text : List Char)
  | insert_text (text : List Char)
  | insert_character (c : Char) (shift : Bool)
  | delete_next
  | delete_previous
  | delete_selection
  | delete_range (beg end_ : text_pos)
  | select (beg end_ : text_pos) (mode : selection_mode)
  | select_all
  | move_up (amount : Nat) (selection : Bool)
  | move_down (amount : Nat) (selection : Bool)
  | move_left (amount : Nat) (selection word_mode : Bool)
  | move_right (amount : Nat) (selection word_mode : Bool)
  | move_top (selection : Bool)
  | move_bottom (selection : Bool)
  | move_home (selection : Bool)
  | move_end (selection : Bool)
deriving DecidableEq, Repr

/-- One operation applied to the widget. -/
def operation.apply (op : operation) (s : code_editor_widget) : Except fault code_editor_widget :=
  match op with
  | operation.set_text text => s.set_text text
  | operation.insert_text text => s.insert_text text
  | operation.insert_character c shift => s.insert_character c shift
  | operation.delete_next => s.delete_next
  | operation.delete_previous => s.delete_previous
  | operation.delete_selection => s.delete_selection
  | operation.delete_range beg end_ => s.delete_range beg end_
  | operation.select beg end_ mode => s.select beg end_ mode
  | operation.select_all => s.select_all
  | operation.move_up amount selection => s.move_up amount selection
  | operation.move_down amount selection => s.move_down amount selection
  | operation.move_left amount selection word_mode => s.move_left amount selection word_mode
  | operation.move_right amount selection word_mode => s.move_right amount selection word_mode
  | operation.move_top selection => s.move_top selection
  | operation.move_bottom selection => s.move_bottom selection
  | operation.move_home selection => s.move_home selection
  | operation.move_end selection => s.move_end selection

/-- A sequence of operations applied in order; it stops at the first fault. -/
def run : List operation → code_editor_widget → Except fault code_editor_widget
  | [], s => .ok s
  | op :: ops, s => do
    let s ← op.apply s
    run ops s

/-! ## Definitions used to state the properties -/

/-- The text of the lines after the first one: each is preceded by a newline. -/
def lines_tail_text : List (List glyph) → List Char
  | [] => []
  | m :: ls => '\n' :: (m.map glyph.c ++ lines_tail_text ls)

/-- The text of a document: the characters of its lines, separated by newlines. -/
def lines_text : List (List glyph) → List Char
  | [] => []
  | l :: ls => l.map glyph.c ++ lines_tail_text ls

/-- The offset of the position `(line, column)` in the text of a document: the
characters of the lines before it, a newline after each, then the column. -/
def text_offset (lines : List (List glyph)) (line column : Nat) : Nat :=
  ((lines.take line).map (fun l => l.length + 1)).sum + column

/-- The glyphs of a piece of text in the default color, to write documents down. -/
def glyphs (text : String) : List glyph :=
  text.toList.map (fun c => ⟨c, color_palette.color_default⟩)

/-- The call `insert_character(c, false)` for each character of a text, in order. -/
def insert_characters : List Char → code_editor_widget → Except fault code_editor_widget
  | [], s => .ok s
  | c :: cs, s => do
    let s ← s.insert_character c false
    insert_characters cs s

/-- Whether, while `insert_text` goes through a text, every newline of the text is
reached with the cursor on a line that does not begin with a space or a tab. -/
def newlines_on_unindented_lines : List Char → code_editor_widget → Bool
  | [], _ => true
  | c :: cs, s =>
    (c ≠ '\n' ||
      match vec_at s._lines s._cursor_pos.line with
      | .ok line => (line.takeWhile (fun g => code_editor_widget.isblank g.c)).isEmpty
      | .error _ => true) &&
    match s.insert_text_step c with
    | .ok s' => newlines_on_unindented_lines cs s'
    | .error _ => true

/-- Whether the cursor is within the document: `0 <= line < line count` and
`0 <= column <= length of that line`. -/
def cursor_in_bounds (s : code_editor_widget) : Bool :=
  decide (0 ≤ s._cursor_pos.line ∧ s._cursor_pos.line < (s._lines.length : Int) ∧
    0 ≤ s._cursor_pos.column ∧
    s._cursor_pos.column ≤ ((s._lines.getD s._cursor_pos.line.toNat []).length : Int))

/-- Whether a position is within a document: `0 <= line < line count` and
`0 <= column <= length of that line`. -/
def position_in_bounds (lines : List (List glyph)) (p : text_pos) : Bool :=
  decide (0 ≤ p.line ∧ p.line < (lines.length : Int) ∧ 0 ≤ p.column ∧
    p.column ≤ ((lines.getD p.line.toNat []).length : Int))

/-- Whether the selection is empty or has both its ends within the document. -/
def selection_in_bounds (s : code_editor_widget) : Bool :=
  !s.has_selection ||
    (position_in_bounds s._lines s._select_beg && position_in_bounds s._lines s._select_end)

/-- The rule for the interactive anchors `(ib, ie)` of a navigation that extends the
selection from the cursor `prev` to the cursor `cur`: an anchor equal to `prev` becomes
`cur` and the other one is kept; if neither equals `prev`, the pair becomes `prev` and
`cur`, in either order. -/
def anchors_extended (prev cur ib ie ib' ie' : text_pos) : Bool :=
  decide ((prev = ib → prev ≠ ie → ib' = cur ∧ ie' = ie) ∧
    (prev = ie → prev ≠ ib → ie' = cur ∧ ib' = ib) ∧
    (prev = ib → prev = ie → (ib' = cur ∧ ie' = ie) ∨ (ie' = cur ∧ ib' = ib)) ∧
    (prev ≠ ib → prev ≠ ie → (ib' = prev ∧ ie' = cur) ∨ (ib' = cur ∧ ie' = prev)))

/-- Whether the selection is the normalized span of the two interactive anchors: its
ends are the anchors, the begin not after the end. -/
def selection_spans_anchors (s : code_editor_widget) : Bool :=
  decide ((s._select_beg = s._interactive_beg ∧ s._select_end = s._interactive_end) ∨
    (s._select_beg = s._interactive_end ∧ s._select_end = s._interactive_beg)) &&
  !(s._select_beg.gt s._select_end)

/-- Whether every glyph of a line has the default color class. -/
def default_colored (line : List glyph) : Bool :=
  line.all (fun g => decide (g.col = color_palette.color_default))

/-- The call `colorize()` repeated n times. -/
def colorize_repeat (lex : List Char → List token) :
    Nat → code_editor_widget → Except fault code_editor_widget
  | 0, s => .ok s
  | n + 1, s => do
    let s ← s.colorize lex
    colorize_repeat lex n s

/-- Whether no glyph of the lines holds a newline character. -/
def newline_free (lines : List (List glyph)) : Bool :=
  lines.all (fun line => line.all (fun g => decide (g.c ≠ '\n')))

/-- Whether the characters that `colorize` walks for a token lie within the text of
the lines given to the lexer: the 1-based location of the token is a position of
these lines, and its length, as `colorize` takes it, does not lead behind the end of
the text. -/
def token_fits (batch : List (List glyph)) (tok : token) : Bool :=
  decide (1 ≤ tok.line ∧ tok.line ≤ batch.length ∧ 1 ≤ tok.column ∧
    tok.column - 1 ≤ (batch.getD (tok.line - 1) []).length ∧
    text_offset batch (tok.line - 1) (tok.column - 1) + (code_editor_widget.token_color tok).2
      ≤ (code_editor_widget.batch_text batch).length)

/-- The contract of a lexer that `colorize` relies on: the tokens it returns for the
text of lines without newline glyphs lie within that text. -/
def lexer_in_bounds (lex : List Char → List token) : Prop :=
  ∀ batch : List (List glyph), newline_free batch = true →
    ∀ tok ∈ lex (code_editor_widget.batch_text batch), token_fits batch tok = true

/-- The loop of `colorize` for one token, see `colorize_span`, over lines of any
kind of glyph, with the update of a glyph as a parameter. -/
def paint_span {α : Type} (paint : α → α) :
    Nat → List (List α) → Int → Int → Except fault (List (List α))
  | 0, lines, _, _ => .ok lines
  | n + 1, lines, line, column => do
    let l ← vec_at lines line
    if column = (l.length : Int) then paint_span paint n lines (line + 1) 0
    else do
      let g ← vec_at l column
      let l ← vec_set l column (paint g)
      let lines ← vec_set lines line l
      paint_span paint n lines line (column + 1)

/-- The loop of `colorize` over the tokens, see `colorize_tokens`, over lines of any
kind of glyph. -/
def paint_tokens {α : Type} (paint : color_palette → α → α) (from_ : Int) :
    List token → List (List α) → Except fault (List (List α))
  | [], lines => .ok lines
  | tok :: toks, lines => do
    let lines ← paint_span (paint (code_editor_widget.token_color tok).1)
      (code_editor_widget.token_color tok).2 lines
      (from_ + (tok.line : Int) - 1) ((tok.column : Int) - 1)
    paint_tokens paint from_ toks lines

/-- The state with the dirty range set to the whole document. -/
def whole_document_dirty (s : code_editor_widget) : code_editor_widget :=
  { s with _colorize_line_beg := 0, _colorize_line_end := (s._lines.length : Int) }

/-- A lexer for the examples: one identifier token of length 1 for the first
character of the input, none if the input is empty or begins with a newline. -/
def first_character_lexer (text : List Char) : List token :=
  match text with
  | [] => []
  | c :: _ => if c = '\n' then [] else [⟨tokenid.identifier, "", 1, 1, 1⟩]

/-! ## Theorems -/

open code_editor_widget

/-! ### The `Except` monad and the vector primitives -/

@[simp] theorem except_bind_ok {α β : Type} (x : α) (f : α → Except fault β) :
    (Except.ok x >>= f) = f x := rfl

@[simp] theorem except_bind_error {α β : Type} (e : fault) (f : α → Except fault β) :
    ((Except.error e : Except fault α) >>= f) = Except.error e := rfl

@[simp] theorem except_pure {α : Type} (x : α) : (pure x : Except fault α) = Except.ok x := rfl

theorem getElem?_append_cons_length {α : Type} (A : List α) (x : α) (B : List α) :
    (A ++ x :: B)[A.length]? = some x := by
  induction A with
  | nil => simp
  | cons a A ih => simpa using ih

theorem vec_at_cast {α : Type} (A : List α) (x : α) (B : List α) :
    vec_at (A ++ x :: B) (A.length : Int) = .ok x := by
  have h : ¬ ((A.length : Int) < 0) := by omega
  rw [vec_at, if_neg h, Int.toNat_ofNat, getElem?_append_cons_length]

theorem lines_tail_text_append (R S : List (List glyph)) :
    lines_tail_text (R ++ S) = lines_tail_text R ++ lines_tail_text S := by
  induction R with
  | nil => rfl
  | cons r R ih => simp [lines_tail_text, ih]

theorem get_text_loop_line (L : List (List glyph)) (i : Nat) (hi : i < L.length)
    (Y : List glyph) :
    ∀ (X : List glyph) (p : Int) (acc : List Char) (f : Nat), Y ≠ [] →
      vec_at L (i : Int) = .ok (X ++ Y) →
      get_text_loop L ⟨(L.length : Int), 0⟩ (Y.length + f) ⟨(i : Int), (X.length : Int)⟩ p acc
        = get_text_loop L ⟨(L.length : Int), 0⟩ f ⟨(i : Int) + 1, 0⟩ (i : Int)
          (acc ++ (if p ≠ (i : Int) then ['\n'] else []) ++ Y.map glyph.c) := by
  induction Y with
  | nil => intro X p acc f h; exact absurd rfl h
  | cons y Y ih =>
    intro X p acc f _ hline
    have hfuel : (y :: Y).length + f = (Y.length + f) + 1 := by simp; omega
    rw [hfuel, get_text_loop]
    have hle : text_pos.le ⟨(i : Int), (X.length : Int)⟩ ⟨(L.length : Int), 0⟩ = true := by
      have h0 : (i : Int) ≠ (L.length : Int) := by omega
      have h1 : (i : Int) < (L.length : Int) := by omega
      simp [text_pos.le, h0, h1]
    have hne : ¬ ((⟨(i : Int), (X.length : Int)⟩ : text_pos) = ⟨(L.length : Int), 0⟩) := by
      simp only [text_pos.mk.injEq]; omega
    have hlt : (i : Int) < (L.length : Int) := by omega
    have hy : vec_at (X ++ y :: Y) (X.length : Int) = .ok y := vec_at_cast X y Y
    simp only [hle, if_true, hne, if_false, hline, except_bind_ok, hlt, and_true]
    have hc : ¬ (X ++ y :: Y).isEmpty = true ∧ (X.length : Int) < ((X ++ y :: Y).length : Int) := by
      constructor
      · simp
      · simp
    simp only [hc, if_true, hy, except_bind_ok, except_pure]
    cases Y with
    | nil =>
      have h1 : ¬ ((X.length : Int) + 1 < ((X ++ [y]).length : Int)) := by simp
      simp only [h1, if_false]
      by_cases hp : p = (i : Int) <;> simp [hp]
    | cons y' Y' =>
      have h1 : (X.length : Int) + 1 < ((X ++ y :: y' :: Y').length : Int) := by
        simp only [List.length_append, List.length_cons, Nat.cast_add, Nat.cast_one]; omega
      simp only [h1, if_true]
      have hline' : vec_at L (i : Int) = .ok ((X ++ [y]) ++ y' :: Y') := by simpa using hline
      have := ih (X ++ [y]) (i : Int) (if p ≠ (i : Int) then acc ++ ['\n'] ++ [y.c] else acc ++ [y.c]) f (by simp) hline'
      simp only [List.length_append, List.length_singleton, Nat.cast_add, Nat.cast_one] at this
      by_cases hp : p = (i : Int)
      · simp [hp] at this ⊢; exact this
      · simp [hp] at this ⊢; exact this


theorem vec_at_of_lt {α : Type} (L : List α) (i : Nat) (hi : i < L.length) :
    vec_at L (i : Int) = .ok (L[i]) := by
  have h : ¬ ((i : Int) < 0) := by omega
  rw [vec_at, if_neg h, Int.toNat_ofNat, List.getElem?_eq_getElem hi]

theorem get_text_loop_lines (L : List (List glyph)) (R : List (List glyph)) :
    ∀ (A : List (List glyph)) (p : Int) (acc : List Char) (fuel : Nat), L = A ++ R →
      (R.map (fun line => line.length + 1)).sum + 1 ≤ fuel →
      get_text_loop L ⟨(L.length : Int), 0⟩ fuel ⟨(A.length : Int), 0⟩ p acc
        = .ok (acc ++ match R with
            | [] => []
            | r :: R' => (if p ≠ (A.length : Int) then ['\n'] else []) ++ r.map glyph.c
                ++ lines_tail_text R') := by
  induction R with
  | nil =>
    intro A p acc fuel hL hfuel
    obtain ⟨f, rfl⟩ : ∃ f, fuel = f + 1 := ⟨fuel - 1, by omega⟩
    subst hL
    simp [get_text_loop, text_pos.le]
  | cons r R ih =>
    intro A p acc fuel hL hfuel
    have hi : A.length < L.length := by subst hL; simp
    have hline : vec_at L (A.length : Int) = .ok ([] ++ r) := by
      subst hL; simpa using vec_at_cast A r R
    have hL' : L = (A ++ [r]) ++ R := by subst hL; simp
    simp only [List.map_cons, List.sum_cons] at hfuel
    cases r with
    | nil =>
      obtain ⟨f, rfl⟩ : ∃ f, fuel = f + 1 := ⟨fuel - 1, by omega⟩
      have h0 : (A.length : Int) ≠ (L.length : Int) := by omega
      have h1 : (A.length : Int) < (L.length : Int) := by omega
      have hne : ¬ ((⟨(A.length : Int), 0⟩ : text_pos) = ⟨(L.length : Int), 0⟩) := by
        simp only [text_pos.mk.injEq]; omega
      have hrec := ih (A ++ [[]]) (A.length : Int)
        (if p ≠ (A.length : Int) then acc ++ ['\n'] else acc) f hL' (by simp only [List.length_nil] at hfuel; omega)
      simp only [List.length_append, List.length_singleton, Nat.cast_add, Nat.cast_one] at hrec
      rw [get_text_loop]
      simp only [text_pos.le, h0, h1, hne, hline, List.nil_append, ne_eq, not_false_eq_true,
        if_true, if_false, decide_True, and_true, except_bind_ok, except_pure, List.isEmpty_nil,
        not_true_eq_false, false_and]
      have h2 : ¬ ((0 : Int) + 1 < (([] : List glyph).length : Int)) := by simp
      simp only [h2, if_false]
      rw [hrec]
      cases R with
      | nil => by_cases hp : p = (A.length : Int) <;> simp [hp, lines_tail_text]
      | cons r' R' =>
        by_cases hp : p = (A.length : Int) <;> simp [hp, lines_tail_text]
    | cons y Y =>
      obtain ⟨f, rfl⟩ : ∃ f, fuel = (y :: Y).length + f := ⟨fuel - (y :: Y).length, by omega⟩
      have hwalk := get_text_loop_line L A.length hi (y :: Y) [] p acc f (by simp) hline
      simp only [List.length_nil, Nat.cast_zero] at hwalk
      rw [hwalk]
      have hrec := ih (A ++ [y :: Y]) (A.length : Int)
        (acc ++ (if p ≠ (A.length : Int) then ['\n'] else []) ++ (y :: Y).map glyph.c) f hL'
        (by omega)
      simp only [List.length_append, List.length_singleton, Nat.cast_add, Nat.cast_one] at hrec
      rw [hrec]
      cases R with
      | nil => simp [lines_tail_text]
      | cons r' R' => simp [lines_tail_text]

theorem get_text_eq_lines_text (s : code_editor_widget) :
    get_text s = .ok (lines_text s._lines) := by
  have h := get_text_loop_lines s._lines s._lines [] 0 [] (get_text_fuel s._lines) rfl
    (by simp [get_text_fuel])
  simp only [List.length_nil, Nat.cast_zero] at h
  rw [get_text, get_text_range, h]
  cases s._lines with
  | nil => simp [lines_text]
  | cons r R => simp [lines_text]


theorem vec_back_push_snoc {α : Type} (A : List (List α)) (l : List α) (x : α) :
    vec_back_push (A ++ [l]) x = .ok (A ++ [l ++ [x]]) := by
  induction A with
  | nil => rfl
  | cons a A ih =>
    cases A with
    | nil => simp [vec_back_push]
    | cons b A =>
      simp only [List.cons_append] at ih ⊢
      simp [vec_back_push, ih]

theorem lines_text_snoc_push (A : List (List glyph)) (l : List glyph) (x : glyph) :
    lines_text (A ++ [l ++ [x]]) = lines_text (A ++ [l]) ++ [x.c] := by
  cases A with
  | nil => simp [lines_text, lines_tail_text]
  | cons a A => simp [lines_text, lines_tail_text, lines_tail_text_append]

theorem lines_text_snoc_nil (A : List (List glyph)) (l : List glyph) :
    lines_text ((A ++ [l]) ++ [[]]) = lines_text (A ++ [l]) ++ ['\n'] := by
  cases A with
  | nil => simp [lines_text, lines_tail_text]
  | cons a A => simp [lines_text, lines_tail_text, lines_tail_text_append]

theorem set_text_loop_text (cs : List Char) :
    ∀ (A : List (List glyph)) (l : List glyph),
      ∃ lines, set_text_loop cs (A ++ [l]) = .ok lines ∧ lines ≠ [] ∧
        lines_text lines = lines_text (A ++ [l]) ++ cs.filter (fun c => c ≠ '\r') := by
  induction cs with
  | nil => intro A l; exact ⟨A ++ [l], rfl, by simp, by simp⟩
  | cons c cs ih =>
    intro A l
    by_cases hr : c = '\r'
    · obtain ⟨lines, h1, h2, h3⟩ := ih A l
      exact ⟨lines, by simp [set_text_loop, hr, h1], h2, by simp [hr, h3]⟩
    · by_cases hn : c = '\n'
      · obtain ⟨lines, h1, h2, h3⟩ := ih (A ++ [l]) []
        refine ⟨lines, ?_, h2, ?_⟩
        · rw [set_text_loop, if_neg hr, if_pos hn]; exact h1
        · rw [h3, lines_text_snoc_nil, List.filter_cons_of_pos (by simpa using hr), hn]
          simp
      · obtain ⟨lines, h1, h2, h3⟩ := ih A (l ++ [⟨c, color_palette.color_default⟩])
        refine ⟨lines, ?_, h2, ?_⟩
        · rw [set_text_loop, if_neg hr, if_neg hn, vec_back_push_snoc]; exact h1
        · rw [h3, lines_text_snoc_push, List.filter_cons_of_pos (by simpa using hr)]
          simp

/-- C1: `set_text(s)` followed by `get_text()` returns s without its carriage
returns, hence s itself when it has none. -/
theorem get_text_set_text (s : code_editor_widget) (text : List Char) :
    (set_text s text >>= get_text) = .ok (text.filter (fun c => c ≠ '\r')) ∧
    ('\r' ∉ text → (set_text s text >>= get_text) = .ok text) := by
  obtain ⟨lines, h1, _, h3⟩ := set_text_loop_text text [] []
  have h : (set_text s text >>= get_text) = .ok (text.filter (fun c => c ≠ '\r')) := by
    simp only [List.nil_append] at h1 h3
    have h4 : lines_text [([] : List glyph)] = [] := rfl
    rw [h4, List.nil_append] at h3
    simp [set_text, h1, get_text_eq_lines_text, h3]
  refine ⟨h, fun hno => ?_⟩
  rw [h]
  congr 1
  rw [List.filter_eq_self]
  intro c hc
  have : c ≠ '\r' := fun e => hno (e ▸ hc)
  simpa using this

theorem get_text_set_text_witness :
    (set_text create "a\n\nb\n".toList >>= get_text) = .ok "a\n\nb\n".toList :=
  (get_text_set_text create "a\n\nb\n".toList).2 (by decide)

theorem vec_at_append {α : Type} (A : List α) (x : α) (B : List α) (i : Int)
    (hi : i = (A.length : Int)) : vec_at (A ++ x :: B) i = .ok x := by
  subst hi; exact vec_at_cast A x B

theorem vec_set_append {α : Type} (A : List α) (x : α) (B : List α) (i : Int)
    (hi : i = (A.length : Int)) (y : α) : vec_set (A ++ x :: B) i y = .ok (A ++ y :: B) := by
  subst hi
  have h : 0 ≤ (A.length : Int) ∧ (A.length : Int) < ((A ++ x :: B).length : Int) := by
    constructor
    · omega
    · simp only [List.length_append, List.length_cons, Nat.cast_add, Nat.cast_one]; omega
  rw [vec_set, if_pos h, Int.toNat_ofNat]
  simp

theorem vec_insert_range_append {α : Type} (A B : List α) (i : Int)
    (hi : i = (A.length : Int)) (xs : List α) :
    vec_insert_range (A ++ B) i xs = .ok (A ++ xs ++ B) := by
  subst hi
  have h : 0 ≤ (A.length : Int) ∧ (A.length : Int) ≤ ((A ++ B).length : Int) := by
    constructor
    · omega
    · simp only [List.length_append, Nat.cast_add]; omega
  rw [vec_insert_range, if_pos h, Int.toNat_ofNat, List.take_left, List.drop_left]

theorem vec_insert_append {α : Type} (A B : List α) (i : Int)
    (hi : i = (A.length : Int)) (x : α) :
    vec_insert (A ++ B) i x = .ok (A ++ x :: B) := by
  rw [vec_insert, vec_insert_range_append A B i hi]
  simp

theorem vec_erase_range_append {α : Type} (A M B : List α) (a b : Int)
    (ha : a = (A.length : Int)) (hb : b = (A.length : Int) + (M.length : Int)) :
    vec_erase_range (A ++ M ++ B) a b = .ok (A ++ B) := by
  subst ha hb
  have h : 0 ≤ (A.length : Int) ∧ (A.length : Int) ≤ (A.length : Int) + (M.length : Int) ∧
      (A.length : Int) + (M.length : Int) ≤ ((A ++ M ++ B).length : Int) := by
    refine ⟨by omega, by omega, ?_⟩
    simp only [List.length_append, Nat.cast_add]; omega
  have e : ((A.length : Int) + (M.length : Int)).toNat = (A ++ M).length := by
    simp only [List.length_append]; omega
  rw [vec_erase_range, if_pos h, Int.toNat_ofNat, e, List.drop_left, List.append_assoc,
    List.take_left]

theorem vec_erase_append {α : Type} (A : List α) (x : α) (B : List α) (i : Int)
    (hi : i = (A.length : Int)) : vec_erase (A ++ x :: B) i = .ok (A ++ B) := by
  subst hi
  have h : 0 ≤ (A.length : Int) ∧ (A.length : Int) < ((A ++ x :: B).length : Int) := by
    constructor
    · omega
    · simp only [List.length_append, List.length_cons, Nat.cast_add, Nat.cast_one]; omega
  rw [vec_erase, if_pos h, Int.toNat_ofNat, List.take_left]
  simp

theorem vec_from_append {α : Type} (A B : List α) (i : Int)
    (hi : i = (A.length : Int)) : vec_from (A ++ B) i = .ok B := by
  subst hi
  have h : 0 ≤ (A.length : Int) ∧ (A.length : Int) ≤ ((A ++ B).length : Int) := by
    constructor
    · omega
    · simp only [List.length_append, Nat.cast_add]; omega
  rw [vec_from, if_pos h, Int.toNat_ofNat, List.drop_left]

/-! ### Error markers under line insertion and deletion -/

theorem lookup_errors_insert (m : List (Int × String)) (k : Int) (v : String) (k' : Int) :
    (errors_insert m k v).lookup k' =
      match m.lookup k' with
      | some w => some w
      | none => if k' = k then some v else none := by
  unfold errors_insert
  induction m with
  | nil =>
    by_cases h : k' = k
    · simp [List.lookup, h]
    · have : (k' == k) = false := by simpa using h
      simp [List.lookup, h, this]
  | cons e m ih =>
    obtain ⟨a, w⟩ := e
    by_cases hk : k = a
    · subst hk
      by_cases h : k' = k
      · subst h; simp [List.lookup]
      · have : (k' == k) = false := by simpa using h
        simp only [List.lookup, beq_self_eq_true, Option.isSome_some, if_true, this, h, if_false]
        cases m.lookup k' <;> rfl
    · have hka : (k == a) = false := by simpa using hk
      simp only [List.lookup, hka] at ih ⊢
      by_cases h' : k' = a
      · subst h'
        by_cases hs : (m.lookup k).isSome
        · simp [hs, List.lookup]
        · simp [hs, List.lookup]
      · have hk'a : (k' == a) = false := by simpa using h'
        by_cases hs : (m.lookup k).isSome
        · simp only [hs, if_true, List.lookup, hk'a] at ih ⊢
          exact ih
        · simp only [hs, if_false, List.cons_append, List.lookup, hk'a] at ih ⊢
          exact ih

/-- The marker map built by the loop of `insert_line`, started from `acc`. -/
theorem lookup_insert_line_errors (line_pos : Int) (es : List (Int × String)) :
    ∀ (acc : List (Int × String)) (k' : Int),
      (es.foldl (fun errors i =>
          errors_insert errors (if i.1 ≥ line_pos then i.1 + 1 else i.1) i.2) acc).lookup k' =
        match acc.lookup k' with
        | some w => some w
        | none =>
          if k' > line_pos then es.lookup (k' - 1)
          else if k' < line_pos then es.lookup k' else none := by
  induction es with
  | nil =>
    intro acc k'
    simp only [List.foldl_nil, List.lookup, ite_self]
    cases acc.lookup k' <;> rfl
  | cons e es ih =>
    intro acc k'
    obtain ⟨a, w⟩ := e
    rw [List.foldl_cons, ih, lookup_errors_insert]
    cases hacc : acc.lookup k' with
    | some u => rfl
    | none =>
      simp only [List.lookup]
      by_cases ha : a ≥ line_pos
      · simp only [ha, if_true]
        by_cases h1 : k' = a + 1
        · subst h1
          have h2 : a + 1 > line_pos := by omega
          simp [h2]
        · have h3 : ¬ (k' - 1 = a) := by omega
          have h4 : (k' - 1 == a) = false := by simpa using h3
          have h5 : ¬ (k' = a) ∨ ¬ (k' < line_pos) := by omega
          simp only [h1, if_false, h4]
          by_cases h6 : k' > line_pos
          · simp [h6]
          · simp only [h6, if_false]
            by_cases h7 : k' < line_pos
            · have h8 : (k' == a) = false := by
                have : k' ≠ a := by omega
                simpa using this
              simp [h7, h8]
            · simp [h7]
      · simp only [ha, if_false]
        by_cases h1 : k' = a
        · subst h1
          have h2 : ¬ (k' > line_pos) := by omega
          have h3 : k' < line_pos := by omega
          simp [h2, h3]
        · have h4 : (k' == a) = false := by simpa using h1
          simp only [h1, if_false, h4]
          by_cases h6 : k' > line_pos
          · have h8 : (k' - 1 == a) = false := by
              have : k' - 1 ≠ a := by omega
              simpa using this
            simp [h6, h8]
          · simp [h6]

theorem delete_lines_errors_loop (first_line last_line : Int) (h : first_line ≤ last_line)
    (es : List (Int × String)) :
    ∀ acc : List (Int × String),
      es.foldl (fun errors i =>
        if i.1 < first_line ∧ i.1 > last_line then
          errors_insert errors
            (if i.1 > last_line then i.1 - (last_line - first_line) else i.1) i.2
        else errors) acc = acc := by
  induction es with
  | nil => intro acc; rfl
  | cons e es ih =>
    intro acc
    have hc : ¬ (e.1 < first_line ∧ e.1 > last_line) := by omega
    rw [List.foldl_cons, if_neg hc, ih]

/-- C4: `delete_lines(3, 3)` on a document of six lines with the markers
`{2: "a", 5: "b"}` leaves no marker at all, where `{2: "a", 4: "b"}` is expected:
the condition of the renumbering loop, `key < first_line && key > last_line`, holds
for no key. -/
theorem delete_lines_markers_lost :
    delete_lines
      { create with
        _lines := [glyphs "l0", glyphs "l1", glyphs "l2", glyphs "l3", glyphs "l4", glyphs "l5"]
        _errors := [(2, "a"), (5, "b")] } 3 3
    = .ok
      { create with
        _lines := [glyphs "l0", glyphs "l1", glyphs "l2", glyphs "l4", glyphs "l5"]
        _errors := []
        _colorize_line_beg := 3
        _colorize_line_end := 4 } := by
  rfl

/-- For every range with `first_line <= last_line`, `delete_lines` leaves the
marker map empty. -/
theorem delete_lines_errors_empty (s s' : code_editor_widget) (first_line last_line : Int)
    (h : first_line ≤ last_line) (hs : delete_lines s first_line last_line = .ok s') :
    s'._errors = [] := by
  unfold delete_lines delete_lines_errors at hs
  rw [delete_lines_errors_loop first_line last_line h] at hs
  cases hv : vec_erase_range s._lines first_line (last_line + 1) with
  | error e => rw [hv] at hs; simp at hs
  | ok lines =>
    rw [hv] at hs
    simp only [except_bind_ok, except_pure, Except.ok.injEq] at hs
    rw [← hs]

/-- C5: `insert_line(at)` at a valid index puts one empty line at that index and
leaves the other lines in order; every marker with key `k >= at` is found
under `k + 1`, every marker with key `k < at` under `k`, and there is no other
marker.  Twice at index 1, the markers `{2: "a", 5: "b"}` become `{4: "a", 7: "b"}`. -/
theorem insert_line_spec (s : code_editor_widget) (A B : List (List glyph))
    (h : s._lines = A ++ B) :
    (insert_line s (A.length : Int) = .ok
        { s with _colorize_line_beg := min s._colorize_line_beg (A.length : Int)
                 _colorize_line_end := max s._colorize_line_end ((A.length : Int) + 1)
                 _errors := insert_line_errors s._errors (A.length : Int)
                 _lines := A ++ [] :: B } ∧
      (∀ k : Int, k ≥ (A.length : Int) →
        (insert_line_errors s._errors (A.length : Int)).lookup (k + 1) = s._errors.lookup k) ∧
      (∀ k : Int, k < (A.length : Int) →
        (insert_line_errors s._errors (A.length : Int)).lookup k = s._errors.lookup k) ∧
      (insert_line_errors s._errors (A.length : Int)).lookup (A.length : Int) = none) ∧
    (insert_line { create with _lines := [glyphs "l0", glyphs "l1"]
                               _errors := [(2, "a"), (5, "b")] } 1
        >>= fun s1 => insert_line s1 1)
      = .ok { create with _lines := [glyphs "l0", [], [], glyphs "l1"]
                          _errors := [(4, "a"), (7, "b")]
                          _colorize_line_beg := 1
                          _colorize_line_end := 2 } := by
  refine ⟨⟨?_, ?_, ?_, ?_⟩, by rfl⟩
  · rw [insert_line, h, vec_insert_append A B _ rfl]
    rfl
  · intro k hk
    rw [insert_line_errors, lookup_insert_line_errors]
    have h1 : k + 1 > (A.length : Int) := by omega
    simp [List.lookup, h1]
  · intro k hk
    rw [insert_line_errors, lookup_insert_line_errors]
    have h1 : ¬ (k > (A.length : Int)) := by omega
    simp [List.lookup, h1, hk]
  · rw [insert_line_errors, lookup_insert_line_errors]
    simp [List.lookup]

theorem insert_line_spec_witness :
    insert_line { create with _lines := [glyphs "l0", glyphs "l1"]
                              _errors := [(0, "a"), (2, "b")] } 1 = .ok
      { create with _colorize_line_beg := 1
                    _colorize_line_end := 2
                    _errors := [(0, "a"), (3, "b")]
                    _lines := [glyphs "l0", [], glyphs "l1"] } :=
  (insert_line_spec { create with _lines := [glyphs "l0", glyphs "l1"]
                                  _errors := [(0, "a"), (2, "b")] }
    [glyphs "l0"] [glyphs "l1"] rfl).1.1

/-! ### Selection -/

theorem text_pos_le_of_not_gt (a b : text_pos) (h : ¬ (b.gt a = true)) : b.le a = true := by
  unfold text_pos.gt text_pos.lt at h
  unfold text_pos.le
  by_cases hl : a.line = b.line
  · have hl' : ¬ (b.line ≠ a.line) := by simp [hl]
    simp only [hl, ne_eq, not_true_eq_false, if_false, decide_eq_true_eq] at h ⊢
    omega
  · have hl' : b.line ≠ a.line := fun e => hl e.symm
    simp only [ne_eq, hl, not_false_eq_true, if_true, decide_eq_true_eq, hl'] at h ⊢
    omega

theorem text_pos_le_of_gt (a b : text_pos) (h : b.gt a = true) : a.le b = true := by
  unfold text_pos.gt text_pos.lt at h
  unfold text_pos.le
  by_cases hl : a.line = b.line
  · simp only [hl, ne_eq, not_true_eq_false, if_false, decide_eq_true_eq] at h ⊢
    omega
  · simp only [ne_eq, hl, not_false_eq_true, if_true, decide_eq_true_eq] at h ⊢
    exact h

/-- C6: after `select(a, b, normal)` the selection is the pair a, b in
non-decreasing order: `_select_beg <= _select_end`, and the two ends are a and b;
nothing else of the widget changes. -/
theorem select_normal (s : code_editor_widget) (a b : text_pos) :
    ∃ s', select s a b selection_mode.normal = .ok s' ∧
      s'._select_beg.le s'._select_end = true ∧
      ((s'._select_beg = a ∧ s'._select_end = b) ∨ (s'._select_beg = b ∧ s'._select_end = a)) ∧
      s' = { s with _select_beg := s'._select_beg, _select_end := s'._select_end } := by
  by_cases h : b.gt a = true
  · exact ⟨{ s with _select_beg := a, _select_end := b }, by simp [select, h],
      text_pos_le_of_gt a b h, Or.inl ⟨rfl, rfl⟩, rfl⟩
  · exact ⟨{ s with _select_beg := b, _select_end := a }, by simp [select, h],
      text_pos_le_of_not_gt a b h, Or.inr ⟨rfl, rfl⟩, rfl⟩

/-! ### Deleting a range -/

@[simp] theorem assert_that_true : assert_that true = .ok () := rfl

theorem text_pos_gt_same_line (l c d : Int) (h : c < d) :
    (⟨l, d⟩ : text_pos).gt ⟨l, c⟩ = true := by
  simp [text_pos.gt, text_pos.lt, h]

theorem text_pos_gt_of_line_lt (l m c d : Int) (h : l < m) :
    (⟨m, d⟩ : text_pos).gt ⟨l, c⟩ = true := by
  have h' : l ≠ m := by omega
  simp [text_pos.gt, text_pos.lt, h, h']

theorem delete_range_same_line (s : code_editor_widget) (A B : List (List glyph))
    (X M Y : List glyph) (h : s._lines = A ++ (X ++ M ++ Y) :: B) (hM : M ≠ []) :
    delete_range s ⟨(A.length : Int), (X.length : Int)⟩
        ⟨(A.length : Int), (X.length : Int) + (M.length : Int)⟩
      = .ok { s with _lines := A ++ (X ++ Y) :: B
                     _colorize_line_beg := min s._colorize_line_beg (A.length : Int)
                     _colorize_line_end := max s._colorize_line_end ((A.length : Int) + 1) } := by
  have hlen : 0 < M.length := List.length_pos.mpr hM
  have hne : ¬ ((⟨(A.length : Int), (X.length : Int) + (M.length : Int)⟩ : text_pos)
      = ⟨(A.length : Int), (X.length : Int)⟩) := by
    simp only [text_pos.mk.injEq]; omega
  have hgt := text_pos_gt_same_line (A.length : Int) (X.length : Int)
    ((X.length : Int) + (M.length : Int)) (by omega)
  have hcol : decide ((X.length : Int) + (M.length : Int) ≥ 0) = true := by
    simp only [decide_eq_true_eq]; omega
  unfold delete_range
  simp only [hne, if_false, hgt, hcol, assert_that_true, except_bind_ok, if_true, h,
    vec_at_append A _ B _ rfl]
  by_cases hY : Y = []
  · subst hY
    have hc : (X.length : Int) + (M.length : Int) ≥ ((X ++ M ++ []).length : Int) := by
      simp
    have he := vec_erase_range_append X M [] (X.length : Int) ((X ++ M ++ []).length : Int) rfl
      (by simp)
    simp only [if_pos hc, he, except_bind_ok, vec_set_append A _ B _ rfl, except_pure]
  · have hYlen : 0 < Y.length := List.length_pos.mpr hY
    have hc : ¬ ((X.length : Int) + (M.length : Int) ≥ ((X ++ M ++ Y).length : Int)) := by
      simp only [List.length_append, Nat.cast_add]; omega
    have he := vec_erase_range_append X M Y (X.length : Int)
      ((X.length : Int) + (M.length : Int)) rfl rfl
    simp only [if_neg hc, he, except_bind_ok, vec_set_append A _ B _ rfl, except_pure]

theorem vec_at_eq {α : Type} {v A B : List α} {x : α} {i : Int}
    (hv : v = A ++ x :: B) (hi : i = (A.length : Int)) : vec_at v i = .ok x := by
  subst hv; exact vec_at_append A x B i hi

theorem vec_set_eq {α : Type} {v A B : List α} {x : α} {i : Int}
    (hv : v = A ++ x :: B) (hi : i = (A.length : Int)) (y : α) :
    vec_set v i y = .ok (A ++ y :: B) := by
  subst hv; exact vec_set_append A x B i hi y

theorem vec_erase_range_eq {α : Type} {v A M B : List α} {a b : Int}
    (hv : v = A ++ M ++ B) (ha : a = (A.length : Int))
    (hb : b = (A.length : Int) + (M.length : Int)) :
    vec_erase_range v a b = .ok (A ++ B) := by
  subst hv; exact vec_erase_range_append A M B a b ha hb

theorem vec_insert_range_eq {α : Type} {v A B : List α} {i : Int}
    (hv : v = A ++ B) (hi : i = (A.length : Int)) (xs : List α) :
    vec_insert_range v i xs = .ok (A ++ xs ++ B) := by
  subst hv; exact vec_insert_range_append A B i hi xs

theorem vec_from_eq {α : Type} {v A B : List α} {i : Int}
    (hv : v = A ++ B) (hi : i = (A.length : Int)) : vec_from v i = .ok B := by
  subst hv; exact vec_from_append A B i hi

theorem vec_erase_eq {α : Type} {v A B : List α} {x : α} {i : Int}
    (hv : v = A ++ x :: B) (hi : i = (A.length : Int)) : vec_erase v i = .ok (A ++ B) := by
  subst hv; exact vec_erase_append A x B i hi

theorem delete_range_cross_line (s : code_editor_widget) (A Mid B : List (List glyph))
    (X X' Z Y : List glyph) (h : s._lines = A ++ (X ++ X') :: (Mid ++ (Z ++ Y) :: B)) :
    delete_range s ⟨(A.length : Int), (X.length : Int)⟩
        ⟨(A.length : Int) + 1 + (Mid.length : Int), (Z.length : Int)⟩
      = .ok { s with _lines := A ++ (X ++ Y) :: B
                     _errors := delete_lines_errors s._errors ((A.length : Int) + 1)
                       ((A.length : Int) + 1 + (Mid.length : Int))
                     _colorize_line_beg := min s._colorize_line_beg (A.length : Int)
                     _colorize_line_end :=
                       max s._colorize_line_end ((A.length : Int) + 1 + (Mid.length : Int) + 1) } := by
  have hne : ¬ ((⟨(A.length : Int) + 1 + (Mid.length : Int), (Z.length : Int)⟩ : text_pos)
      = ⟨(A.length : Int), (X.length : Int)⟩) := by
    simp only [text_pos.mk.injEq]; omega
  have hgt := text_pos_gt_of_line_lt (A.length : Int) ((A.length : Int) + 1 + (Mid.length : Int))
    (X.length : Int) (Z.length : Int) (by omega)
  have hcol : decide ((Z.length : Int) ≥ 0) = true := by
    simp only [decide_eq_true_eq]; omega
  have hline : ¬ ((A.length : Int) = (A.length : Int) + 1 + (Mid.length : Int)) := by omega
  have hlt : (A.length : Int) < (A.length : Int) + 1 + (Mid.length : Int) := by omega
  have h1 : vec_at (A ++ (X ++ X') :: (Mid ++ (Z ++ Y) :: B)) (A.length : Int) = .ok (X ++ X') :=
    vec_at_eq rfl rfl
  have h2 : vec_at (A ++ (X ++ X') :: (Mid ++ (Z ++ Y) :: B))
      ((A.length : Int) + 1 + (Mid.length : Int)) = .ok (Z ++ Y) :=
    vec_at_eq (A := A ++ (X ++ X') :: Mid) (B := B) (by simp) (by simp; omega)
  have h3 : vec_erase_range (X ++ X') (X.length : Int) ((X ++ X').length : Int) = .ok X := by
    have := vec_erase_range_eq (v := X ++ X') (A := X) (M := X') (B := [])
      (a := (X.length : Int)) (b := ((X ++ X').length : Int)) (by simp) rfl (by simp)
    simpa using this
  have h4 : vec_erase_range (Z ++ Y) 0 (Z.length : Int) = .ok Y := by
    have := vec_erase_range_eq (v := Z ++ Y) (A := []) (M := Z) (B := Y)
      (a := 0) (b := (Z.length : Int)) (by simp) (by simp) (by simp)
    simpa using this
  have h5 : vec_insert_range X (X.length : Int) Y = .ok (X ++ Y) := by
    have := vec_insert_range_eq (v := X) (A := X) (B := []) (i := (X.length : Int))
      (by simp) rfl Y
    simpa using this
  have h6 : vec_set (A ++ (X ++ X') :: (Mid ++ (Z ++ Y) :: B)) (A.length : Int) (X ++ Y)
      = .ok (A ++ (X ++ Y) :: (Mid ++ (Z ++ Y) :: B)) := vec_set_eq rfl rfl _
  have h7 : vec_set (A ++ (X ++ Y) :: (Mid ++ (Z ++ Y) :: B))
      ((A.length : Int) + 1 + (Mid.length : Int)) Y
      = .ok ((A ++ (X ++ Y) :: Mid) ++ Y :: B) :=
    vec_set_eq (A := A ++ (X ++ Y) :: Mid) (B := B) (x := Z ++ Y) (by simp) (by simp; omega) _
  have h8 : vec_erase_range ((A ++ (X ++ Y) :: Mid) ++ Y :: B) ((A.length : Int) + 1)
      ((A.length : Int) + 1 + (Mid.length : Int) + 1) = .ok (A ++ (X ++ Y) :: B) := by
    have := vec_erase_range_eq (v := (A ++ (X ++ Y) :: Mid) ++ Y :: B) (A := A ++ [X ++ Y])
      (M := Mid ++ [Y]) (B := B) (a := (A.length : Int) + 1)
      (b := (A.length : Int) + 1 + (Mid.length : Int) + 1) (by simp) (by simp) (by simp; omega)
    simpa using this
  unfold delete_range
  simp only [hne, if_false, hgt, hcol, assert_that_true, except_bind_ok, hline, h, h1, h2, h3, h4,
    hlt, if_true, h5, h6, h7, except_pure, delete_lines, h8]
  have hemp : (!(A ++ (X ++ Y) :: B).isEmpty) = true := by simp
  have hmin : min (min s._colorize_line_beg (A.length : Int)) ((A.length : Int) + 1)
      = min s._colorize_line_beg (A.length : Int) := by omega
  have hmax : max (max s._colorize_line_end ((A.length : Int) + 1 + (Mid.length : Int) + 1))
      ((A.length : Int) + 1 + (Mid.length : Int) + 1)
      = max s._colorize_line_end ((A.length : Int) + 1 + (Mid.length : Int) + 1) := by omega
  simp only [hemp, assert_that_true, except_bind_ok, hmin, hmax]

/-! ### From positions to the parts of the document around them -/

theorem list_split_at {α : Type} (L : List α) :
    ∀ (l : Nat) (x : α), L[l]? = some x →
      L = L.take l ++ x :: L.drop (l + 1) ∧ (L.take l).length = l := by
  induction L with
  | nil => intro l x h; simp at h
  | cons a L ih =>
    intro l x h
    cases l with
    | zero =>
      simp only [List.getElem?_cons_zero, Option.some.injEq] at h
      subst h
      simp
    | succ l =>
      simp only [List.getElem?_cons_succ] at h
      obtain ⟨h1, h2⟩ := ih l x h
      refine ⟨?_, by simp [h2]⟩
      simp only [List.take_succ_cons, List.drop_succ_cons, List.cons_append]
      rw [← h1]

theorem list_split_two {α : Type} (L : List α) (bl el : Nat) (x y : α)
    (hx : L[bl]? = some x) (hy : L[el]? = some y) (hlt : bl < el) :
    L = L.take bl ++ x :: ((L.drop (bl + 1)).take (el - bl - 1) ++ y :: L.drop (el + 1)) ∧
      (L.take bl).length = bl ∧ ((L.drop (bl + 1)).take (el - bl - 1)).length = el - bl - 1 := by
  obtain ⟨h1, h2⟩ := list_split_at L bl x hx
  have hy' : (L.drop (bl + 1))[el - bl - 1]? = some y := by
    rw [List.getElem?_drop]
    have : bl + 1 + (el - bl - 1) = el := by omega
    rw [this]; exact hy
  obtain ⟨h3, h4⟩ := list_split_at (L.drop (bl + 1)) (el - bl - 1) y hy'
  have h5 : (L.drop (bl + 1)).drop (el - bl - 1 + 1) = L.drop (el + 1) := by
    rw [List.drop_drop]
    congr 1
    omega
  rw [h5] at h3
  refine ⟨?_, h2, h4⟩
  rw [← h3]
  exact h1

theorem line_split_at {α : Type} (line : List α) (c : Nat) (hc : c ≤ line.length) :
    line = line.take c ++ line.drop c ∧ (line.take c).length = c := by
  refine ⟨(List.take_append_drop c line).symm, ?_⟩
  rw [List.length_take]
  omega

theorem line_split_two {α : Type} (line : List α) (bc ec : Nat) (h : bc ≤ ec)
    (hc : ec ≤ line.length) :
    line = line.take bc ++ (line.drop bc).take (ec - bc) ++ line.drop ec ∧
      (line.take bc).length = bc ∧ ((line.drop bc).take (ec - bc)).length = ec - bc := by
  have h1 : (line.drop bc).drop (ec - bc) = line.drop ec := by
    rw [List.drop_drop]; congr 1; omega
  refine ⟨?_, ?_, ?_⟩
  · rw [List.append_assoc, ← h1, List.take_append_drop, List.take_append_drop]
  · rw [List.length_take]; omega
  · rw [List.length_take, List.length_drop]; omega

/-- C7: for in-bounds positions `begin < end`, `delete_range(begin, end)` turns line
`begin.line` into the old begin line up to `begin.column` followed by the old end line
from `end.column` on, removes the lines `begin.line + 1 .. end.line`, and keeps all
other lines in order; the number of lines drops by `end.line - begin.line`.  On one
line this removes the characters `[begin.column, end.column)` of that line. -/
theorem delete_range_spec (s : code_editor_widget) (bl bc el ec : Nat)
    (beg_line end_line : List glyph)
    (hb : s._lines[bl]? = some beg_line) (he : s._lines[el]? = some end_line)
    (hbc : bc ≤ beg_line.length) (hec : ec ≤ end_line.length)
    (hlt : bl < el ∨ (bl = el ∧ bc < ec)) :
    delete_range s ⟨(bl : Int), (bc : Int)⟩ ⟨(el : Int), (ec : Int)⟩ = .ok
      { s with _lines := s._lines.take bl ++ (beg_line.take bc ++ end_line.drop ec)
                           :: s._lines.drop (el + 1)
               _errors := if bl < el then
                            delete_lines_errors s._errors ((bl : Int) + 1) (el : Int)
                          else s._errors
               _colorize_line_beg := min s._colorize_line_beg (bl : Int)
               _colorize_line_end := max s._colorize_line_end ((el : Int) + 1) } ∧
    (s._lines.take bl ++ (beg_line.take bc ++ end_line.drop ec) :: s._lines.drop (el + 1)).length
        + (el - bl) = s._lines.length := by
  have hbl : bl < s._lines.length := (List.getElem?_eq_some.mp hb).1
  have hel : el < s._lines.length := (List.getElem?_eq_some.mp he).1
  constructor
  · rcases hlt with hlt | ⟨hll, hcc⟩
    · obtain ⟨h1, h2, h3⟩ := list_split_two s._lines bl el beg_line end_line hb he hlt
      obtain ⟨h4, h5⟩ := line_split_at beg_line bc hbc
      obtain ⟨h6, h7⟩ := line_split_at end_line ec hec
      have hL : s._lines = s._lines.take bl ++ (beg_line.take bc ++ beg_line.drop bc)
          :: ((s._lines.drop (bl + 1)).take (el - bl - 1)
            ++ (end_line.take ec ++ end_line.drop ec) :: s._lines.drop (el + 1)) := by
        rw [← h4, ← h6]; exact h1
      have key := delete_range_cross_line s _ _ _ _ _ _ _ hL
      have e1 : ((bl : Int) + 1 + ((el - bl - 1 : Nat) : Int)) = (el : Int) := by omega
      rw [h2, h3, h5, h7, e1] at key
      rw [key, if_pos hlt]
    · subst hll
      have hsame : beg_line = end_line := by
        rw [hb] at he; exact Option.some.inj he
      subst hsame
      obtain ⟨h1, h2⟩ := list_split_at s._lines bl beg_line hb
      obtain ⟨h4, h5, h6⟩ := line_split_two beg_line bc ec (by omega) hec
      have hL : s._lines = s._lines.take bl
          ++ (beg_line.take bc ++ (beg_line.drop bc).take (ec - bc) ++ beg_line.drop ec)
            :: s._lines.drop (bl + 1) := by
        rw [← h4]; exact h1
      have hM : (beg_line.drop bc).take (ec - bc) ≠ [] := by
        intro h; rw [h] at h6; simp at h6; omega
      have key := delete_range_same_line s _ _ _ _ _ hL hM
      have e1 : ((bc : Int) + ((ec - bc : Nat) : Int)) = (ec : Int) := by omega
      rw [h2, h5, h6, e1] at key
      rw [key, if_neg (Nat.lt_irrefl bl)]
  · simp only [List.length_append, List.length_cons, List.length_take, List.length_drop]
    omega

theorem delete_range_spec_witness :
    delete_range { create with _lines := [glyphs "one", glyphs "two", glyphs "three"] }
        ⟨0, 1⟩ ⟨2, 3⟩ = .ok
      { create with _lines := [glyphs "oee"]
                    _colorize_line_beg := 0
                    _colorize_line_end := 3 } ∧
    delete_range { create with _lines := [glyphs "one", glyphs "two"] } ⟨1, 0⟩ ⟨1, 2⟩ = .ok
      { create with _lines := [glyphs "one", glyphs "o"]
                    _colorize_line_beg := 1
                    _colorize_line_end := 2 } :=
  ⟨(delete_range_spec { create with _lines := [glyphs "one", glyphs "two", glyphs "three"] }
      0 1 2 3 (glyphs "one") (glyphs "three") rfl rfl (by decide) (by decide)
      (Or.inl (by decide))).1,
   (delete_range_spec { create with _lines := [glyphs "one", glyphs "two"] }
      1 0 1 2 (glyphs "two") (glyphs "two") rfl rfl (by decide) (by decide)
      (Or.inr ⟨rfl, by decide⟩)).1⟩

theorem list_split_adjacent {α : Type} (L : List α) (l : Nat) (x y : α)
    (hx : L[l]? = some x) (hy : L[l + 1]? = some y) :
    L = L.take l ++ x :: y :: L.drop (l + 2) ∧ (L.take l).length = l := by
  obtain ⟨h1, h2, _⟩ := list_split_two L l (l + 1) x y hx hy (by omega)
  have e : l + 1 - l - 1 = 0 := by omega
  rw [e, List.take_zero, List.nil_append] at h1
  exact ⟨h1, h2⟩

/-! ### Deleting at the cursor -/

theorem delete_next_join_parts (s : code_editor_widget) (A B : List (List glyph))
    (line next_line : List glyph) (h : s._lines = A ++ line :: next_line :: B)
    (hsel : s.has_selection = false)
    (hcur : s._cursor_pos = ⟨(A.length : Int), (line.length : Int)⟩) :
    delete_next s = .ok
      { s with _lines := A ++ (line ++ next_line) :: B
               _errors := delete_lines_errors s._errors ((A.length : Int) + 1)
                 ((A.length : Int) + 1)
               _colorize_line_beg := min s._colorize_line_beg ((A.length : Int) + 1)
               _colorize_line_end := max s._colorize_line_end ((A.length : Int) + 1 + 1) } := by
  have hemp : (A ++ line :: next_line :: B).isEmpty = false := by simp
  have hlast : ¬ ((A.length : Int) = ((A ++ line :: next_line :: B).length : Int) - 1) := by
    simp only [List.length_append, List.length_cons, Nat.cast_add, Nat.cast_one]; omega
  have h1 : vec_at (A ++ line :: next_line :: B) (A.length : Int) = .ok line :=
    vec_at_eq rfl rfl
  have h2 : vec_at (A ++ line :: next_line :: B) ((A.length : Int) + 1) = .ok next_line :=
    vec_at_eq (A := A ++ [line]) (B := B) (by simp) (by simp)
  have h3 : vec_insert_range line (line.length : Int) next_line = .ok (line ++ next_line) := by
    have := vec_insert_range_eq (v := line) (A := line) (B := []) (i := (line.length : Int))
      (by simp) rfl next_line
    simpa using this
  have h4 : vec_set (A ++ line :: next_line :: B) (A.length : Int) (line ++ next_line)
      = .ok (A ++ (line ++ next_line) :: next_line :: B) := vec_set_eq rfl rfl _
  have h5 : vec_erase_range (A ++ (line ++ next_line) :: next_line :: B) ((A.length : Int) + 1)
      ((A.length : Int) + 1 + 1) = .ok (A ++ (line ++ next_line) :: B) := by
    have := vec_erase_range_eq (v := A ++ (line ++ next_line) :: next_line :: B)
      (A := A ++ [line ++ next_line]) (M := [next_line]) (B := B) (a := (A.length : Int) + 1)
      (b := (A.length : Int) + 1 + 1) (by simp) (by simp) (by simp)
    simpa using this
  unfold delete_next
  simp only [hemp, hsel, hcur, h, h1, h2, h3, h4, h5, hlast, if_false, if_true, except_bind_ok,
    except_pure, delete_lines, Bool.false_eq_true]

/-- C9: with no selection and the cursor at the end of a line l that is not the
last one, `delete_next` makes line l the old line l followed by the old line
`l + 1`, removes line `l + 1` (one line less, the later lines move up unchanged)
and leaves the cursor where it was. -/
theorem delete_next_join (s : code_editor_widget) (l : Nat) (line next_line : List glyph)
    (hl : s._lines[l]? = some line) (hn : s._lines[l + 1]? = some next_line)
    (hsel : s.has_selection = false)
    (hcur : s._cursor_pos = ⟨(l : Int), (line.length : Int)⟩) :
    delete_next s = .ok
      { s with _lines := s._lines.take l ++ (line ++ next_line) :: s._lines.drop (l + 2)
               _errors := delete_lines_errors s._errors ((l : Int) + 1) ((l : Int) + 1)
               _colorize_line_beg := min s._colorize_line_beg ((l : Int) + 1)
               _colorize_line_end := max s._colorize_line_end ((l : Int) + 1 + 1) } ∧
    (s._lines.take l ++ (line ++ next_line) :: s._lines.drop (l + 2)).length + 1
      = s._lines.length := by
  have hlen : l + 1 < s._lines.length := (List.getElem?_eq_some.mp hn).1
  obtain ⟨h1, h2⟩ := list_split_adjacent s._lines l line next_line hl hn
  constructor
  · have key := delete_next_join_parts s _ _ _ _ h1 hsel (by rw [h2]; exact hcur)
    rw [h2] at key
    exact key
  · simp only [List.length_append, List.length_cons, List.length_take, List.length_drop]
    omega

theorem delete_next_join_witness :
    delete_next { create with _lines := [glyphs "foo", glyphs "bar"], _cursor_pos := ⟨0, 3⟩ }
      = .ok { create with _lines := [glyphs "foobar"]
                          _cursor_pos := ⟨0, 3⟩
                          _colorize_line_beg := 1
                          _colorize_line_end := 2 } :=
  (delete_next_join { create with _lines := [glyphs "foo", glyphs "bar"], _cursor_pos := ⟨0, 3⟩ }
    0 (glyphs "foo") (glyphs "bar") rfl rfl rfl rfl).1

theorem delete_previous_join_parts (s : code_editor_widget) (A B : List (List glyph))
    (prev_line line : List glyph) (h : s._lines = A ++ prev_line :: line :: B)
    (hsel : s.has_selection = false)
    (hcur : s._cursor_pos = ⟨(A.length : Int) + 1, 0⟩) :
    delete_previous s = .ok
      { s with _lines := A ++ (prev_line ++ line) :: B
               _errors := delete_lines_errors s._errors ((A.length : Int) + 1)
                 ((A.length : Int) + 1)
               _cursor_pos := ⟨(A.length : Int), (prev_line.length : Int)⟩
               _colorize_line_beg := min s._colorize_line_beg ((A.length : Int) + 1)
               _colorize_line_end := max s._colorize_line_end ((A.length : Int) + 1 + 1)
               _scroll_to_cursor := true } := by
  have hemp : (A ++ prev_line :: line :: B).isEmpty = false := by simp
  have hfirst : ¬ ((A.length : Int) + 1 = 0) := by omega
  have h1 : vec_at (A ++ prev_line :: line :: B) ((A.length : Int) + 1) = .ok line :=
    vec_at_eq (A := A ++ [prev_line]) (B := B) (by simp) (by simp)
  have h2 : vec_at (A ++ prev_line :: line :: B) (A.length : Int) = .ok prev_line :=
    vec_at_eq rfl rfl
  have h3 : vec_insert_range prev_line (prev_line.length : Int) line
      = .ok (prev_line ++ line) := by
    have := vec_insert_range_eq (v := prev_line) (A := prev_line) (B := [])
      (i := (prev_line.length : Int)) (by simp) rfl line
    simpa using this
  have h4 : vec_set (A ++ prev_line :: line :: B) (A.length : Int) (prev_line ++ line)
      = .ok (A ++ (prev_line ++ line) :: line :: B) := vec_set_eq rfl rfl _
  have h5 : vec_erase_range (A ++ (prev_line ++ line) :: line :: B) ((A.length : Int) + 1)
      ((A.length : Int) + 1 + 1) = .ok (A ++ (prev_line ++ line) :: B) := by
    have := vec_erase_range_eq (v := A ++ (prev_line ++ line) :: line :: B)
      (A := A ++ [prev_line ++ line]) (M := [line]) (B := B) (a := (A.length : Int) + 1)
      (b := (A.length : Int) + 1 + 1) (by simp) (by simp) (by simp)
    simpa using this
  have e : (A.length : Int) + 1 - 1 = (A.length : Int) := by omega
  unfold delete_previous
  simp only [hemp, hsel, hcur, h, h1, h2, h3, h4, h5, hfirst, if_false, if_true, except_bind_ok,
    except_pure, delete_lines, Bool.false_eq_true, e]

theorem delete_previous_glyph_parts (s : code_editor_widget) (A B : List (List glyph))
    (X Y : List glyph) (g : glyph) (h : s._lines = A ++ (X ++ g :: Y) :: B)
    (hsel : s.has_selection = false)
    (hcur : s._cursor_pos = ⟨(A.length : Int), (X.length : Int) + 1⟩) :
    delete_previous s = .ok
      { s with _lines := A ++ (X ++ Y) :: B
               _cursor_pos := ⟨(A.length : Int), (X.length : Int)⟩
               _colorize_line_beg := min s._colorize_line_beg (A.length : Int)
               _colorize_line_end := max s._colorize_line_end ((A.length : Int) + 1)
               _scroll_to_cursor := true } := by
  have hemp : (A ++ (X ++ g :: Y) :: B).isEmpty = false := by simp
  have hcol : ¬ ((X.length : Int) + 1 = 0) := by omega
  have h1 : vec_at (A ++ (X ++ g :: Y) :: B) (A.length : Int) = .ok (X ++ g :: Y) :=
    vec_at_eq rfl rfl
  have h2 : (X.length : Int) < ((X ++ g :: Y).length : Int) := by
    simp only [List.length_append, List.length_cons, Nat.cast_add, Nat.cast_one]; omega
  have h3 : vec_erase (X ++ g :: Y) (X.length : Int) = .ok (X ++ Y) :=
    vec_erase_eq rfl rfl
  have h4 : vec_set (A ++ (X ++ g :: Y) :: B) (A.length : Int) (X ++ Y)
      = .ok (A ++ (X ++ Y) :: B) := vec_set_eq rfl rfl _
  have e : (X.length : Int) + 1 - 1 = (X.length : Int) := by omega
  unfold delete_previous
  simp only [hemp, hsel, hcur, h, h1, h2, h3, h4, hcol, if_false, if_true, except_bind_ok,
    except_pure, Bool.false_eq_true, e]

/-- C10: with no selection, `delete_previous` with the cursor at column 0 of a line
`l + 1` appends that line to line l, removes line `l + 1` and moves the cursor to the
join point `(l, old length of line l)`; with the cursor behind the glyph at column
c of line l it removes exactly that glyph and moves the cursor to `(l, c)`. -/
theorem delete_previous_spec (s : code_editor_widget) (l : Nat) (hsel : s.has_selection = false) :
    (∀ prev_line line : List glyph,
      s._lines[l]? = some prev_line → s._lines[l + 1]? = some line →
      s._cursor_pos = ⟨(l : Int) + 1, 0⟩ →
      delete_previous s = .ok
        { s with _lines := s._lines.take l ++ (prev_line ++ line) :: s._lines.drop (l + 2)
                 _errors := delete_lines_errors s._errors ((l : Int) + 1) ((l : Int) + 1)
                 _cursor_pos := ⟨(l : Int), (prev_line.length : Int)⟩
                 _colorize_line_beg := min s._colorize_line_beg ((l : Int) + 1)
                 _colorize_line_end := max s._colorize_line_end ((l : Int) + 1 + 1)
                 _scroll_to_cursor := true }) ∧
    (∀ (line : List glyph) (c : Nat),
      s._lines[l]? = some line → c < line.length →
      s._cursor_pos = ⟨(l : Int), (c : Int) + 1⟩ →
      delete_previous s = .ok
        { s with _lines := s._lines.take l ++ (line.take c ++ line.drop (c + 1))
                             :: s._lines.drop (l + 1)
                 _cursor_pos := ⟨(l : Int), (c : Int)⟩
                 _colorize_line_beg := min s._colorize_line_beg (l : Int)
                 _colorize_line_end := max s._colorize_line_end ((l : Int) + 1)
                 _scroll_to_cursor := true }) := by
  constructor
  · intro prev_line line hp hl hcur
    obtain ⟨h1, h2⟩ := list_split_adjacent s._lines l prev_line line hp hl
    have key := delete_previous_join_parts s _ _ _ _ h1 hsel (by rw [h2]; exact hcur)
    rw [h2] at key
    exact key
  · intro line c hl hc hcur
    obtain ⟨h1, h2⟩ := list_split_at s._lines l line hl
    have hg := List.getElem?_eq_getElem hc
    obtain ⟨h3, h4⟩ := list_split_at line c _ hg
    have hL : s._lines = s._lines.take l ++ (line.take c ++ (line.get ⟨c, hc⟩) :: line.drop (c + 1))
        :: s._lines.drop (l + 1) := by
      rw [List.get_eq_getElem, ← h3]; exact h1
    have key := delete_previous_glyph_parts s _ _ _ _ _ hL hsel (by rw [h2, h4]; exact hcur)
    rw [h2, h4] at key
    exact key

theorem delete_previous_spec_witness :
    delete_previous { create with _lines := [glyphs "foo", glyphs "bar"], _cursor_pos := ⟨1, 0⟩ }
      = .ok { create with _lines := [glyphs "foobar"]
                          _cursor_pos := ⟨0, 3⟩
                          _colorize_line_beg := 1
                          _colorize_line_end := 2
                          _scroll_to_cursor := true } ∧
    delete_previous { create with _lines := [glyphs "foo", glyphs "bar"], _cursor_pos := ⟨1, 2⟩ }
      = .ok { create with _lines := [glyphs "foo", glyphs "br"]
                          _cursor_pos := ⟨1, 1⟩
                          _colorize_line_beg := 1
                          _colorize_line_end := 2
                          _scroll_to_cursor := true } :=
  ⟨(delete_previous_spec
      { create with _lines := [glyphs "foo", glyphs "bar"], _cursor_pos := ⟨1, 0⟩ } 0 rfl).1
      (glyphs "foo") (glyphs "bar") rfl rfl rfl,
   (delete_previous_spec
      { create with _lines := [glyphs "foo", glyphs "bar"], _cursor_pos := ⟨1, 2⟩ } 1 rfl).2
      (glyphs "bar") 1 rfl (by decide) rfl⟩

/-! ### The text around a removed range -/

theorem length_lines_tail_text (R : List (List glyph)) :
    (lines_tail_text R).length = (R.map (fun l => l.length + 1)).sum := by
  induction R with
  | nil => rfl
  | cons r R ih =>
    simp only [lines_tail_text, List.length_cons, List.length_append, List.length_map, ih,
      List.map_cons, List.sum_cons]
    omega

theorem lines_text_split (A B : List (List glyph)) (X W : List glyph) :
    lines_text (A ++ (X ++ W) :: B)
      = lines_text (A ++ [X]) ++ (W.map glyph.c ++ lines_tail_text B) := by
  cases A with
  | nil => simp [lines_text, lines_tail_text]
  | cons a A => simp [lines_text, lines_tail_text, lines_tail_text_append]

theorem length_lines_text_snoc (A : List (List glyph)) (X : List glyph) :
    (lines_text (A ++ [X])).length = (A.map (fun l => l.length + 1)).sum + X.length := by
  cases A with
  | nil => simp [lines_text, lines_tail_text]
  | cons a A =>
    simp only [List.cons_append, lines_text, List.length_append, List.length_map,
      length_lines_tail_text, List.map_append, List.sum_append, List.map_cons, List.sum_cons,
      List.map_nil, List.sum_nil]
    omega

theorem lines_text_remove_same_line (A B : List (List glyph)) (X M Y : List glyph) :
    lines_text (A ++ (X ++ Y) :: B)
      = (lines_text (A ++ (X ++ M ++ Y) :: B)).take
          ((A.map (fun l => l.length + 1)).sum + X.length)
        ++ (lines_text (A ++ (X ++ M ++ Y) :: B)).drop
          ((A.map (fun l => l.length + 1)).sum + (X.length + M.length)) := by
  have e1 : lines_text (A ++ (X ++ M ++ Y) :: B)
      = lines_text (A ++ [X]) ++ (M.map glyph.c ++ (Y.map glyph.c ++ lines_tail_text B)) := by
    rw [List.append_assoc, lines_text_split]; simp
  have e2 : lines_text (A ++ (X ++ M ++ Y) :: B)
      = (lines_text (A ++ [X]) ++ M.map glyph.c) ++ (Y.map glyph.c ++ lines_tail_text B) := by
    rw [e1]; simp
  have l1 := length_lines_text_snoc A X
  have l2 : (lines_text (A ++ [X]) ++ M.map glyph.c).length
      = (A.map (fun l => l.length + 1)).sum + (X.length + M.length) := by
    rw [List.length_append, l1, List.length_map]; omega
  rw [lines_text_split]
  congr 1
  · rw [e1, List.take_left' l1]
  · rw [e2, List.drop_left' l2]

theorem lines_text_remove_cross_line (A Mid B : List (List glyph)) (X X' Z Y : List glyph) :
    lines_text (A ++ (X ++ Y) :: B)
      = (lines_text (A ++ (X ++ X') :: (Mid ++ (Z ++ Y) :: B))).take
          ((A.map (fun l => l.length + 1)).sum + X.length)
        ++ (lines_text (A ++ (X ++ X') :: (Mid ++ (Z ++ Y) :: B))).drop
          (((A ++ (X ++ X') :: Mid).map (fun l => l.length + 1)).sum + Z.length) := by
  have e0 : A ++ (X ++ X') :: (Mid ++ (Z ++ Y) :: B) = (A ++ (X ++ X') :: Mid) ++ (Z ++ Y) :: B := by
    simp
  have e1 : lines_text (A ++ (X ++ X') :: (Mid ++ (Z ++ Y) :: B))
      = lines_text (A ++ [X]) ++ (X'.map glyph.c ++ lines_tail_text (Mid ++ (Z ++ Y) :: B)) :=
    lines_text_split A _ X X'
  have e2 : lines_text (A ++ (X ++ X') :: (Mid ++ (Z ++ Y) :: B))
      = lines_text ((A ++ (X ++ X') :: Mid) ++ [Z]) ++ (Y.map glyph.c ++ lines_tail_text B) := by
    rw [e0]; exact lines_text_split _ B Z Y
  have l1 := length_lines_text_snoc A X
  have l2 := length_lines_text_snoc (A ++ (X ++ X') :: Mid) Z
  rw [lines_text_split]
  congr 1
  · rw [e1, List.take_left' l1]
  · rw [e2, List.drop_left' l2]

theorem exists_split_two {α : Type} (L : List α) (bl el : Nat) (x y : α)
    (hx : L[bl]? = some x) (hy : L[el]? = some y) (hlt : bl < el) :
    ∃ A Mid B, L = A ++ x :: (Mid ++ y :: B) ∧ A.length = bl ∧
      (A.length : Int) + 1 + (Mid.length : Int) = (el : Int) ∧
      L.take bl = A ∧ L.drop (el + 1) = B ∧ L.take el = A ++ x :: Mid := by
  obtain ⟨h1, h2, h3⟩ := list_split_two L bl el x y hx hy hlt
  refine ⟨_, _, _, h1, h2, by rw [h2, h3]; omega, rfl, rfl, ?_⟩
  have e : L = (L.take bl ++ x :: (L.drop (bl + 1)).take (el - bl - 1)) ++ y :: L.drop (el + 1) := by
    rw [List.append_assoc, List.cons_append]; exact h1
  have hl : (L.take bl ++ x :: (L.drop (bl + 1)).take (el - bl - 1)).length = el := by
    rw [List.length_append, List.length_cons, h2, h3]; omega
  exact (congrArg (List.take el) e).trans (List.take_left' hl)

theorem exists_split_at {α : Type} (L : List α) (l : Nat) (x : α) (hx : L[l]? = some x) :
    ∃ A B, L = A ++ x :: B ∧ A.length = l ∧ L.take l = A ∧ L.drop (l + 1) = B := by
  obtain ⟨h1, h2⟩ := list_split_at L l x hx
  exact ⟨_, _, h1, h2, rfl, rfl⟩

theorem exists_line_split {α : Type} (line : List α) (c : Nat) (hc : c ≤ line.length) :
    ∃ X W, line = X ++ W ∧ X.length = c ∧ line.take c = X ∧ line.drop c = W := by
  obtain ⟨h1, h2⟩ := line_split_at line c hc
  exact ⟨_, _, h1, h2, rfl, rfl⟩

theorem exists_line_split_two {α : Type} (line : List α) (bc ec : Nat) (h : bc ≤ ec)
    (hc : ec ≤ line.length) :
    ∃ X M Y, line = X ++ M ++ Y ∧ X.length = bc ∧ X.length + M.length = ec ∧
      line.take bc = X ∧ line.drop ec = Y := by
  obtain ⟨h1, h2, h3⟩ := line_split_two line bc ec h hc
  exact ⟨_, _, _, h1, h2, by rw [h2, h3]; omega, rfl, rfl⟩

/-- The text of the document after the range between two in-bounds positions is
removed: the text before the first position followed by the text from the second on. -/
theorem lines_text_delete_range (L : List (List glyph)) (bl bc el ec : Nat)
    (beg_line end_line : List glyph)
    (hb : L[bl]? = some beg_line) (he : L[el]? = some end_line)
    (hbc : bc ≤ beg_line.length) (hec : ec ≤ end_line.length)
    (hlt : bl < el ∨ (bl = el ∧ bc ≤ ec)) :
    lines_text (L.take bl ++ (beg_line.take bc ++ end_line.drop ec) :: L.drop (el + 1))
      = (lines_text L).take (text_offset L bl bc) ++ (lines_text L).drop (text_offset L el ec) := by
  unfold text_offset
  rcases hlt with hlt | ⟨hll, hcc⟩
  · obtain ⟨A, Mid, B, hL, hAl, _, hA, hB, hT⟩ :=
      exists_split_two L bl el beg_line end_line hb he hlt
    obtain ⟨X, X', hx, hXl, hX, _⟩ := exists_line_split beg_line bc hbc
    obtain ⟨Z, Y, hy, hZl, _, hY⟩ := exists_line_split end_line ec hec
    rw [hA, hB, hT, hX, hY]
    subst hXl hZl
    rw [hL, hx, hy]
    exact lines_text_remove_cross_line A Mid B X X' Z Y
  · subst hll
    have hsame : beg_line = end_line := by
      rw [hb] at he; exact Option.some.inj he
    subst hsame
    obtain ⟨A, B, hL, hAl, hA, hB⟩ := exists_split_at L bl beg_line hb
    obtain ⟨X, M, Y, hx, hXl, hMl, hX, hY⟩ := exists_line_split_two beg_line bc ec hcc hec
    rw [hA, hB, hX, hY]
    subst hXl hMl
    rw [hL, hx]
    exact lines_text_remove_same_line A B X M Y

theorem text_pos_gt_irrefl (a : text_pos) : a.gt a = false := by
  simp [text_pos.gt, text_pos.lt]

/-- What `delete_selection` does once `delete_range` has removed the selected text. -/
theorem delete_selection_after (s s1 : code_editor_widget)
    (hne : ¬ s._select_end = s._select_beg) (hsel : s.has_selection = true)
    (h : delete_range s s._select_beg s._select_end = .ok s1)
    (hb : s1._select_beg = s._select_beg) :
    delete_selection s = .ok
      { s1 with _select_beg := s._select_beg
                _select_end := s._select_beg
                _cursor_pos := s._select_beg } := by
  unfold delete_selection
  simp only [hne, if_false, hsel, assert_that_true, except_bind_ok, h, select, hb,
    text_pos_gt_irrefl, Bool.false_eq_true, except_pure]

/-- C8: `delete_selection` changes nothing when the selection is zero-width;
otherwise, for an in-bounds selection, it removes the text in `[begin, end)`, so
that the text of the document becomes the text before begin followed by the text
from end on, and leaves the cursor at the old begin with the zero-width selection
`(begin, begin)`. -/
theorem delete_selection_spec (s : code_editor_widget) :
    (s._select_end = s._select_beg → delete_selection s = .ok s) ∧
    (∀ (bl bc el ec : Nat) (beg_line end_line : List glyph),
      s._select_beg = ⟨(bl : Int), (bc : Int)⟩ → s._select_end = ⟨(el : Int), (ec : Int)⟩ →
      s._lines[bl]? = some beg_line → s._lines[el]? = some end_line →
      bc ≤ beg_line.length → ec ≤ end_line.length → (bl < el ∨ (bl = el ∧ bc < ec)) →
      ∃ s' text, delete_selection s = .ok s' ∧ get_text s = .ok text ∧
        get_text s' = .ok (text.take (text_offset s._lines bl bc)
          ++ text.drop (text_offset s._lines el ec)) ∧
        s'._lines = s._lines.take bl ++ (beg_line.take bc ++ end_line.drop ec)
          :: s._lines.drop (el + 1) ∧
        s'._cursor_pos = s._select_beg ∧ s'._select_beg = s._select_beg ∧
        s'._select_end = s._select_beg) := by
  constructor
  · intro h
    unfold delete_selection
    rw [if_pos h]
  · intro bl bc el ec beg_line end_line hsb hse hb he hbc hec hlt
    have hne : ¬ s._select_end = s._select_beg := by
      rw [hsb, hse]
      simp only [text_pos.mk.injEq]
      omega
    have hsel : s.has_selection = true := by
      unfold has_selection
      rw [hsb, hse]
      rcases hlt with h | ⟨h1, h2⟩
      · exact text_pos_gt_of_line_lt _ _ _ _ (by omega)
      · subst h1; exact text_pos_gt_same_line _ _ _ (by omega)
    have htext := lines_text_delete_range s._lines bl bc el ec beg_line end_line hb he hbc hec
      (hlt.imp id (fun h => ⟨h.1, Nat.le_of_lt h.2⟩))
    have hdel : ∃ s1, delete_range s s._select_beg s._select_end = .ok s1 ∧
        s1._select_beg = s._select_beg ∧
        s1._lines = s._lines.take bl ++ (beg_line.take bc ++ end_line.drop ec)
          :: s._lines.drop (el + 1) := by
      rw [hsb, hse]
      rcases hlt with hlt | ⟨hll, hcc⟩
      · obtain ⟨A, Mid, B, hL, hAl, hMl, hA, hB, _⟩ :=
          exists_split_two s._lines bl el beg_line end_line hb he hlt
        obtain ⟨X, X', hx, hXl, hX, _⟩ := exists_line_split beg_line bc hbc
        obtain ⟨Z, Y, hy, hZl, _, hY⟩ := exists_line_split end_line ec hec
        rw [hx, hy] at hL
        have key := delete_range_cross_line s A Mid B X X' Z Y hL
        rw [hMl, hAl, hXl, hZl] at key
        exact ⟨_, key, hsb, by rw [hA, hB, hX, hY]⟩
      · subst hll
        have hsame : beg_line = end_line := by
          rw [hb] at he; exact Option.some.inj he
        subst hsame
        obtain ⟨A, B, hL, hAl, hA, hB⟩ := exists_split_at s._lines bl beg_line hb
        obtain ⟨X, M, Y, hx, hXl, hMl, hX, hY⟩ :=
          exists_line_split_two beg_line bc ec (Nat.le_of_lt hcc) hec
        rw [hx] at hL
        have hM : M ≠ [] := by
          intro h; rw [h] at hMl; simp at hMl; omega
        have key := delete_range_same_line s A B X M Y hL hM
        have e1 : (X.length : Int) + (M.length : Int) = (ec : Int) := by omega
        rw [e1, hAl, hXl] at key
        exact ⟨_, key, hsb, by rw [hA, hB, hX, hY]⟩
    obtain ⟨s1, h1, h2, h3⟩ := hdel
    refine ⟨_, lines_text s._lines, delete_selection_after s s1 hne hsel h1 h2,
      get_text_eq_lines_text s, ?_, h3, rfl, rfl, rfl⟩
    rw [get_text_eq_lines_text, ← htext]
    simp only [h3]

theorem delete_selection_spec_witness :
    ∃ s' text,
      delete_selection { create with _lines := [glyphs "one", glyphs "two", glyphs "three"]
                                     _select_beg := ⟨0, 1⟩, _select_end := ⟨2, 3⟩
                                     _cursor_pos := ⟨2, 3⟩ } = .ok s' ∧
      get_text { create with _lines := [glyphs "one", glyphs "two", glyphs "three"]
                             _select_beg := ⟨0, 1⟩, _select_end := ⟨2, 3⟩
                             _cursor_pos := ⟨2, 3⟩ } = .ok text ∧
      get_text s' = .ok (text.take 1 ++ text.drop 11) ∧
      s'._lines = [glyphs "oee"] ∧
      s'._cursor_pos = ⟨0, 1⟩ ∧ s'._select_beg = ⟨0, 1⟩ ∧ s'._select_end = ⟨0, 1⟩ :=
  (delete_selection_spec { create with _lines := [glyphs "one", glyphs "two", glyphs "three"]
                                       _select_beg := ⟨0, 1⟩, _select_end := ⟨2, 3⟩
                                       _cursor_pos := ⟨2, 3⟩ }).2
    0 1 2 3 (glyphs "one") (glyphs "three") rfl rfl rfl rfl (by decide) (by decide)
    (Or.inl (by decide))

/-! ### Inserting text -/

theorem insert_text_step_char (s : code_editor_widget) (P Q : List (List glyph))
    (U V : List glyph) (c : Char) (hr : c ≠ '\r') (hn : c ≠ '\n')
    (h : s._lines = P ++ (U ++ V) :: Q)
    (hcur : s._cursor_pos = ⟨(P.length : Int), (U.length : Int)⟩) :
    insert_text_step s c = .ok
      { s with _lines := P ++ (U ++ ⟨c, color_palette.color_default⟩ :: V) :: Q
               _cursor_pos := ⟨(P.length : Int), (U.length : Int) + 1⟩ } := by
  have h1 : vec_at (P ++ (U ++ V) :: Q) (P.length : Int) = .ok (U ++ V) := vec_at_eq rfl rfl
  have h2 : vec_insert (U ++ V) (U.length : Int) ⟨c, color_palette.color_default⟩
      = .ok (U ++ ⟨c, color_palette.color_default⟩ :: V) := vec_insert_append U V _ rfl _
  have h3 : vec_set (P ++ (U ++ V) :: Q) (P.length : Int)
      (U ++ ⟨c, color_palette.color_default⟩ :: V)
      = .ok (P ++ (U ++ ⟨c, color_palette.color_default⟩ :: V) :: Q) := vec_set_eq rfl rfl _
  unfold insert_text_step
  simp only [hr, hn, if_false, hcur, h, h1, h2, h3, except_bind_ok, except_pure]

theorem insert_text_step_newline (s : code_editor_widget) (P Q : List (List glyph))
    (U V : List glyph) (h : s._lines = P ++ (U ++ V) :: Q)
    (hcur : s._cursor_pos = ⟨(P.length : Int), (U.length : Int)⟩) :
    insert_text_step s '\n' = .ok
      { s with _lines := P ++ U :: V :: Q
               _cursor_pos := ⟨(P.length : Int) + 1, 0⟩
               _errors := insert_line_errors s._errors ((P.length : Int) + 1)
               _colorize_line_beg := min s._colorize_line_beg ((P.length : Int) + 1)
               _colorize_line_end := max s._colorize_line_end ((P.length : Int) + 1 + 1) } := by
  have hr : ¬ ('\n' = '\r') := by decide
  have h0 : vec_insert (P ++ (U ++ V) :: Q) ((P.length : Int) + 1) []
      = .ok (P ++ (U ++ V) :: [] :: Q) := by
    have := vec_insert_range_eq (v := P ++ (U ++ V) :: Q) (A := P ++ [U ++ V]) (B := Q)
      (i := (P.length : Int) + 1) (by simp) (by simp) [[]]
    simpa [vec_insert] using this
  have h1 : vec_at (P ++ (U ++ V) :: [] :: Q) (P.length : Int) = .ok (U ++ V) :=
    vec_at_eq rfl rfl
  unfold insert_text_step
  simp only [hr, if_false, if_true, hcur, h, insert_line, h0, h1, except_bind_ok, except_pure]
  by_cases hV : V = []
  · subst hV
    have hc : ¬ ((U.length : Int) < (U.length : Int)) := by omega
    simp only [List.append_nil, hc, if_false]
  · have hVlen : 0 < V.length := List.length_pos.mpr hV
    have hc : (U.length : Int) < ((U ++ V).length : Int) := by
      simp only [List.length_append, Nat.cast_add]; omega
    have h2 : vec_from (U ++ V) (U.length : Int) = .ok V := vec_from_eq rfl rfl
    have h3 : vec_at (P ++ (U ++ V) :: [] :: Q) ((P.length : Int) + 1) = .ok [] :=
      vec_at_eq (A := P ++ [U ++ V]) (B := Q) (by simp) (by simp)
    have h4 : vec_insert_range ([] : List glyph) 0 V = .ok V := by
      have := vec_insert_range_eq (v := ([] : List glyph)) (A := []) (B := []) (i := 0)
        (by simp) (by simp) V
      simpa using this
    have h5 : vec_erase_range (U ++ V) (U.length : Int) ((U ++ V).length : Int) = .ok U := by
      have := vec_erase_range_eq (v := U ++ V) (A := U) (M := V) (B := [])
        (a := (U.length : Int)) (b := ((U ++ V).length : Int)) (by simp) rfl (by simp)
      simpa using this
    have h6 : vec_set (P ++ (U ++ V) :: [] :: Q) ((P.length : Int) + 1) V
        = .ok (P ++ (U ++ V) :: V :: Q) := by
      have := vec_set_eq (v := P ++ (U ++ V) :: [] :: Q) (A := P ++ [U ++ V]) (B := Q)
        (x := []) (i := (P.length : Int) + 1) (by simp) (by simp) V
      simpa using this
    have h7 : vec_set (P ++ (U ++ V) :: V :: Q) (P.length : Int) U
        = .ok (P ++ U :: V :: Q) := vec_set_eq rfl rfl _
    simp only [hc, if_true, h2, h3, h4, h5, h6, h7, except_bind_ok, except_pure]

/-- One character of `insert_text` keeps the shape of the document: the lines
before and after the insertion point as they were, and in between either one line
`X ++ T ++ Y` with the cursor behind T, or the line `X ++ T`, some lines, and the
line `Z ++ Y` with the cursor behind Z. -/
theorem insert_text_step_shape (A B : List (List glyph)) (X Y : List glyph)
    (s : code_editor_widget) (c : Char)
    (hinv :
      (∃ T, s._lines = A ++ (X ++ T ++ Y) :: B ∧
        s._cursor_pos = ⟨(A.length : Int), (X.length : Int) + (T.length : Int)⟩) ∨
      (∃ T Mid Z, s._lines = A ++ (X ++ T) :: (Mid ++ (Z ++ Y) :: B) ∧
        s._cursor_pos = ⟨(A.length : Int) + 1 + (Mid.length : Int), (Z.length : Int)⟩)) :
    ∃ s', insert_text_step s c = .ok s' ∧
      ((∃ T, s'._lines = A ++ (X ++ T ++ Y) :: B ∧
        s'._cursor_pos = ⟨(A.length : Int), (X.length : Int) + (T.length : Int)⟩) ∨
      (∃ T Mid Z, s'._lines = A ++ (X ++ T) :: (Mid ++ (Z ++ Y) :: B) ∧
        s'._cursor_pos = ⟨(A.length : Int) + 1 + (Mid.length : Int), (Z.length : Int)⟩)) := by
  by_cases hr : c = '\r'
  · exact ⟨s, by simp [insert_text_step, hr], hinv⟩
  by_cases hn : c = '\n'
  · subst hn
    rcases hinv with ⟨T, hL, hcur⟩ | ⟨T, Mid, Z, hL, hcur⟩
    · have hcur' : s._cursor_pos = ⟨(A.length : Int), ((X ++ T).length : Int)⟩ := by
        rw [hcur]; simp
      refine ⟨_, insert_text_step_newline s A B (X ++ T) Y hL hcur', Or.inr ⟨T, [], [], ?_, ?_⟩⟩
      · simp
      · simp
    · have hL' : s._lines = (A ++ (X ++ T) :: Mid) ++ (Z ++ Y) :: B := by rw [hL]; simp
      have hcur' : s._cursor_pos = ⟨((A ++ (X ++ T) :: Mid).length : Int), (Z.length : Int)⟩ := by
        rw [hcur]; simp; omega
      refine ⟨_, insert_text_step_newline s _ B Z Y hL' hcur',
        Or.inr ⟨T, Mid ++ [Z], [], ?_, ?_⟩⟩
      · simp
      · simp; omega
  · rcases hinv with ⟨T, hL, hcur⟩ | ⟨T, Mid, Z, hL, hcur⟩
    · have hcur' : s._cursor_pos = ⟨(A.length : Int), ((X ++ T).length : Int)⟩ := by
        rw [hcur]; simp
      refine ⟨_, insert_text_step_char s A B (X ++ T) Y c hr hn hL hcur',
        Or.inl ⟨T ++ [⟨c, color_palette.color_default⟩], ?_, ?_⟩⟩
      · simp
      · simp; omega
    · have hL' : s._lines = (A ++ (X ++ T) :: Mid) ++ (Z ++ Y) :: B := by rw [hL]; simp
      have hcur' : s._cursor_pos = ⟨((A ++ (X ++ T) :: Mid).length : Int), (Z.length : Int)⟩ := by
        rw [hcur]; simp; omega
      refine ⟨_, insert_text_step_char s _ B Z Y c hr hn hL' hcur',
        Or.inr ⟨T, Mid, Z ++ [⟨c, color_palette.color_default⟩], ?_, ?_⟩⟩
      · simp
      · simp; omega

theorem insert_text_loop_shape (A B : List (List glyph)) (X Y : List glyph) (text : List Char) :
    ∀ s : code_editor_widget,
      ((∃ T, s._lines = A ++ (X ++ T ++ Y) :: B ∧
        s._cursor_pos = ⟨(A.length : Int), (X.length : Int) + (T.length : Int)⟩) ∨
      (∃ T Mid Z, s._lines = A ++ (X ++ T) :: (Mid ++ (Z ++ Y) :: B) ∧
        s._cursor_pos = ⟨(A.length : Int) + 1 + (Mid.length : Int), (Z.length : Int)⟩)) →
      ∃ s', insert_text_loop text s = .ok s' ∧
        ((∃ T, s'._lines = A ++ (X ++ T ++ Y) :: B ∧
          s'._cursor_pos = ⟨(A.length : Int), (X.length : Int) + (T.length : Int)⟩) ∨
        (∃ T Mid Z, s'._lines = A ++ (X ++ T) :: (Mid ++ (Z ++ Y) :: B) ∧
          s'._cursor_pos = ⟨(A.length : Int) + 1 + (Mid.length : Int), (Z.length : Int)⟩)) := by
  induction text with
  | nil => intro s hinv; exact ⟨s, rfl, hinv⟩
  | cons c cs ih =>
    intro s hinv
    obtain ⟨s1, h1, hinv1⟩ := insert_text_step_shape A B X Y s c hinv
    obtain ⟨s2, h2, hinv2⟩ := ih s1 hinv1
    exact ⟨s2, by simp [insert_text_loop, h1, h2], hinv2⟩

theorem insert_text_shape (A B : List (List glyph)) (X Y : List glyph) (text : List Char)
    (s : code_editor_widget) (h : s._lines = A ++ (X ++ Y) :: B)
    (hcur : s._cursor_pos = ⟨(A.length : Int), (X.length : Int)⟩) :
    ∃ s', insert_text s text = .ok s' ∧
      ((∃ T, s'._lines = A ++ (X ++ T ++ Y) :: B ∧
        s'._cursor_pos = ⟨(A.length : Int), (X.length : Int) + (T.length : Int)⟩) ∨
      (∃ T Mid Z, s'._lines = A ++ (X ++ T) :: (Mid ++ (Z ++ Y) :: B) ∧
        s'._cursor_pos = ⟨(A.length : Int) + 1 + (Mid.length : Int), (Z.length : Int)⟩)) := by
  obtain ⟨s1, h1, hinv1⟩ := insert_text_loop_shape A B X Y text
    { s with _colorize_line_beg := min s._colorize_line_beg s._cursor_pos.line }
    (Or.inl ⟨[], by simp [h], by simp [hcur]⟩)
  refine ⟨_, by simp only [insert_text, h1, except_bind_ok, select, except_pure]; rfl, ?_⟩
  exact hinv1

/-- Removing what `insert_text` has put between the old and the new cursor position
gives the old lines back. -/
theorem delete_range_of_shape (A B : List (List glyph)) (X Y : List glyph)
    (s : code_editor_widget)
    (hinv :
      (∃ T, s._lines = A ++ (X ++ T ++ Y) :: B ∧
        s._cursor_pos = ⟨(A.length : Int), (X.length : Int) + (T.length : Int)⟩) ∨
      (∃ T Mid Z, s._lines = A ++ (X ++ T) :: (Mid ++ (Z ++ Y) :: B) ∧
        s._cursor_pos = ⟨(A.length : Int) + 1 + (Mid.length : Int), (Z.length : Int)⟩)) :
    ∃ s', delete_range s ⟨(A.length : Int), (X.length : Int)⟩ s._cursor_pos = .ok s' ∧
      s'._lines = A ++ (X ++ Y) :: B := by
  rcases hinv with ⟨T, hL, hcur⟩ | ⟨T, Mid, Z, hL, hcur⟩
  · by_cases hT : T = []
    · subst hT
      refine ⟨s, ?_, by simpa using hL⟩
      rw [hcur]
      simp [delete_range]
    · rw [hcur]
      exact ⟨_, delete_range_same_line s A B X T Y hL hT, rfl⟩
  · rw [hcur]
    exact ⟨_, delete_range_cross_line s A Mid B X T Z Y hL, rfl⟩

/-- C3: with the cursor at an in-bounds position p, `insert_text(t)` succeeds and
leaves the cursor at some q, and a following `delete_range(p, q)` gives back the
lines of the document before the insertion, hence the same `get_text()`. -/
theorem insert_text_delete_range (s : code_editor_widget) (l c : Nat) (line : List glyph)
    (hl : s._lines[l]? = some line) (hc : c ≤ line.length)
    (hcur : s._cursor_pos = ⟨(l : Int), (c : Int)⟩) (text : List Char) :
    ∃ s1 s2, insert_text s text = .ok s1 ∧
      delete_range s1 ⟨(l : Int), (c : Int)⟩ s1._cursor_pos = .ok s2 ∧
      s2._lines = s._lines ∧ get_text s2 = get_text s := by
  obtain ⟨A, B, hL, hAl, _, _⟩ := exists_split_at s._lines l line hl
  obtain ⟨X, Y, hx, hXl, _, _⟩ := exists_line_split line c hc
  subst hAl hXl
  rw [hx] at hL
  obtain ⟨s1, h1, hinv⟩ := insert_text_shape A B X Y text s hL hcur
  obtain ⟨s2, h2, h3⟩ := delete_range_of_shape A B X Y s1 hinv
  refine ⟨s1, s2, h1, h2, by rw [h3, hL], ?_⟩
  rw [get_text_eq_lines_text, get_text_eq_lines_text, h3, hL]

theorem insert_text_delete_range_witness :
    ∃ s1 s2,
      insert_text { create with _lines := [glyphs "foo", glyphs "bar"], _cursor_pos := ⟨0, 1⟩ }
        "X\nYY\r\nZ".toList = .ok s1 ∧
      delete_range s1 ⟨0, 1⟩ s1._cursor_pos = .ok s2 ∧
      s2._lines = [glyphs "foo", glyphs "bar"] ∧
      get_text s2
        = get_text { create with _lines := [glyphs "foo", glyphs "bar"], _cursor_pos := ⟨0, 1⟩ } :=
  insert_text_delete_range
    { create with _lines := [glyphs "foo", glyphs "bar"], _cursor_pos := ⟨0, 1⟩ }
    0 1 (glyphs "foo") rfl (by decide) rfl "X\nYY\r\nZ".toList

/-! ### The document keeps at least one line -/

theorem bind_ok_imp {α β : Type} (P : β → Prop) (m : Except fault α) (f : α → Except fault β)
    (h : ∀ x, m = .ok x → ∀ y, f x = .ok y → P y) : ∀ y, (m >>= f) = .ok y → P y := by
  intro y hy
  cases m with
  | error e => simp at hy
  | ok x => exact h x rfl y (by simpa using hy)

theorem ok_imp {β : Type} (P : β → Prop) (x : β) (h : P x) :
    ∀ y, (Except.ok x : Except fault β) = .ok y → P y := by
  intro y hy
  cases hy
  exact h

theorem error_imp {β : Type} (P : β → Prop) (e : fault) :
    ∀ y, (Except.error e : Except fault β) = .ok y → P y := by
  intro y hy
  cases hy

theorem pure_imp {β : Type} (P : β → Prop) (x : β) (h : P x) :
    ∀ y, (pure x : Except fault β) = .ok y → P y := ok_imp P x h

theorem pure_bind_ok_imp {α β : Type} (P : β → Prop) (a : α) (f : α → Except fault β)
    (h : ∀ y, f a = .ok y → P y) : ∀ y, ((pure a : Except fault α) >>= f) = .ok y → P y := by
  intro y hy
  exact h y (by simpa using hy)

theorem vec_at_bounds {α : Type} (v : List α) (i : Int) (x : α) (h : vec_at v i = .ok x) :
    0 ≤ i ∧ i < (v.length : Int) := by
  unfold vec_at at h
  by_cases hi : i < 0
  · simp [hi] at h
  · rw [if_neg hi] at h
    cases hv : v[i.toNat]? with
    | none => rw [hv] at h; simp at h
    | some y =>
      have := (List.getElem?_eq_some.mp hv).1
      omega

theorem vec_set_ne_nil {α : Type} (v : List α) (i : Int) (x : α) (v' : List α)
    (h : vec_set v i x = .ok v') : v' ≠ [] := by
  unfold vec_set at h
  split at h
  · rename_i hc
    cases h
    intro he
    have hl := congrArg List.length he
    simp only [List.length_set, List.length_nil] at hl
    omega
  · cases h

theorem vec_insert_ne_nil {α : Type} (v : List α) (i : Int) (x : α) (v' : List α)
    (h : vec_insert v i x = .ok v') : v' ≠ [] := by
  unfold vec_insert vec_insert_range at h
  split at h
  · cases h; simp
  · cases h

theorem vec_erase_range_ne_nil {α : Type} (v : List α) (a b : Int) (v' : List α)
    (ha : 1 ≤ a) (h : vec_erase_range v a b = .ok v') : v' ≠ [] := by
  unfold vec_erase_range at h
  split at h
  · rename_i hc
    cases h
    intro he
    have hl := congrArg List.length he
    simp only [List.length_append, List.length_take, List.length_drop, List.length_nil] at hl
    omega
  · cases h

theorem select_lines (s : code_editor_widget) (beg end_ : text_pos) (mode : selection_mode) :
    ∀ s', select s beg end_ mode = .ok s' → s'._lines = s._lines := by
  unfold select
  cases mode with
  | normal => exact ok_imp _ _ rfl
  | word =>
    simp only
    repeat' first
      | (with_reducible apply pure_imp; exact rfl)
      | (with_reducible apply bind_ok_imp; intro _ _)
      | split
  | line =>
    simp only
    repeat' first
      | (with_reducible apply pure_imp; exact rfl)
      | (with_reducible apply bind_ok_imp; intro _ _)
      | split

theorem delete_lines_ne_nil (s : code_editor_widget) (first_line last_line : Int)
    (h : 1 ≤ first_line) :
    ∀ s', delete_lines s first_line last_line = .ok s' → s'._lines ≠ [] := by
  unfold delete_lines
  simp only
  apply bind_ok_imp; intro lines hl
  exact ok_imp _ _ (vec_erase_range_ne_nil _ _ _ _ h hl)

theorem insert_line_ne_nil (s : code_editor_widget) (line_pos : Int) :
    ∀ s', insert_line s line_pos = .ok s' → s'._lines ≠ [] := by
  unfold insert_line
  simp only
  apply bind_ok_imp; intro lines hl
  exact ok_imp _ _ (vec_insert_ne_nil _ _ _ _ hl)

/-- Deleting lines behind a line that exists leaves a line. -/
theorem delete_lines_behind_ne_nil (s s' : code_editor_widget) (lines : List (List glyph))
    (line : List glyph) (l last_line : Int)
    (hd : delete_lines s (l + 1) last_line = .ok s') (hl : vec_at lines l = .ok line) :
    s'._lines ≠ [] :=
  delete_lines_ne_nil s (l + 1) last_line (by have := (vec_at_bounds _ _ _ hl).1; omega) s' hd

theorem delete_range_ne_nil (s : code_editor_widget) (beg end_ : text_pos)
    (h : s._lines ≠ []) :
    ∀ s', delete_range s beg end_ = .ok s' → s'._lines ≠ [] := by
  unfold delete_range
  simp only
  repeat' first
    | (with_reducible apply ok_imp; exact h)
    | (with_reducible apply pure_imp
       first
        | exact h
        | exact vec_set_ne_nil _ _ _ _ (by assumption)
        | exact delete_lines_behind_ne_nil _ _ _ _ _ _ (by assumption) (by assumption))
    | with_reducible apply pure_bind_ok_imp
    | (with_reducible apply bind_ok_imp; intro _ _)
    | split

theorem set_text_ne_nil (s : code_editor_widget) (text : List Char) :
    ∀ s', set_text s text = .ok s' → s'._lines ≠ [] := by
  obtain ⟨lines, h1, h2, _⟩ := set_text_loop_text text [] []
  simp only [List.nil_append] at h1
  unfold set_text
  rw [h1]
  exact ok_imp _ _ h2

theorem insert_text_step_ne_nil (s : code_editor_widget) (c : Char) (h : s._lines ≠ []) :
    ∀ s', insert_text_step s c = .ok s' → s'._lines ≠ [] := by
  unfold insert_text_step
  simp only
  repeat' first
    | (with_reducible apply ok_imp; exact h)
    | (with_reducible apply pure_imp
       first
        | exact h
        | exact vec_set_ne_nil _ _ _ _ (by assumption)
        | (have hins := insert_line_ne_nil _ _ _ (by assumption); exact hins))
    | with_reducible apply pure_bind_ok_imp
    | (with_reducible apply bind_ok_imp; intro _ _)
    | split

theorem insert_text_loop_ne_nil (text : List Char) :
    ∀ s : code_editor_widget, s._lines ≠ [] →
      ∀ s', insert_text_loop text s = .ok s' → s'._lines ≠ [] := by
  induction text with
  | nil => intro s h; exact ok_imp _ _ h
  | cons c cs ih =>
    intro s h
    unfold insert_text_loop
    apply bind_ok_imp; intro s1 h1
    exact ih s1 (insert_text_step_ne_nil s c h s1 h1)

theorem insert_text_ne_nil (s : code_editor_widget) (text : List Char) (h : s._lines ≠ []) :
    ∀ s', insert_text s text = .ok s' → s'._lines ≠ [] := by
  unfold insert_text
  simp only
  apply bind_ok_imp; intro s1 h1
  apply bind_ok_imp; intro s2 h2
  apply pure_imp
  show s2._lines ≠ []
  rw [select_lines _ _ _ _ _ h2]
  refine insert_text_loop_ne_nil text _ ?_ s1 h1
  exact h

theorem delete_selection_ne_nil (s : code_editor_widget) (h : s._lines ≠ []) :
    ∀ s', delete_selection s = .ok s' → s'._lines ≠ [] := by
  unfold delete_selection
  split
  · exact ok_imp _ _ h
  · apply bind_ok_imp; intro _ _
    apply bind_ok_imp; intro s1 h1
    apply bind_ok_imp; intro s2 h2
    apply pure_imp
    show s2._lines ≠ []
    rw [select_lines _ _ _ _ _ h2]
    exact delete_range_ne_nil s _ _ h s1 h1

theorem delete_next_ne_nil (s : code_editor_widget) (h : s._lines ≠ []) :
    ∀ s', delete_next s = .ok s' → s'._lines ≠ [] := by
  unfold delete_next
  repeat' first
    | (with_reducible apply ok_imp; exact h)
    | exact delete_selection_ne_nil s h
    | exact fun s' hd => delete_lines_behind_ne_nil _ s' _ _ _ _ hd (by assumption)
    | (with_reducible apply pure_imp
       first
        | exact h
        | exact vec_set_ne_nil _ _ _ _ (by assumption))
    | with_reducible apply pure_bind_ok_imp
    | (with_reducible apply bind_ok_imp; intro _ _)
    | split

/-- Deleting from a line on, when the line before it exists, leaves a line. -/
theorem delete_lines_from_ne_nil (s s' : code_editor_widget) (lines : List (List glyph))
    (line : List glyph) (l last_line : Int)
    (hd : delete_lines s l last_line = .ok s') (hl : vec_at lines (l - 1) = .ok line) :
    s'._lines ≠ [] :=
  delete_lines_ne_nil s l last_line (by have := (vec_at_bounds _ _ _ hl).1; omega) s' hd

theorem delete_previous_ne_nil (s : code_editor_widget) (h : s._lines ≠ []) :
    ∀ s', delete_previous s = .ok s' → s'._lines ≠ [] := by
  unfold delete_previous
  simp only
  repeat' first
    | (with_reducible apply ok_imp; exact h)
    | exact delete_selection_ne_nil s h
    | (with_reducible apply pure_imp
       first
        | exact h
        | (have hset := vec_set_ne_nil _ _ _ _ (by assumption); exact hset)
        | (have hdel := delete_lines_from_ne_nil _ _ _ _ _ _ (by assumption) (by assumption)
           exact hdel))
    | with_reducible apply pure_bind_ok_imp
    | (with_reducible apply bind_ok_imp; intro _ _)
    | split

theorem outdent_spaces_ne_nil (i : Int) (n : Nat) :
    ∀ s : code_editor_widget, s._lines ≠ [] →
      ∀ s', outdent_spaces i n s = .ok s' → s'._lines ≠ [] := by
  induction n with
  | zero => intro s h; exact ok_imp _ _ h
  | succ n ih =>
    intro s h
    unfold outdent_spaces
    apply bind_ok_imp; intro line _
    apply bind_ok_imp; intro g _
    split
    · apply bind_ok_imp; intro line' _
      apply bind_ok_imp; intro lines hl
      exact ih _ (vec_set_ne_nil _ _ _ _ hl)
    · exact pure_imp _ _ h

theorem indent_lines_ne_nil (shift : Bool) (n : Nat) :
    ∀ (i : Int) (s : code_editor_widget), s._lines ≠ [] →
      ∀ s', indent_lines shift n i s = .ok s' → s'._lines ≠ [] := by
  induction n with
  | zero => intro i s h; exact ok_imp _ _ h
  | succ n ih =>
    intro i s h
    unfold indent_lines
    simp only
    repeat' first
      | (with_reducible refine ih _ _ ?_
         first
          | exact h
          | (have hset := vec_set_ne_nil _ _ _ _ (by assumption); exact hset)
          | (have hout := outdent_spaces_ne_nil _ _ _ h _ (by assumption); exact hout))
      | with_reducible apply pure_bind_ok_imp
      | (with_reducible apply bind_ok_imp; intro _ _)
      | split

theorem insert_character_ne_nil (s : code_editor_widget) (c : Char) (shift : Bool)
    (h : s._lines ≠ []) :
    ∀ s', insert_character s c shift = .ok s' → s'._lines ≠ [] := by
  unfold insert_character
  simp only
  repeat' first
    | (with_reducible refine indent_lines_ne_nil _ _ _ _ ?_; exact h)
    | (with_reducible apply pure_imp
       have hset := vec_set_ne_nil _ _ _ _ (by assumption)
       exact hset)
    | with_reducible apply pure_bind_ok_imp
    | (with_reducible apply bind_ok_imp; intro _ _)
    | split

theorem select_lines_of (s X : code_editor_widget) (beg end_ : text_pos) (mode : selection_mode)
    (hX : X._lines = s._lines) :
    ∀ s', select X beg end_ mode = .ok s' → s'._lines = s._lines := by
  intro s' h
  rw [select_lines X beg end_ mode s' h, hX]

theorem select_all_lines (s : code_editor_widget) :
    ∀ s', select_all s = .ok s' → s'._lines = s._lines := by
  unfold select_all
  split
  · exact ok_imp _ _ rfl
  · exact select_lines _ _ _ _

theorem move_up_lines (s : code_editor_widget) (amount : Nat) (selection : Bool) :
    ∀ s', move_up s amount selection = .ok s' → s'._lines = s._lines := by
  unfold move_up
  simp only
  repeat' first
    | (with_reducible apply ok_imp; exact rfl)
    | (with_reducible apply pure_imp
       have hsel := select_lines _ _ _ _ _ (by assumption)
       exact hsel)
    | split
    | (with_reducible apply bind_ok_imp; intro _ _)

theorem move_down_lines (s : code_editor_widget) (amount : Nat) (selection : Bool) :
    ∀ s', move_down s amount selection = .ok s' → s'._lines = s._lines := by
  unfold move_down
  simp only
  repeat' first
    | (with_reducible apply ok_imp; exact rfl)
    | (with_reducible apply pure_imp
       have hsel := select_lines _ _ _ _ _ (by assumption)
       exact hsel)
    | split
    | (with_reducible apply bind_ok_imp; intro _ _)

theorem move_left_lines (s : code_editor_widget) (amount : Nat) (selection word_mode : Bool) :
    ∀ s', move_left s amount selection word_mode = .ok s' → s'._lines = s._lines := by
  unfold move_left
  simp only
  repeat' first
    | (with_reducible apply ok_imp; exact rfl)
    | (with_reducible apply pure_imp
       have hsel := select_lines _ _ _ _ _ (by assumption)
       exact hsel)
    | split
    | (with_reducible apply bind_ok_imp; intro _ _)

theorem move_right_lines (s : code_editor_widget) (amount : Nat) (selection word_mode : Bool) :
    ∀ s', move_right s amount selection word_mode = .ok s' → s'._lines = s._lines := by
  unfold move_right
  simp only
  repeat' first
    | (with_reducible apply ok_imp; exact rfl)
    | (with_reducible apply pure_imp
       have hsel := select_lines _ _ _ _ _ (by assumption)
       exact hsel)
    | split
    | (with_reducible apply bind_ok_imp; intro _ _)

theorem move_top_lines (s : code_editor_widget) (selection : Bool) :
    ∀ s', move_top s selection = .ok s' → s'._lines = s._lines := by
  unfold move_top
  simp only
  repeat' first
    | (with_reducible apply pure_imp
       have hsel := select_lines _ _ _ _ _ (by assumption)
       exact hsel)
    | split
    | (with_reducible apply bind_ok_imp; intro _ _)

theorem move_bottom_lines (s : code_editor_widget) (selection : Bool) :
    ∀ s', move_bottom s selection = .ok s' → s'._lines = s._lines := by
  unfold move_bottom
  simp only
  repeat' first
    | (with_reducible apply pure_imp
       have hsel := select_lines _ _ _ _ _ (by assumption)
       exact hsel)
    | split
    | (with_reducible apply bind_ok_imp; intro _ _)

theorem move_home_lines (s : code_editor_widget) (selection : Bool) :
    ∀ s', move_home s selection = .ok s' → s'._lines = s._lines := by
  unfold move_home
  simp only
  repeat' first
    | (with_reducible apply ok_imp; exact rfl)
    | (with_reducible apply select_lines_of; exact rfl)
    | split

theorem move_end_lines (s : code_editor_widget) (selection : Bool) :
    ∀ s', move_end s selection = .ok s' → s'._lines = s._lines := by
  unfold move_end
  simp only
  repeat' first
    | (with_reducible apply pure_imp; exact rfl)
    | (with_reducible apply select_lines_of; exact rfl)
    | split
    | (with_reducible apply bind_ok_imp; intro _ _)

theorem operation_apply_ne_nil (op : operation) (s : code_editor_widget) (h : s._lines ≠ []) :
    ∀ s', op.apply s = .ok s' → s'._lines ≠ [] := by
  intro s' hs
  cases op with
  | set_text text => exact set_text_ne_nil s text s' hs
  | insert_text text => exact insert_text_ne_nil s text h s' hs
  | insert_character c shift => exact insert_character_ne_nil s c shift h s' hs
  | delete_next => exact delete_next_ne_nil s h s' hs
  | delete_previous => exact delete_previous_ne_nil s h s' hs
  | delete_selection => exact delete_selection_ne_nil s h s' hs
  | delete_range beg end_ => exact delete_range_ne_nil s beg end_ h s' hs
  | select beg end_ mode => rw [select_lines s beg end_ mode s' hs]; exact h
  | select_all => rw [select_all_lines s s' hs]; exact h
  | move_up amount selection => rw [move_up_lines s amount selection s' hs]; exact h
  | move_down amount selection => rw [move_down_lines s amount selection s' hs]; exact h
  | move_left amount selection word_mode =>
    rw [move_left_lines s amount selection word_mode s' hs]; exact h
  | move_right amount selection word_mode =>
    rw [move_right_lines s amount selection word_mode s' hs]; exact h
  | move_top selection => rw [move_top_lines s selection s' hs]; exact h
  | move_bottom selection => rw [move_bottom_lines s selection s' hs]; exact h
  | move_home selection => rw [move_home_lines s selection s' hs]; exact h
  | move_end selection => rw [move_end_lines s selection s' hs]; exact h

/-- C2: the document has at least one line: the constructor makes one, and every
sequence of `set_text`, `insert_text`, `insert_character`, `delete_next`,
`delete_previous`, `delete_selection`, `delete_range`, `select`, `select_all` and the
eight navigation operations that runs without fault, from any state with at least
one line, ends in a state with at least one line. -/
theorem document_never_empty :
    create._lines ≠ [] ∧
    ∀ (ops : List operation) (s s' : code_editor_widget),
      s._lines ≠ [] → run ops s = .ok s' → s'._lines ≠ [] := by
  refine ⟨by simp [create], ?_⟩
  intro ops
  induction ops with
  | nil =>
    intro s s' h hs
    cases hs
    exact h
  | cons op ops ih =>
    intro s s' h
    unfold run
    revert s'
    apply bind_ok_imp
    intro s1 h1 s' hs
    exact ih s1 s' (operation_apply_ne_nil op s h s1 h1) hs

theorem document_never_empty_witness :
    run
        [operation.set_text "ab\ncd".toList, operation.move_down 1 false,
          operation.move_end false, operation.insert_character 'x' false,
          operation.delete_previous, operation.insert_text "\n\n".toList,
          operation.select ⟨0, 0⟩ ⟨3, 0⟩ selection_mode.normal, operation.delete_selection,
          operation.delete_next, operation.delete_previous,
          operation.delete_range ⟨0, 0⟩ ⟨0, 0⟩, operation.move_top true]
        create
      = .ok { create with _lines := [[]]
                          _select_end := ⟨1, 2⟩
                          _interactive_end := ⟨1, 2⟩
                          _colorize_line_beg := 0
                          _colorize_line_end := 4
                          _scroll_to_cursor := true } ∧
    ({ create with _lines := [[]]
                   _select_end := ⟨1, 2⟩
                   _interactive_end := ⟨1, 2⟩
                   _colorize_line_beg := 0
                   _colorize_line_end := 4
                   _scroll_to_cursor := true } : code_editor_widget)._lines ≠ [] :=
  ⟨rfl, document_never_empty.2
    [operation.set_text "ab\ncd".toList, operation.move_down 1 false,
      operation.move_end false, operation.insert_character 'x' false,
      operation.delete_previous, operation.insert_text "\n\n".toList,
      operation.select ⟨0, 0⟩ ⟨3, 0⟩ selection_mode.normal, operation.delete_selection,
      operation.delete_next, operation.delete_previous,
      operation.delete_range ⟨0, 0⟩ ⟨0, 0⟩, operation.move_top true]
    create _ (by decide) rfl⟩

/-! ### Typing a character -/

theorem insert_character_newline_parts (s : code_editor_widget) (P Q : List (List glyph))
    (U V : List glyph) (shift : Bool) (h : s._lines = P ++ (U ++ V) :: Q)
    (hsel : s.has_selection = false)
    (hcur : s._cursor_pos = ⟨(P.length : Int), (U.length : Int)⟩) :
    insert_character s '\n' shift = .ok
      { s with _lines := P ++ U :: ((U ++ V).takeWhile (fun g => isblank g.c) ++ V) :: Q
               _cursor_pos := ⟨(P.length : Int) + 1,
                 (((U ++ V).takeWhile (fun g => isblank g.c)).length : Int)⟩
               _errors := insert_line_errors s._errors ((P.length : Int) + 1)
               _colorize_line_beg := min s._colorize_line_beg (P.length : Int)
               _colorize_line_end := max s._colorize_line_end ((P.length : Int) + 1 + 1)
               _scroll_to_cursor := true } := by
  have hemp : (!(P ++ (U ++ V) :: Q).isEmpty) = true := by simp
  have h0 : vec_insert (P ++ (U ++ V) :: Q) ((P.length : Int) + 1) []
      = .ok (P ++ (U ++ V) :: [] :: Q) := by
    have := vec_insert_range_eq (v := P ++ (U ++ V) :: Q) (A := P ++ [U ++ V]) (B := Q)
      (i := (P.length : Int) + 1) (by simp) (by simp) [[]]
    simpa [vec_insert] using this
  have h1 : vec_at (P ++ (U ++ V) :: [] :: Q) (P.length : Int) = .ok (U ++ V) :=
    vec_at_eq rfl rfl
  have h2 : vec_at (P ++ (U ++ V) :: [] :: Q) ((P.length : Int) + 1) = .ok [] :=
    vec_at_eq (A := P ++ [U ++ V]) (B := Q) (by simp) (by simp)
  have h3 : vec_from (U ++ V) (U.length : Int) = .ok V := vec_from_eq rfl rfl
  have h4 : vec_insert_range ((U ++ V).takeWhile (fun g => isblank g.c))
      (((U ++ V).takeWhile (fun g => isblank g.c)).length : Int) V
      = .ok ((U ++ V).takeWhile (fun g => isblank g.c) ++ V) := by
    have := vec_insert_range_eq (v := (U ++ V).takeWhile (fun g => isblank g.c))
      (A := (U ++ V).takeWhile (fun g => isblank g.c)) (B := [])
      (i := (((U ++ V).takeWhile (fun g => isblank g.c)).length : Int)) (by simp) rfl V
    simpa using this
  have h5 : vec_erase_range (U ++ V) (U.length : Int) ((U ++ V).length : Int) = .ok U := by
    have := vec_erase_range_eq (v := U ++ V) (A := U) (M := V) (B := [])
      (a := (U.length : Int)) (b := ((U ++ V).length : Int)) (by simp) rfl (by simp)
    simpa using this
  have h6 : vec_set (P ++ (U ++ V) :: [] :: Q) ((P.length : Int) + 1)
      ((U ++ V).takeWhile (fun g => isblank g.c) ++ V)
      = .ok (P ++ (U ++ V) :: ((U ++ V).takeWhile (fun g => isblank g.c) ++ V) :: Q) := by
    have := vec_set_eq (v := P ++ (U ++ V) :: [] :: Q) (A := P ++ [U ++ V]) (B := Q)
      (x := []) (i := (P.length : Int) + 1) (by simp) (by simp)
      ((U ++ V).takeWhile (fun g => isblank g.c) ++ V)
    simpa using this
  have h7 : vec_set (P ++ (U ++ V) :: ((U ++ V).takeWhile (fun g => isblank g.c) ++ V) :: Q)
      (P.length : Int) U
      = .ok (P ++ U :: ((U ++ V).takeWhile (fun g => isblank g.c) ++ V) :: Q) :=
    vec_set_eq rfl rfl _
  have hmin : min (min s._colorize_line_beg (P.length : Int)) ((P.length : Int) + 1)
      = min s._colorize_line_beg (P.length : Int) := by omega
  have hmax : max (max s._colorize_line_end ((P.length : Int) + 1 + 1)) ((P.length : Int) + 1 + 1)
      = max s._colorize_line_end ((P.length : Int) + 1 + 1) := by omega
  unfold insert_character
  simp only [hsel, Bool.false_and, Bool.false_eq_true, if_false, if_true, except_pure,
    except_bind_ok, h, hemp, assert_that_true, hcur, insert_line, h0, h1, h2, List.nil_append,
    h3, h4, h5, h6, h7, hmin, hmax]

theorem insert_character_insert_parts (s : code_editor_widget) (P Q : List (List glyph))
    (U V : List glyph) (c : Char) (shift : Bool) (hn : c ≠ '\n')
    (h : s._lines = P ++ (U ++ V) :: Q) (hsel : s.has_selection = false)
    (hcur : s._cursor_pos = ⟨(P.length : Int), (U.length : Int)⟩)
    (hov : s._overwrite = false ∨ V = []) :
    insert_character s c shift = .ok
      { s with _lines := P ++ (U ++ ⟨c, color_palette.color_default⟩ :: V) :: Q
               _cursor_pos := ⟨(P.length : Int), (U.length : Int) + 1⟩
               _colorize_line_beg := min s._colorize_line_beg (P.length : Int)
               _colorize_line_end := max s._colorize_line_end ((P.length : Int) + 1)
               _scroll_to_cursor := true } := by
  have hemp : (!(P ++ (U ++ V) :: Q).isEmpty) = true := by simp
  have h1 : vec_at (P ++ (U ++ V) :: Q) (P.length : Int) = .ok (U ++ V) := vec_at_eq rfl rfl
  have h2 : vec_insert (U ++ V) (U.length : Int) ⟨c, color_palette.color_default⟩
      = .ok (U ++ ⟨c, color_palette.color_default⟩ :: V) := vec_insert_append U V _ rfl _
  have h3 : vec_set (P ++ (U ++ V) :: Q) (P.length : Int)
      (U ++ ⟨c, color_palette.color_default⟩ :: V)
      = .ok (P ++ (U ++ ⟨c, color_palette.color_default⟩ :: V) :: Q) := vec_set_eq rfl rfl _
  have hc : ¬ (s._overwrite = true ∧ ((U ++ V).length : Int) > (U.length : Int)) := by
    rcases hov with ho | hV
    · simp [ho]
    · subst hV; simp
  unfold insert_character
  simp only [hsel, Bool.false_and, Bool.false_eq_true, if_false, except_pure,
    except_bind_ok, h, hemp, assert_that_true, hcur, hn, h1, hc, h2, h3]

theorem insert_character_overwrite_parts (s : code_editor_widget) (P Q : List (List glyph))
    (U V : List glyph) (g : glyph) (c : Char) (shift : Bool) (hn : c ≠ '\n')
    (h : s._lines = P ++ (U ++ g :: V) :: Q) (hsel : s.has_selection = false)
    (hcur : s._cursor_pos = ⟨(P.length : Int), (U.length : Int)⟩)
    (hov : s._overwrite = true) :
    insert_character s c shift = .ok
      { s with _lines := P ++ (U ++ ⟨c, color_palette.color_default⟩ :: V) :: Q
               _cursor_pos := ⟨(P.length : Int), (U.length : Int) + 1⟩
               _colorize_line_beg := min s._colorize_line_beg (P.length : Int)
               _colorize_line_end := max s._colorize_line_end ((P.length : Int) + 1)
               _scroll_to_cursor := true } := by
  have hemp : (!(P ++ (U ++ g :: V) :: Q).isEmpty) = true := by simp
  have h1 : vec_at (P ++ (U ++ g :: V) :: Q) (P.length : Int) = .ok (U ++ g :: V) :=
    vec_at_eq rfl rfl
  have h2 : vec_set (U ++ g :: V) (U.length : Int) ⟨c, color_palette.color_default⟩
      = .ok (U ++ ⟨c, color_palette.color_default⟩ :: V) := vec_set_eq rfl rfl _
  have h3 : vec_set (P ++ (U ++ g :: V) :: Q) (P.length : Int)
      (U ++ ⟨c, color_palette.color_default⟩ :: V)
      = .ok (P ++ (U ++ ⟨c, color_palette.color_default⟩ :: V) :: Q) := vec_set_eq rfl rfl _
  have hc : (True ∧ ((U ++ g :: V).length : Int) > (U.length : Int)) := by
    refine ⟨trivial, ?_⟩
    simp only [List.length_append, List.length_cons, Nat.cast_add, Nat.cast_one]; omega
  unfold insert_character
  simp only [hsel, Bool.false_and, Bool.false_eq_true, if_false, except_pure,
    except_bind_ok, h, hemp, assert_that_true, hcur, hn, h1, hov, hc, h2, h3, if_true, and_self]

/-- C11: with no selection and an in-bounds cursor `(l, c)`, `insert_character` of a
newline leaves on line l the old characters before column c, puts behind it a new
line made of the leading run of blanks of the old line followed by the old
characters from column c on, moves the later lines down by one and sets the cursor
to line `l + 1` behind that run of blanks. -/
theorem insert_character_newline (s : code_editor_widget) (l c : Nat) (line : List glyph)
    (shift : Bool) (hl : s._lines[l]? = some line) (hc : c ≤ line.length)
    (hsel : s.has_selection = false)
    (hcur : s._cursor_pos = ⟨(l : Int), (c : Int)⟩) :
    insert_character s '\n' shift = .ok
      { s with _lines := s._lines.take l ++ line.take c
                 :: (line.takeWhile (fun g => isblank g.c) ++ line.drop c)
                 :: s._lines.drop (l + 1)
               _cursor_pos := ⟨(l : Int) + 1,
                 ((line.takeWhile (fun g => isblank g.c)).length : Int)⟩
               _errors := insert_line_errors s._errors ((l : Int) + 1)
               _colorize_line_beg := min s._colorize_line_beg (l : Int)
               _colorize_line_end := max s._colorize_line_end ((l : Int) + 1 + 1)
               _scroll_to_cursor := true } ∧
    (s._lines.take l ++ line.take c :: (line.takeWhile (fun g => isblank g.c) ++ line.drop c)
      :: s._lines.drop (l + 1)).length = s._lines.length + 1 := by
  have hlen : l < s._lines.length := (List.getElem?_eq_some.mp hl).1
  obtain ⟨A, B, hL, hAl, hA, hB⟩ := exists_split_at s._lines l line hl
  obtain ⟨X, Y, hx, hXl, hX, hY⟩ := exists_line_split line c hc
  constructor
  · rw [hA, hB, hX, hY]
    subst hAl hXl
    rw [hx] at hL ⊢
    exact insert_character_newline_parts s A B X Y shift hL hsel hcur
  · simp only [List.length_append, List.length_cons, List.length_take, List.length_drop]
    omega

theorem insert_character_newline_witness :
    insert_character { create with _lines := [glyphs "  foo"], _cursor_pos := ⟨0, 5⟩ } '\n' false
      = .ok { create with _lines := [glyphs "  foo", glyphs "  "]
                          _cursor_pos := ⟨1, 2⟩
                          _colorize_line_beg := 0
                          _colorize_line_end := 2
                          _scroll_to_cursor := true } :=
  (insert_character_newline { create with _lines := [glyphs "  foo"], _cursor_pos := ⟨0, 5⟩ }
    0 5 (glyphs "  foo") false rfl (by decide) rfl rfl).1

/-- C12: with no selection and an in-bounds cursor `(l, c)`, `insert_character` of a
character other than the newline replaces the glyph at column c when overwrite mode
is on and there is a glyph at that column (the line keeps its length), and
otherwise inserts the character at column c, moving the glyphs from c on one to the
right; the cursor becomes `(l, c + 1)` and no other line changes. -/
theorem insert_character_normal (s : code_editor_widget) (l c : Nat) (line : List glyph)
    (ch : Char) (shift : Bool) (hn : ch ≠ '\n')
    (hl : s._lines[l]? = some line) (hc : c ≤ line.length)
    (hsel : s.has_selection = false)
    (hcur : s._cursor_pos = ⟨(l : Int), (c : Int)⟩) :
    insert_character s ch shift = .ok
      { s with _lines := s._lines.take l
                 ++ (line.take c ++ ⟨ch, color_palette.color_default⟩
                      :: line.drop (if s._overwrite = true ∧ c < line.length then c + 1 else c))
                 :: s._lines.drop (l + 1)
               _cursor_pos := ⟨(l : Int), (c : Int) + 1⟩
               _colorize_line_beg := min s._colorize_line_beg (l : Int)
               _colorize_line_end := max s._colorize_line_end ((l : Int) + 1)
               _scroll_to_cursor := true } ∧
    (line.take c ++ ⟨ch, color_palette.color_default⟩
        :: line.drop (if s._overwrite = true ∧ c < line.length then c + 1 else c)).length
      = if s._overwrite = true ∧ c < line.length then line.length else line.length + 1 := by
  obtain ⟨A, B, hL, hAl, hA, hB⟩ := exists_split_at s._lines l line hl
  by_cases hov : s._overwrite = true ∧ c < line.length
  · rw [if_pos hov, if_pos hov]
    have hg := List.getElem?_eq_getElem hov.2
    obtain ⟨X, Y, hx, hXl, hX, hY⟩ := exists_split_at line c _ hg
    constructor
    · rw [hA, hB, hX, hY]
      subst hAl hXl
      rw [hx] at hL
      exact insert_character_overwrite_parts s A B X Y _ ch shift hn hL hsel hcur hov.1
    · simp only [List.length_append, List.length_cons, List.length_take, List.length_drop]
      omega
  · rw [if_neg hov, if_neg hov]
    obtain ⟨X, Y, hx, hXl, hX, hY⟩ := exists_line_split line c hc
    constructor
    · rw [hA, hB, hX, hY]
      subst hAl hXl
      rw [hx] at hL
      refine insert_character_insert_parts s A B X Y ch shift hn hL hsel hcur ?_
      by_cases ho : s._overwrite = true
      · right
        have hlen : ¬ (X.length < line.length) := fun hlt => hov ⟨ho, hlt⟩
        rw [hx, List.length_append] at hlen
        exact List.length_eq_zero.mp (by omega)
      · left
        simpa using ho
    · simp only [List.length_append, List.length_cons, List.length_take, List.length_drop]
      omega

theorem insert_character_normal_witness :
    insert_character { create with _lines := [glyphs "abc"], _cursor_pos := ⟨0, 1⟩
                                   _overwrite := true } 'X' false
      = .ok { create with _lines := [glyphs "aXc"]
                          _cursor_pos := ⟨0, 2⟩
                          _overwrite := true
                          _colorize_line_beg := 0
                          _colorize_line_end := 1
                          _scroll_to_cursor := true } ∧
    insert_character { create with _lines := [glyphs "abc"], _cursor_pos := ⟨0, 1⟩ } '\t' true
      = .ok { create with _lines := [glyphs "a\tbc"]
                          _cursor_pos := ⟨0, 2⟩
                          _colorize_line_beg := 0
                          _colorize_line_end := 1
                          _scroll_to_cursor := true } :=
  ⟨(insert_character_normal { create with _lines := [glyphs "abc"], _cursor_pos := ⟨0, 1⟩
                                          _overwrite := true }
      0 1 (glyphs "abc") 'X' false (by decide) rfl (by decide) rfl rfl).1,
   (insert_character_normal { create with _lines := [glyphs "abc"], _cursor_pos := ⟨0, 1⟩ }
      0 1 (glyphs "abc") '\t' true (by decide) rfl (by decide) rfl rfl).1⟩

/-! ### Indenting and outdenting the selected lines -/

theorem indent_lines_indent (M : List (List glyph)) :
    ∀ (A B : List (List glyph)) (s : code_editor_widget), s._lines = A ++ M ++ B →
      indent_lines false M.length (A.length : Int) s = .ok
        { s with _lines := A ++ M.map (fun line =>
                   (⟨'\t', color_palette.color_background⟩ : glyph) :: line) ++ B
                 _scroll_to_cursor := s._scroll_to_cursor || !M.isEmpty } := by
  induction M with
  | nil =>
    intro A B s h
    simp only [List.length_nil, indent_lines, List.map_nil, List.isEmpty_nil, Bool.not_true,
      Bool.or_false]
    rw [← h]
  | cons m M ih =>
    intro A B s h
    have h1 : vec_at s._lines (A.length : Int) = .ok m :=
      vec_at_eq (B := M ++ B) (by rw [h]; simp) rfl
    have h2 : vec_insert m 0 (⟨'\t', color_palette.color_background⟩ : glyph)
        = .ok (⟨'\t', color_palette.color_background⟩ :: m) := by
      have := vec_insert_append [] m 0 (by simp) (⟨'\t', color_palette.color_background⟩ : glyph)
      simpa using this
    have h3 : vec_set s._lines (A.length : Int) (⟨'\t', color_palette.color_background⟩ :: m)
        = .ok (A ++ (⟨'\t', color_palette.color_background⟩ :: m) :: (M ++ B)) :=
      vec_set_eq (x := m) (by rw [h]; simp) rfl _
    have hrec := ih (A ++ [⟨'\t', color_palette.color_background⟩ :: m]) B
      { s with _lines := A ++ (⟨'\t', color_palette.color_background⟩ :: m) :: (M ++ B)
               _scroll_to_cursor := true } (by simp)
    simp only [List.length_append, List.length_singleton, Nat.cast_add, Nat.cast_one] at hrec
    simp only [List.length_cons, indent_lines, h1, except_bind_ok, Bool.false_eq_true, if_false,
      h2, h3, except_pure, hrec]
    simp

theorem indent_lines_outdent (M : List (List glyph)) :
    ∀ (A B : List (List glyph)) (s : code_editor_widget),
      s._lines = A ++ M.map (fun line =>
        (⟨'\t', color_palette.color_background⟩ : glyph) :: line) ++ B →
      indent_lines true M.length (A.length : Int) s = .ok
        { s with _lines := A ++ M ++ B
                 _scroll_to_cursor := s._scroll_to_cursor || !M.isEmpty } := by
  induction M with
  | nil =>
    intro A B s h
    simp only [List.length_nil, indent_lines, List.isEmpty_nil, Bool.not_true, Bool.or_false]
    rw [← show s._lines = A ++ [] ++ B from by simpa using h]
  | cons m M ih =>
    intro A B s h
    have h1 : vec_at s._lines (A.length : Int)
        = .ok ((⟨'\t', color_palette.color_background⟩ : glyph) :: m) :=
      vec_at_eq (B := M.map (fun line =>
        (⟨'\t', color_palette.color_background⟩ : glyph) :: line) ++ B) (by rw [h]; simp) rfl
    have h2 : vec_at ((⟨'\t', color_palette.color_background⟩ : glyph) :: m) 0
        = .ok ⟨'\t', color_palette.color_background⟩ := by
      have := vec_at_append [] (⟨'\t', color_palette.color_background⟩ : glyph) m 0 (by simp)
      simpa using this
    have h3 : vec_erase ((⟨'\t', color_palette.color_background⟩ : glyph) :: m) 0 = .ok m := by
      have := vec_erase_append [] (⟨'\t', color_palette.color_background⟩ : glyph) m 0 (by simp)
      simpa using this
    have h4 : vec_set s._lines (A.length : Int) m
        = .ok (A ++ m :: (M.map (fun line =>
            (⟨'\t', color_palette.color_background⟩ : glyph) :: line) ++ B)) :=
      vec_set_eq (x := (⟨'\t', color_palette.color_background⟩ : glyph) :: m)
        (by rw [h]; simp) rfl _
    have hrec := ih (A ++ [m]) B
      { s with _lines := A ++ m :: (M.map (fun line =>
                 (⟨'\t', color_palette.color_background⟩ : glyph) :: line) ++ B)
               _scroll_to_cursor := true } (by simp)
    simp only [List.length_append, List.length_singleton, Nat.cast_add, Nat.cast_one] at hrec
    simp only [List.length_cons, indent_lines, h1, except_bind_ok, if_true, h2,
      h3, h4, except_pure, hrec]
    simp

theorem exists_split_block {α : Type} (L : List α) (bl n : Nat) (h : bl + n ≤ L.length) :
    ∃ A M B, L = A ++ M ++ B ∧ A.length = bl ∧ M.length = n ∧
      L.take bl = A ∧ (L.drop bl).take n = M ∧ L.drop (bl + n) = B := by
  refine ⟨L.take bl, (L.drop bl).take n, L.drop (bl + n), ?_, ?_, ?_, rfl, rfl, rfl⟩
  · rw [List.append_assoc, ← List.drop_drop, List.take_append_drop, List.take_append_drop]
  · rw [List.length_take]; omega
  · rw [List.length_take, List.length_drop]; omega

/-- The tab branch of `insert_character`: the loop over the lines of the selection. -/
theorem insert_character_tab_parts (s : code_editor_widget) (A M B : List (List glyph))
    (bc ec el : Int) (shift : Bool) (h : s._lines = A ++ M ++ B)
    (hb : s._select_beg = ⟨(A.length : Int), bc⟩) (he : s._select_end = ⟨el, ec⟩)
    (hsel : s.has_selection = true) (hM : M ≠ [])
    (hlast : (if ec = 0 ∧ el > 0 then el - 1 else el) = (A.length : Int) + (M.length : Int) - 1) :
    insert_character s '\t' shift =
      indent_lines shift M.length (A.length : Int)
        { s with _colorize_line_beg := min s._colorize_line_beg (A.length : Int)
                 _colorize_line_end := max s._colorize_line_end (el + 1) } := by
  have hMlen : 0 < M.length := List.length_pos.mpr hM
  unfold insert_character
  simp only [hsel, decide_True, Bool.and_self, if_true, hb, he]
  by_cases hc : ec = 0 ∧ el > 0
  · rw [if_pos hc] at hlast
    have hidx : el - 1 = (((A ++ M).length - 1 : Nat) : Int) := by
      rw [List.length_append]; omega
    have hlt : (A ++ M).length - 1 < s._lines.length := by
      rw [h]; simp only [List.length_append]; omega
    have hat := vec_at_of_lt s._lines ((A ++ M).length - 1) hlt
    rw [← hidx] at hat
    have hn : (el - 1 - (A.length : Int) + 1).toNat = M.length := by omega
    simp only [if_pos hc, hat, except_bind_ok, hn]
  · rw [if_neg hc] at hlast
    have hn : (el - (A.length : Int) + 1).toNat = M.length := by omega
    simp only [if_neg hc, hn]

/-- C13: with a non-empty selection from `(bl, bc)` to `(el, ec)` in the document,
`insert_character('\t', false)` puts exactly one tab in front of every selected line
(the lines `bl .. el`, without line el when the selection ends at its column 0) and
changes no other line, and `insert_character('\t', true)` on the same selection then
gives every line of the document back as it was. -/
theorem indent_outdent (s : code_editor_widget) (bl bc el ec n : Nat)
    (hb : s._select_beg = ⟨(bl : Int), (bc : Int)⟩)
    (he : s._select_end = ⟨(el : Int), (ec : Int)⟩)
    (hlt : bl < el ∨ (bl = el ∧ bc < ec)) (hel : el < s._lines.length)
    (hn : n = if ec = 0 ∧ 0 < el then el - bl else el - bl + 1) :
    insert_character s '\t' false = .ok
      { s with _lines := s._lines.take bl
                 ++ ((s._lines.drop bl).take n).map (fun line =>
                      (⟨'\t', color_palette.color_background⟩ : glyph) :: line)
                 ++ s._lines.drop (bl + n)
               _colorize_line_beg := min s._colorize_line_beg (bl : Int)
               _colorize_line_end := max s._colorize_line_end ((el : Int) + 1)
               _scroll_to_cursor := true } ∧
    insert_character
      { s with _lines := s._lines.take bl
                 ++ ((s._lines.drop bl).take n).map (fun line =>
                      (⟨'\t', color_palette.color_background⟩ : glyph) :: line)
                 ++ s._lines.drop (bl + n)
               _colorize_line_beg := min s._colorize_line_beg (bl : Int)
               _colorize_line_end := max s._colorize_line_end ((el : Int) + 1)
               _scroll_to_cursor := true } '\t' true = .ok
      { s with _colorize_line_beg := min s._colorize_line_beg (bl : Int)
               _colorize_line_end := max s._colorize_line_end ((el : Int) + 1)
               _scroll_to_cursor := true } := by
  have hsel : s.has_selection = true := by
    unfold has_selection
    rw [hb, he]
    rcases hlt with h | ⟨h1, h2⟩
    · exact text_pos_gt_of_line_lt _ _ _ _ (by omega)
    · subst h1; exact text_pos_gt_same_line _ _ _ (by omega)
  have hn1 : 1 ≤ n ∧ bl + n ≤ s._lines.length := by
    rw [hn]; split <;> omega
  obtain ⟨A, M, B, hL, hAl, hMl, hA, hM, hB⟩ := exists_split_block s._lines bl n hn1.2
  have hMne : M ≠ [] := by
    intro hnil; rw [hnil] at hMl; simp at hMl; omega
  have hlast : (if (ec : Int) = 0 ∧ (el : Int) > 0 then (el : Int) - 1 else (el : Int))
      = (A.length : Int) + (M.length : Int) - 1 := by
    rw [hAl, hMl, hn]
    by_cases hc : ec = 0 ∧ 0 < el
    · have hc' : (ec : Int) = 0 ∧ (el : Int) > 0 := by omega
      rw [if_pos hc, if_pos hc']
      omega
    · have hc' : ¬ ((ec : Int) = 0 ∧ (el : Int) > 0) := by omega
      rw [if_neg hc, if_neg hc']
      omega
  have hemp : (!M.isEmpty) = true := by
    cases M with
    | nil => exact absurd rfl hMne
    | cons m M => rfl
  rw [hA, hM, hB]
  have hb' : s._select_beg = ⟨(A.length : Int), (bc : Int)⟩ := by rw [hAl]; exact hb
  constructor
  · rw [insert_character_tab_parts s A M B bc ec el false hL hb' he hsel hMne hlast,
      indent_lines_indent M A B
        { s with _colorize_line_beg := min s._colorize_line_beg (A.length : Int)
                 _colorize_line_end := max s._colorize_line_end ((el : Int) + 1) } hL, hAl]
    simp only [hemp, Bool.or_true]
  · have key := insert_character_tab_parts
      { s with _lines := A ++ M.map (fun line =>
                 (⟨'\t', color_palette.color_background⟩ : glyph) :: line) ++ B
               _colorize_line_beg := min s._colorize_line_beg (bl : Int)
               _colorize_line_end := max s._colorize_line_end ((el : Int) + 1)
               _scroll_to_cursor := true } A
      (M.map (fun line => (⟨'\t', color_palette.color_background⟩ : glyph) :: line)) B bc ec el
      true rfl hb' he hsel (by simpa using hMne) (by rw [List.length_map]; exact hlast)
    have key2 := indent_lines_outdent M A B
      { s with _lines := A ++ M.map (fun line =>
                 (⟨'\t', color_palette.color_background⟩ : glyph) :: line) ++ B
               _colorize_line_beg := min (min s._colorize_line_beg (bl : Int)) (A.length : Int)
               _colorize_line_end :=
                 max (max s._colorize_line_end ((el : Int) + 1)) ((el : Int) + 1)
               _scroll_to_cursor := true } rfl
    rw [List.length_map] at key
    rw [key, key2, ← hL, hAl]
    have hmin : min (min s._colorize_line_beg (bl : Int)) (bl : Int)
        = min s._colorize_line_beg (bl : Int) := by omega
    have hmax : max (max s._colorize_line_end ((el : Int) + 1)) ((el : Int) + 1)
        = max s._colorize_line_end ((el : Int) + 1) := by omega
    simp only [hmin, hmax, hemp, Bool.or_true]

theorem indent_outdent_witness :
    insert_character { create with _lines := [glyphs "abc", glyphs "def"]
                                   _select_beg := ⟨0, 0⟩, _select_end := ⟨1, 3⟩ } '\t' false
      = .ok { create with _lines := [⟨'\t', color_palette.color_background⟩ :: glyphs "abc",
                                      ⟨'\t', color_palette.color_background⟩ :: glyphs "def"]
                          _select_beg := ⟨0, 0⟩, _select_end := ⟨1, 3⟩
                          _colorize_line_beg := 0
                          _colorize_line_end := 2
                          _scroll_to_cursor := true } ∧
    insert_character
        { create with _lines := [⟨'\t', color_palette.color_background⟩ :: glyphs "abc",
                                  ⟨'\t', color_palette.color_background⟩ :: glyphs "def"]
                      _select_beg := ⟨0, 0⟩, _select_end := ⟨1, 3⟩
                      _colorize_line_beg := 0
                      _colorize_line_end := 2
                      _scroll_to_cursor := true } '\t' true
      = .ok { create with _lines := [glyphs "abc", glyphs "def"]
                          _select_beg := ⟨0, 0⟩, _select_end := ⟨1, 3⟩
                          _colorize_line_beg := 0
                          _colorize_line_end := 2
                          _scroll_to_cursor := true } :=
  indent_outdent { create with _lines := [glyphs "abc", glyphs "def"]
                               _select_beg := ⟨0, 0⟩, _select_end := ⟨1, 3⟩ }
    0 0 1 3 2 rfl rfl (Or.inl (by decide)) (by decide) (by decide)

/-! ### `insert_text` and typing the same characters -/

/-- C14 fails: on the line `" a"` with the cursor at its end, `insert_text` of a
newline makes an empty second line with the cursor at `(1, 0)`, while
`insert_character` of the newline copies the leading blank and leaves the cursor at
`(1, 1)`. -/
theorem insert_text_differs_from_typing :
    ∃ s1 s2,
      insert_text { create with _lines := [glyphs " a"], _cursor_pos := ⟨0, 2⟩ } "\n".toList
        = .ok s1 ∧
      insert_characters "\n".toList
        { create with _lines := [glyphs " a"], _cursor_pos := ⟨0, 2⟩ } = .ok s2 ∧
      s1._lines = [glyphs " a", glyphs ""] ∧ s2._lines = [glyphs " a", glyphs " "] ∧
      s1._lines ≠ s2._lines ∧ s1._cursor_pos ≠ s2._cursor_pos :=
  ⟨_, _, rfl, rfl, rfl, rfl, by decide, by decide⟩

theorem insert_steps_agree (text : List Char) :
    ∀ (s s' u : code_editor_widget) (P Q : List (List glyph)) (U V : List glyph),
      s._lines = P ++ (U ++ V) :: Q → s'._lines = P ++ (U ++ V) :: Q →
      u._lines = P ++ (U ++ V) :: Q →
      s._cursor_pos = ⟨(P.length : Int), (U.length : Int)⟩ →
      s'._cursor_pos = ⟨(P.length : Int), (U.length : Int)⟩ →
      u._cursor_pos = ⟨(P.length : Int), (U.length : Int)⟩ →
      s'.has_selection = false → s'._overwrite = false →
      '\r' ∉ text → newlines_on_unindented_lines text u = true →
      ∃ s1 s2, insert_text_loop text s = .ok s1 ∧ insert_characters text s' = .ok s2 ∧
        s1._lines = s2._lines ∧ s1._cursor_pos = s2._cursor_pos := by
  induction text with
  | nil =>
    intro s s' u P Q U V h h' _ hcur hcur' _ _ _ _ _
    exact ⟨s, s', rfl, rfl, by rw [h, h'], by rw [hcur, hcur']⟩
  | cons c cs ih =>
    intro s s' u P Q U V h h' hu hcur hcur' hcuru hsel hov hr hnl
    have hr1 : c ≠ '\r' := fun e => hr (by rw [e]; exact List.mem_cons_self _ _)
    have hr2 : '\r' ∉ cs := fun hm => hr (List.mem_cons_of_mem _ hm)
    unfold newlines_on_unindented_lines at hnl
    by_cases hn : c = '\n'
    · subst hn
      have hstep := insert_text_step_newline s P Q U V h hcur
      have hstepu := insert_text_step_newline u P Q U V hu hcuru
      have hat : vec_at u._lines u._cursor_pos.line = .ok (U ++ V) := by
        rw [hu, hcuru]; exact vec_at_eq rfl rfl
      rw [hstepu, hat] at hnl
      simp only [ne_eq, not_true_eq_false, decide_False, Bool.false_or, Bool.and_eq_true,
        List.isEmpty_iff] at hnl
      have hchar := insert_character_newline_parts s' P Q U V false h' hsel hcur'
      rw [hnl.1] at hchar
      obtain ⟨t, ht, htl, htc⟩ : ∃ t, insert_text_step s '\n' = .ok t ∧
          t._lines = (P ++ [U]) ++ ([] ++ V) :: Q ∧
          t._cursor_pos = ⟨((P ++ [U]).length : Int), (([] : List glyph).length : Int)⟩ :=
        ⟨_, hstep, by simp, by simp⟩
      obtain ⟨v, hvl, hvc, hvn⟩ : ∃ v : code_editor_widget,
          v._lines = (P ++ [U]) ++ ([] ++ V) :: Q ∧
          v._cursor_pos = ⟨((P ++ [U]).length : Int), (([] : List glyph).length : Int)⟩ ∧
          newlines_on_unindented_lines cs v = true :=
        ⟨_, by simp, by simp, hnl.2⟩
      obtain ⟨t', ht', htl', htc', hts', hto'⟩ : ∃ t', insert_character s' '\n' false = .ok t' ∧
          t'._lines = (P ++ [U]) ++ ([] ++ V) :: Q ∧
          t'._cursor_pos = ⟨((P ++ [U]).length : Int), (([] : List glyph).length : Int)⟩ ∧
          t'.has_selection = false ∧ t'._overwrite = false :=
        ⟨_, hchar, by simp, by simp, hsel, hov⟩
      obtain ⟨s1, s2, e1, e2, e3, e4⟩ := ih t t' v (P ++ [U]) Q [] V htl htl' hvl htc htc' hvc
        hts' hto' hr2 hvn
      exact ⟨s1, s2, by simp only [insert_text_loop, ht, except_bind_ok, e1],
        by simp only [insert_characters, ht', except_bind_ok, e2], e3, e4⟩
    · have hstep := insert_text_step_char s P Q U V c hr1 hn h hcur
      have hstepu := insert_text_step_char u P Q U V c hr1 hn hu hcuru
      rw [hstepu] at hnl
      simp only [Bool.and_eq_true] at hnl
      have hchar := insert_character_insert_parts s' P Q U V c false hn h' hsel hcur' (Or.inl hov)
      obtain ⟨t, ht, htl, htc⟩ : ∃ t, insert_text_step s c = .ok t ∧
          t._lines = P ++ ((U ++ [⟨c, color_palette.color_default⟩]) ++ V) :: Q ∧
          t._cursor_pos = ⟨(P.length : Int),
            ((U ++ [(⟨c, color_palette.color_default⟩ : glyph)]).length : Int)⟩ :=
        ⟨_, hstep, by simp, by simp⟩
      obtain ⟨v, hvl, hvc, hvn⟩ : ∃ v : code_editor_widget,
          v._lines = P ++ ((U ++ [⟨c, color_palette.color_default⟩]) ++ V) :: Q ∧
          v._cursor_pos = ⟨(P.length : Int),
            ((U ++ [(⟨c, color_palette.color_default⟩ : glyph)]).length : Int)⟩ ∧
          newlines_on_unindented_lines cs v = true :=
        ⟨_, by simp, by simp, hnl.2⟩
      obtain ⟨t', ht', htl', htc', hts', hto'⟩ : ∃ t', insert_character s' c false = .ok t' ∧
          t'._lines = P ++ ((U ++ [⟨c, color_palette.color_default⟩]) ++ V) :: Q ∧
          t'._cursor_pos = ⟨(P.length : Int),
            ((U ++ [(⟨c, color_palette.color_default⟩ : glyph)]).length : Int)⟩ ∧
          t'.has_selection = false ∧ t'._overwrite = false :=
        ⟨_, hchar, by simp, by simp, hsel, hov⟩
      obtain ⟨s1, s2, e1, e2, e3, e4⟩ := ih t t' v P Q _ V htl htl' hvl htc htc' hvc hts' hto'
        hr2 hvn
      exact ⟨s1, s2, by simp only [insert_text_loop, ht, except_bind_ok, e1],
        by simp only [insert_characters, ht', except_bind_ok, e2], e3, e4⟩

/-- C14, amended: with no selection, overwrite mode off and an in-bounds cursor, for
every text without carriage return whose newlines are each reached with the cursor
on a line that does not begin with a space or tab, `insert_text` leaves the same
lines and the same cursor as `insert_character(c, false)` called for each character
of the text in order. -/
theorem insert_text_as_typing (s : code_editor_widget) (l c : Nat) (line : List glyph)
    (text : List Char) (hl : s._lines[l]? = some line) (hc : c ≤ line.length)
    (hcur : s._cursor_pos = ⟨(l : Int), (c : Int)⟩)
    (hsel : s.has_selection = false) (hov : s._overwrite = false)
    (hr : '\r' ∉ text) (hnl : newlines_on_unindented_lines text s = true) :
    ∃ s1 s2, insert_text s text = .ok s1 ∧ insert_characters text s = .ok s2 ∧
      s1._lines = s2._lines ∧ s1._cursor_pos = s2._cursor_pos := by
  obtain ⟨A, B, hL, hAl, _, _⟩ := exists_split_at s._lines l line hl
  obtain ⟨X, Y, hx, hXl, _, _⟩ := exists_line_split line c hc
  subst hAl hXl
  rw [hx] at hL
  obtain ⟨s1, s2, e1, e2, e3, e4⟩ := insert_steps_agree text
    { s with _colorize_line_beg := min s._colorize_line_beg s._cursor_pos.line } s s A B X Y
    hL hL hL hcur hcur hcur hsel hov hr hnl
  have hins : ∃ r, insert_text s text = .ok r ∧ r._lines = s1._lines ∧
      r._cursor_pos = s1._cursor_pos := by
    simp only [insert_text, e1, except_bind_ok, select, except_pure]
    exact ⟨_, rfl, rfl, rfl⟩
  obtain ⟨r, hr1, hr2, hr3⟩ := hins
  exact ⟨r, s2, hr1, e2, hr2.trans e3, hr3.trans e4⟩

theorem insert_text_as_typing_witness :
    ∃ s1 s2,
      insert_text { create with _lines := [glyphs "foo bar"], _cursor_pos := ⟨0, 3⟩ }
        "a\n\tb".toList = .ok s1 ∧
      insert_characters "a\n\tb".toList
        { create with _lines := [glyphs "foo bar"], _cursor_pos := ⟨0, 3⟩ } = .ok s2 ∧
      s1._lines = s2._lines ∧ s1._cursor_pos = s2._cursor_pos :=
  insert_text_as_typing { create with _lines := [glyphs "foo bar"], _cursor_pos := ⟨0, 3⟩ }
    0 3 (glyphs "foo bar") "a\n\tb".toList rfl (by decide) rfl rfl rfl (by decide) rfl

/-! ### Moving the cursor to the left -/

theorem move_left_loop_add (lines : List (List glyph)) (a b : Nat) :
    ∀ p : text_pos, move_left_loop lines (a + b) p
      = (move_left_loop lines a p >>= fun q => move_left_loop lines b q) := by
  induction a with
  | zero => intro p; simp [move_left_loop]
  | succ a ih =>
    intro p
    have e : a + 1 + b = (a + b) + 1 := by omega
    rw [e]
    simp only [move_left_loop]
    by_cases hc : p.column = 0
    · by_cases hl : p.line = 0
      · simp only [hc, hl, if_true, except_bind_ok]
        have hp : p = ⟨0, 0⟩ := by
          cases p; simp only [text_pos.mk.injEq]; exact ⟨hl, hc⟩
        cases b with
        | zero => rfl
        | succ b => simp [move_left_loop, hc, hl]
      · simp only [hc, hl, if_true, if_false]
        cases hv : vec_at lines (p.line - 1) with
        | error e => simp
        | ok line => simp only [except_bind_ok, ih]
    · simp only [hc, if_false, ih]

theorem text_offset_prev_line (lines : List (List glyph)) (l : Nat) (prev : List glyph)
    (h : lines[l]? = some prev) :
    text_offset lines (l + 1) 0 = text_offset lines l prev.length + 1 := by
  obtain ⟨A, B, hL, hAl, hA, _⟩ := exists_split_at lines l prev h
  have hT : lines.take (l + 1) = A ++ [prev] := by
    have e : lines = (A ++ [prev]) ++ B := by rw [hL]; simp
    have hl : (A ++ [prev]).length = l + 1 := by simp [hAl]
    exact (congrArg (List.take (l + 1)) e).trans (List.take_left' hl)
  unfold text_offset
  rw [hT, hA]
  simp only [List.map_append, List.sum_append, List.map_cons, List.map_nil, List.sum_cons,
    List.sum_nil]
  omega

/-- The loop of `move_left` from an in-bounds position: it ends at an in-bounds
position that is as many positions further to the left, or at the origin. -/
theorem move_left_loop_spec (lines : List (List glyph)) (n : Nat) :
    ∀ (l c : Nat) (line : List glyph), lines[l]? = some line → c ≤ line.length →
      ∃ (l' c' : Nat) (line' : List glyph),
        move_left_loop lines n ⟨(l : Int), (c : Int)⟩ = .ok ⟨(l' : Int), (c' : Int)⟩ ∧
        lines[l']? = some line' ∧ c' ≤ line'.length ∧
        text_offset lines l' c' = text_offset lines l c - n := by
  induction n with
  | zero =>
    intro l c line hl hc
    exact ⟨l, c, line, rfl, hl, hc, by omega⟩
  | succ n ih =>
    intro l c line hl hc
    cases c with
    | zero =>
      cases l with
      | zero =>
        refine ⟨0, 0, line, by simp [move_left_loop], hl, hc, ?_⟩
        simp [text_offset]
      | succ l =>
        have hlt : l < lines.length := by
          have := (List.getElem?_eq_some.mp hl).1
          omega
        have hp := List.getElem?_eq_getElem hlt
        obtain ⟨l', c', line', h1, h2, h3, h4⟩ := ih l _ _ hp (Nat.le_refl _)
        have hat : vec_at lines (l : Int) = .ok (lines.get ⟨l, hlt⟩) := by
          rw [List.get_eq_getElem]
          exact vec_at_of_lt lines l hlt
        have hne : ¬ (((l + 1 : Nat) : Int) = 0) := by omega
        have e : ((l + 1 : Nat) : Int) - 1 = (l : Int) := by omega
        refine ⟨l', c', line', ?_, h2, h3, ?_⟩
        · simp only [move_left_loop, Nat.cast_zero, if_true, hne, if_false, e, hat, except_bind_ok,
            List.get_eq_getElem]
          exact h1
        · rw [h4, text_offset_prev_line lines l _ hp]
          omega
    | succ c =>
      obtain ⟨l', c', line', h1, h2, h3, h4⟩ := ih l c line hl (by omega)
      have hne : ¬ (((c + 1 : Nat) : Int) = 0) := by omega
      have e : ((c + 1 : Nat) : Int) - 1 = (c : Int) := by omega
      refine ⟨l', c', line', ?_, h2, h3, ?_⟩
      · simp only [move_left_loop, hne, if_false, e]
        exact h1
      · rw [h4]
        unfold text_offset
        omega

/-- The call `move_left(n, false, false)` when its loop ends at `q`. -/
theorem move_left_plain (s : code_editor_widget) (n : Nat) (q : text_pos)
    (hne : s._lines ≠ [])
    (hq : move_left_loop s._lines (n % 4294967296) s._cursor_pos = .ok q)
    (h0 : 0 ≤ q.line) (h1 : 0 ≤ q.column) :
    s.move_left n false false
      = .ok { s with _cursor_pos := q, _interactive_beg := q, _interactive_end := q,
                     _select_beg := q, _select_end := q, _scroll_to_cursor := true } := by
  have hE : s._lines.isEmpty = false := by
    cases h : s._lines with
    | nil => exact absurd h hne
    | cons a b => rfl
  have hg : q.gt q = false := text_pos_gt_irrefl q
  unfold move_left
  simp [hE, hq, assert_that, h0, h1, select, hg]

/-- Repeating `move_left(1, false, false)` moves the cursor as the loop of
`move_left` does. -/
theorem run_move_left_once (k : Nat) :
    ∀ (s : code_editor_widget) (l c : Nat) (line : List glyph),
      s._lines[l]? = some line → c ≤ line.length →
      s._cursor_pos = ⟨(l : Int), (c : Int)⟩ →
      ∃ s2, run (List.replicate k (operation.move_left 1 false false)) s = .ok s2 ∧
        move_left_loop s._lines k s._cursor_pos = .ok s2._cursor_pos := by
  induction k with
  | zero => intro s l c line _ _ _; exact ⟨s, rfl, rfl⟩
  | succ k ih =>
    intro s l c line hl hc hcur
    have hne : s._lines ≠ [] := by
      intro h; rw [h] at hl; simp at hl
    obtain ⟨l', c', line', h1, h2, h3, _⟩ := move_left_loop_spec s._lines 1 l c line hl hc
    rw [← hcur] at h1
    have hm := move_left_plain s 1 _ hne h1 (by simp) (by simp)
    obtain ⟨s2, hr, hq⟩ := ih
      { s with _cursor_pos := ⟨(l' : Int), (c' : Int)⟩,
               _interactive_beg := ⟨(l' : Int), (c' : Int)⟩,
               _interactive_end := ⟨(l' : Int), (c' : Int)⟩,
               _select_beg := ⟨(l' : Int), (c' : Int)⟩,
               _select_end := ⟨(l' : Int), (c' : Int)⟩,
               _scroll_to_cursor := true } l' c' line' h2 h3 rfl
    refine ⟨s2, ?_, ?_⟩
    · simp only [List.replicate_succ, run, operation.apply, hm, except_bind_ok]
      exact hr
    · have e : k + 1 = 1 + k := by omega
      rw [e, move_left_loop_add, h1, except_bind_ok]
      exact hq

/-- C20: with an in-bounds cursor at `(l, c)`, `move_left(1, false, false)` moves the
cursor to `(l, c - 1)` if `c > 0`, else to the end of line `l - 1` if `l > 0`, else
leaves it at `(0, 0)`; for `n < 2^32`, `move_left(n, false, false)` moves the cursor
where `n` calls of `move_left(1, false, false)` move it, and to `(0, 0)` when `n` is
at least the offset of the cursor in the text. -/
theorem move_left_steps (s : code_editor_widget) (l c : Nat) (line : List glyph)
    (hl : s._lines[l]? = some line) (hc : c ≤ line.length)
    (hcur : s._cursor_pos = ⟨(l : Int), (c : Int)⟩) :
    (∃ s1, s.move_left 1 false false = .ok s1 ∧
      (0 < c → s1._cursor_pos = ⟨(l : Int), (c : Int) - 1⟩) ∧
      (c = 0 → 0 < l → ∀ prev, s._lines[l - 1]? = some prev →
        s1._cursor_pos = ⟨(l : Int) - 1, (prev.length : Int)⟩) ∧
      (c = 0 → l = 0 → s1._cursor_pos = ⟨0, 0⟩)) ∧
    ∀ n, n < 4294967296 →
      ∃ s1 s2, s.move_left n false false = .ok s1 ∧
        run (List.replicate n (operation.move_left 1 false false)) s = .ok s2 ∧
        s1._cursor_pos = s2._cursor_pos ∧
        (text_offset s._lines l c ≤ n → s1._cursor_pos = ⟨0, 0⟩) := by
  have hne : s._lines ≠ [] := by
    intro h; rw [h] at hl; simp at hl
  constructor
  · obtain ⟨l', c', line', h1, _, _, _⟩ := move_left_loop_spec s._lines 1 l c line hl hc
    rw [← hcur] at h1
    have hm := move_left_plain s 1 _ hne h1 (by simp) (by simp)
    refine ⟨_, hm, ?_, ?_, ?_⟩
    · intro h0
      have hne0 : ¬ ((c : Int) = 0) := by omega
      have h2 : move_left_loop s._lines 1 s._cursor_pos = .ok ⟨(l : Int), (c : Int) - 1⟩ := by
        rw [hcur]; simp [move_left_loop, hne0]
      have e := h1.symm.trans h2
      injection e with e
    · intro h0 hl0 prev hp
      have hlt : l - 1 < s._lines.length := (List.getElem?_eq_some.mp hp).1
      have hat : vec_at s._lines ((l : Int) - 1) = .ok prev := by
        have e : (l : Int) - 1 = ((l - 1 : Nat) : Int) := by omega
        rw [e, vec_at_of_lt s._lines (l - 1) hlt]
        have := List.getElem?_eq_getElem hlt
        rw [hp] at this
        injection this with this
        rw [this]
      have hne0 : ¬ ((l : Int) = 0) := by omega
      have h2 : move_left_loop s._lines 1 s._cursor_pos
          = .ok ⟨(l : Int) - 1, (prev.length : Int)⟩ := by
        rw [hcur]; simp [move_left_loop, h0, hne0, hat]
      have e := h1.symm.trans h2
      injection e with e
    · intro h0 hl0
      have h2 : move_left_loop s._lines 1 s._cursor_pos = .ok ⟨0, 0⟩ := by
        rw [hcur]; simp [move_left_loop, h0, hl0]
      have e := h1.symm.trans h2
      injection e with e
  · intro n hn
    obtain ⟨l', c', line', h1, _, _, h4⟩ := move_left_loop_spec s._lines n l c line hl hc
    rw [← hcur] at h1
    have hmod : n % 4294967296 = n := Nat.mod_eq_of_lt hn
    have hm := move_left_plain s n _ hne (by rw [hmod]; exact h1) (by simp) (by simp)
    obtain ⟨s2, hr, hq⟩ := run_move_left_once n s l c line hl hc hcur
    refine ⟨_, s2, hm, hr, ?_, ?_⟩
    · have e := h1.symm.trans hq
      injection e with e
    · intro hle
      have h0 : text_offset s._lines l' c' = 0 := by omega
      unfold text_offset at h0
      have hc0 : c' = 0 := by omega
      have hs0 : ((s._lines.take l').map (fun ln => ln.length + 1)).sum = 0 := by omega
      have hl0 : l' = 0 := by
        cases l' with
        | zero => rfl
        | succ m =>
          exfalso
          cases hL : s._lines with
          | nil => exact hne hL
          | cons a b =>
            rw [hL] at hs0
            simp at hs0
      simp [hc0, hl0]

theorem move_left_steps_witness :
    ∃ s1 s2,
      code_editor_widget.move_left
        { code_editor_widget.create with
          _lines := [glyphs "ab", glyphs "c"], _cursor_pos := ⟨1, 0⟩ } 2 false false = .ok s1 ∧
      run (List.replicate 2 (operation.move_left 1 false false))
        { code_editor_widget.create with
          _lines := [glyphs "ab", glyphs "c"], _cursor_pos := ⟨1, 0⟩ } = .ok s2 ∧
      s1._cursor_pos = s2._cursor_pos ∧
      (text_offset [glyphs "ab", glyphs "c"] 1 0 ≤ 2 → s1._cursor_pos = ⟨0, 0⟩) :=
  (move_left_steps
    { code_editor_widget.create with
      _lines := [glyphs "ab", glyphs "c"], _cursor_pos := ⟨1, 0⟩ }
    1 0 (glyphs "c") rfl (by decide) rfl).2 2 (by decide)

/-! ### Moving the cursor to the right -/

/-- C19 fails: on `["ab", "c"]` with the cursor at `(0, 1)`, `move_right(1, false,
false)` moves the cursor to `(1, 0)` and not to `(0, 2)`; on `["ab"]` it leaves the
cursor at `(0, 1)`; and with the cursor at `(0, 2)`, the end of the buffer, it fails
its assertion. -/
theorem move_right_skips_line_end :
    (∃ s1, code_editor_widget.move_right
        { code_editor_widget.create with
          _lines := [glyphs "ab", glyphs "c"], _cursor_pos := ⟨0, 1⟩ } 1 false false = .ok s1 ∧
      s1._cursor_pos = ⟨1, 0⟩) ∧
    (∃ s1, code_editor_widget.move_right
        { code_editor_widget.create with
          _lines := [glyphs "ab"], _cursor_pos := ⟨0, 1⟩ } 1 false false = .ok s1 ∧
      s1._cursor_pos = ⟨0, 1⟩) ∧
    code_editor_widget.move_right
        { code_editor_widget.create with
          _lines := [glyphs "ab"], _cursor_pos := ⟨0, 2⟩ } 1 false false
      = .error fault.assertion :=
  ⟨⟨_, rfl, rfl⟩, ⟨_, rfl, rfl⟩, rfl⟩

theorem cursor_in_bounds_iff (s : code_editor_widget) :
    cursor_in_bounds s = true ↔
      ∃ (l c : Nat) (line : List glyph), s._lines[l]? = some line ∧ c ≤ line.length ∧
        s._cursor_pos = ⟨(l : Int), (c : Int)⟩ := by
  unfold cursor_in_bounds
  rw [decide_eq_true_iff]
  constructor
  · rintro ⟨h0, h1, h2, h3⟩
    have hlt : s._cursor_pos.line.toNat < s._lines.length := by omega
    refine ⟨s._cursor_pos.line.toNat, s._cursor_pos.column.toNat, s._lines[s._cursor_pos.line.toNat],
      List.getElem?_eq_getElem hlt, ?_, ?_⟩
    · rw [List.getD_eq_getElem _ _ hlt] at h3
      omega
    · cases hp : s._cursor_pos with
      | mk a b =>
        rw [hp] at h0 h2
        simp only at h0 h2
        simp only [text_pos.mk.injEq]
        constructor <;> omega
  · rintro ⟨l, c, line, hl, hc, hcur⟩
    have hlt : l < s._lines.length := (List.getElem?_eq_some.mp hl).1
    have hg : s._lines[l] = line := (List.getElem?_eq_some.mp hl).2
    rw [hcur]
    simp only [Int.toNat_ofNat]
    rw [List.getD_eq_getElem _ _ hlt, hg]
    refine ⟨?_, ?_, ?_, ?_⟩ <;> omega

/-- The loop of `move_right` from an in-bounds position ends at an in-bounds
position; from a position before the end of its line, or on an empty line, it ends
at such a position. -/
theorem move_right_loop_spec (lines : List (List glyph)) (n : Nat) :
    ∀ (l c : Nat) (line : List glyph), lines[l]? = some line → c ≤ line.length →
      ∃ (l' c' : Nat) (line' : List glyph),
        move_right_loop lines n ⟨(l : Int), (c : Int)⟩ = .ok ⟨(l' : Int), (c' : Int)⟩ ∧
        lines[l']? = some line' ∧ c' ≤ line'.length ∧
        ((c < line.length ∨ line = []) → (c' < line'.length ∨ line' = [])) := by
  induction n with
  | zero =>
    intro l c line hl hc
    exact ⟨l, c, line, rfl, hl, hc, fun h => h⟩
  | succ n ih =>
    intro l c line hl hc
    have hlt : l < lines.length := (List.getElem?_eq_some.mp hl).1
    have hg : lines[l] = line := (List.getElem?_eq_some.mp hl).2
    have hat : vec_at lines (l : Int) = .ok line := by
      rw [vec_at_of_lt lines l hlt, hg]
    by_cases h1 : (c : Int) ≥ (line.length : Int) - 1
    · by_cases h2 : (l : Int) ≥ (lines.length : Int) - 1
      · refine ⟨l, c, line, ?_, hl, hc, fun h => h⟩
        simp only [move_right_loop, hat, except_bind_ok, h1, h2, if_true]
        rfl
      · have hlt2 : l + 1 < lines.length := by omega
        obtain ⟨l', c', line', h3, h4, h5, h6⟩ :=
          ih (l + 1) 0 _ (List.getElem?_eq_getElem hlt2) (Nat.zero_le _)
        refine ⟨l', c', line', ?_, h4, h5, fun _ => h6 ?_⟩
        · simp only [move_right_loop, hat, except_bind_ok, h1, h2, if_true, if_false]
          exact h3
        · cases hL : lines[l + 1] with
          | nil => exact Or.inr rfl
          | cons a b => exact Or.inl (by simp)
    · obtain ⟨l', c', line', h3, h4, h5, h6⟩ := ih l (c + 1) line hl (by omega)
      refine ⟨l', c', line', ?_, h4, h5, fun _ => h6 ?_⟩
      · simp only [move_right_loop, hat, except_bind_ok, h1, if_false]
        exact h3
      · left; omega

/-! ### Navigation and the bounds of the cursor -/

/-- The call of `select` changes neither the lines, nor the cursor, nor the
interactive anchors. -/
theorem select_frame (s : code_editor_widget) (beg end_ : text_pos) (mode : selection_mode) :
    ∀ s', select s beg end_ mode = .ok s' →
      s'._lines = s._lines ∧ s'._cursor_pos = s._cursor_pos ∧
      s'._interactive_beg = s._interactive_beg ∧ s'._interactive_end = s._interactive_end := by
  unfold select
  cases mode with
  | normal => exact ok_imp _ _ ⟨rfl, rfl, rfl, rfl⟩
  | word =>
    simp only
    repeat' first
      | (with_reducible apply pure_imp; exact ⟨rfl, rfl, rfl, rfl⟩)
      | (with_reducible apply bind_ok_imp; intro _ _)
      | split
  | line =>
    simp only
    repeat' first
      | (with_reducible apply pure_imp; exact ⟨rfl, rfl, rfl, rfl⟩)
      | (with_reducible apply bind_ok_imp; intro _ _)
      | split

theorem isEmpty_eq_false_of_ne_nil {α : Type} (l : List α) (h : l ≠ []) : l.isEmpty = false := by
  cases l with
  | nil => exact absurd rfl h
  | cons a b => rfl

/-- A value in the range of an `int` is its own residue. -/
theorem int_wrap_of_int (x : Int) (h1 : -2147483648 ≤ x) (h2 : x ≤ 2147483647) :
    int_wrap x = x := by
  unfold int_wrap
  omega

/-- The cursor after `move_left` is where its loop ends. -/
theorem move_left_cursor (s : code_editor_widget) (n : Nat) (sel wm : Bool)
    (hne : s._lines ≠ []) :
    ∀ s', s.move_left n sel wm = .ok s' →
      move_left_loop s._lines (n % 4294967296) s._cursor_pos = .ok s'._cursor_pos ∧
      s'._lines = s._lines := by
  unfold move_left
  rw [isEmpty_eq_false_of_ne_nil _ hne]
  simp only [Bool.false_eq_true, if_false]
  apply bind_ok_imp; intro q hq
  apply bind_ok_imp; intro _ _
  apply bind_ok_imp; intro _ _
  apply bind_ok_imp; intro s2 h2
  apply pure_imp
  have hf := select_frame _ _ _ _ _ h2
  refine ⟨?_, ?_⟩
  · show move_left_loop s._lines (n % 4294967296) s._cursor_pos = .ok s2._cursor_pos
    rw [hf.2.1, hq]
    congr 1
    split
    · split
      · rfl
      · split <;> rfl
    · rfl
  · show s2._lines = s._lines
    rw [hf.1]
    split
    · split
      · rfl
      · split <;> rfl
    · rfl

/-- Without word mode, `move_left` returns when its loop does and the two assertions
behind the loop hold. -/
theorem move_left_returns (s : code_editor_widget) (n : Nat) (sel wm : Bool) (q : text_pos)
    (hw : (sel && wm) = false) (hne : s._lines ≠ [])
    (hq : move_left_loop s._lines (n % 4294967296) s._cursor_pos = .ok q)
    (h0 : 0 ≤ q.line) (h1 : 0 ≤ q.column) :
    ∃ s', s.move_left n sel wm = .ok s' := by
  unfold move_left
  simp [isEmpty_eq_false_of_ne_nil _ hne, hq, assert_that, h0, h1, hw, select]

/-- The cursor after `move_right` is where its loop ends. -/
theorem move_right_cursor (s : code_editor_widget) (n : Nat) (sel wm : Bool)
    (hne : s._lines ≠ []) :
    ∀ s', s.move_right n sel wm = .ok s' →
      move_right_loop s._lines (n % 4294967296) s._cursor_pos = .ok s'._cursor_pos ∧
      s'._lines = s._lines := by
  unfold move_right
  rw [isEmpty_eq_false_of_ne_nil _ hne]
  simp only [Bool.false_eq_true, if_false]
  apply bind_ok_imp; intro q hq
  apply bind_ok_imp; intro _ _
  apply bind_ok_imp; intro _ _
  apply bind_ok_imp; intro _ _
  apply bind_ok_imp; intro s2 h2
  apply pure_imp
  have hf := select_frame _ _ _ _ _ h2
  refine ⟨?_, ?_⟩
  · show move_right_loop s._lines (n % 4294967296) s._cursor_pos = .ok s2._cursor_pos
    rw [hf.2.1, hq]
    congr 1
    split
    · split
      · rfl
      · split <;> rfl
    · rfl
  · show s2._lines = s._lines
    rw [hf.1]
    split
    · split
      · rfl
      · split <;> rfl
    · rfl

/-- Without word mode, `move_right` returns when its loop ends before the end of
a line or on an empty line. -/
theorem move_right_returns (s : code_editor_widget) (n : Nat) (sel wm : Bool) (q : text_pos)
    (line : List glyph) (hw : (sel && wm) = false) (hne : s._lines ≠ [])
    (hq : move_right_loop s._lines (n % 4294967296) s._cursor_pos = .ok q)
    (h0 : q.line < (s._lines.length : Int)) (hat : vec_at s._lines q.line = .ok line)
    (h1 : q.column < (line.length : Int) ∨ line = []) :
    ∃ s', s.move_right n sel wm = .ok s' := by
  have ha : (decide (q.column < (line.length : Int)) || line.isEmpty) = true := by
    rcases h1 with h1 | h1
    · simp [h1]
    · simp [h1]
  have hb : decide (q.line < (s._lines.length : Int)) = true := by simpa using h0
  unfold move_right
  rw [isEmpty_eq_false_of_ne_nil _ hne]
  simp only [Bool.false_eq_true, if_false, hq, except_bind_ok, hb, assert_that_true, hat, ha, hw,
    select, except_pure]
  repeat' split
  all_goals exact ⟨_, rfl⟩

theorem cursor_in_bounds_of (s' : code_editor_widget) (lines : List (List glyph)) (l c : Nat)
    (line : List glyph) (hL : s'._lines = lines) (hl : lines[l]? = some line)
    (hc : c ≤ line.length) (hcur : s'._cursor_pos = ⟨(l : Int), (c : Int)⟩) :
    cursor_in_bounds s' = true :=
  (cursor_in_bounds_iff s').mpr ⟨l, c, line, by rw [hL]; exact hl, hc, hcur⟩

theorem move_home_result (s : code_editor_widget) (sel : Bool) :
    ∃ s', s.move_home sel = .ok s' ∧ s'._lines = s._lines ∧
      s'._cursor_pos = ⟨s._cursor_pos.line, 0⟩ := by
  unfold move_home
  simp only [select]
  repeat' split
  all_goals exact ⟨_, rfl, rfl, rfl⟩

theorem move_end_result (s : code_editor_widget) (sel : Bool) (line : List glyph)
    (hat : vec_at s._lines s._cursor_pos.line = .ok line) :
    ∃ s', s.move_end sel = .ok s' ∧ s'._lines = s._lines ∧
      s'._cursor_pos = ⟨s._cursor_pos.line, (line.length : Int)⟩ := by
  unfold move_end
  simp only [hat, except_bind_ok, select]
  repeat' split
  all_goals exact ⟨_, rfl, rfl, rfl⟩

theorem move_top_result (s : code_editor_widget) (sel : Bool) :
    ∃ s', s.move_top sel = .ok s' ∧ s'._lines = s._lines ∧ s'._cursor_pos = ⟨0, 0⟩ := by
  unfold move_top
  simp only [select, except_bind_ok, except_pure]
  repeat' split
  all_goals exact ⟨_, rfl, rfl, rfl⟩

theorem move_bottom_result (s : code_editor_widget) (sel : Bool) :
    ∃ s', s.move_bottom sel = .ok s' ∧ s'._lines = s._lines ∧
      s'._cursor_pos = ⟨(s._lines.length : Int) - 1, 0⟩ := by
  unfold move_bottom
  simp only [select, except_bind_ok, except_pure]
  repeat' split
  all_goals exact ⟨_, rfl, rfl, rfl⟩

theorem move_up_result (s : code_editor_widget) (n : Nat) (sel : Bool) (hne : s._lines ≠ []) :
    ∃ s', s.move_up n sel = .ok s' ∧ s'._lines = s._lines ∧
      s'._cursor_pos =
        ⟨max (int_wrap (s._cursor_pos.line - int_of_unsigned n)) 0, s._cursor_pos.column⟩ := by
  unfold move_up
  rw [isEmpty_eq_false_of_ne_nil _ hne]
  simp only [select, except_bind_ok, except_pure, Bool.false_eq_true, if_false]
  repeat' split
  all_goals exact ⟨_, rfl, rfl, rfl⟩

theorem move_down_result (s : code_editor_widget) (n : Nat) (sel : Bool) (hne : s._lines ≠ [])
    (h0 : 0 ≤ s._cursor_pos.column) :
    ∃ s', s.move_down n sel = .ok s' ∧ s'._lines = s._lines ∧
      s'._cursor_pos = ⟨min (int_wrap (s._cursor_pos.line + int_of_unsigned n))
        ((s._lines.length : Int) - 1), s._cursor_pos.column⟩ := by
  have ha : decide (s._cursor_pos.column ≥ 0) = true := by simpa using h0
  unfold move_down
  rw [isEmpty_eq_false_of_ne_nil _ hne]
  simp only [ha, assert_that_true, select, except_bind_ok, except_pure, Bool.false_eq_true,
    if_false]
  repeat' split
  all_goals exact ⟨_, rfl, rfl, rfl⟩

/-- The count `2147483648`, whose conversion `int(amount)` is the smallest `int`:
`move_up` from line 1 computes `1 + 2147483648` as an `int`, which is negative, and
leaves the cursor on line 0. -/
theorem move_up_smallest_int :
    ∃ s1, code_editor_widget.move_up
        { code_editor_widget.create with
          _lines := [glyphs "a", glyphs "b", glyphs "c"], _cursor_pos := ⟨1, 0⟩ }
        2147483648 false = .ok s1 ∧
      s1._cursor_pos = ⟨0, 0⟩ :=
  ⟨_, rfl, rfl⟩

/-- C16 fails.  On `["abc", ""]` with the cursor at `(0, 3)`, which is in bounds,
`move_down(1, false)` leaves the cursor at `(1, 3)`, behind the end of the empty
line 1, and typing a character there inserts at `line.begin() + 3` of an empty line, an
access out of range.  With the count `4294967295`, the `unsigned int` that a page
count of `-1` becomes, `move_up` on `["abc"]` goes from line 0 to line 1, which
the document does not have, and typing there reads `_lines[1]`.  With the
count `2147483647`, `move_down` from line 1 of three lines leaves the
line `-2147483648`: the sum is an `int`. -/
theorem move_down_keeps_column :
    (cursor_in_bounds
        { code_editor_widget.create with
          _lines := [glyphs "abc", glyphs ""], _cursor_pos := ⟨0, 3⟩ } = true ∧
      ∃ s1, code_editor_widget.move_down
          { code_editor_widget.create with
            _lines := [glyphs "abc", glyphs ""], _cursor_pos := ⟨0, 3⟩ } 1 false = .ok s1 ∧
        s1._cursor_pos = ⟨1, 3⟩ ∧ cursor_in_bounds s1 = false ∧
        s1.insert_character 'x' false = .error fault.out_of_range) ∧
    (cursor_in_bounds { code_editor_widget.create with _lines := [glyphs "abc"] } = true ∧
      ∃ s1, code_editor_widget.move_up
          { code_editor_widget.create with _lines := [glyphs "abc"] } 4294967295 false
            = .ok s1 ∧
        s1._cursor_pos = ⟨1, 0⟩ ∧ cursor_in_bounds s1 = false ∧
        s1.insert_character 'x' false = .error fault.out_of_range) ∧
    (cursor_in_bounds
        { code_editor_widget.create with
          _lines := [glyphs "a", glyphs "b", glyphs "c"], _cursor_pos := ⟨1, 0⟩ } = true ∧
      ∃ s1, code_editor_widget.move_down
          { code_editor_widget.create with
            _lines := [glyphs "a", glyphs "b", glyphs "c"], _cursor_pos := ⟨1, 0⟩ }
          2147483647 false = .ok s1 ∧
        s1._cursor_pos = ⟨-2147483648, 0⟩ ∧ cursor_in_bounds s1 = false) :=
  ⟨⟨by decide, _, rfl, rfl, by decide, rfl⟩, ⟨by decide, _, rfl, rfl, by decide, rfl⟩,
    ⟨by decide, _, rfl, rfl, by decide⟩⟩

/-- What the navigation functions do keep of the bounds of the cursor.  From a state
with an in-bounds cursor, `move_home`, `move_end`, `move_top` and `move_bottom` return
with an in-bounds cursor, and so does `move_left` unless it extends the selection in
word mode; `move_left` and `move_right` leave an in-bounds cursor whenever they
return, and `move_right` returns, unless it extends the selection in word mode, when
the cursor is before the end of its line or on an empty line; `move_up` with a count
below 2^31 from a line that is an `int`, and `move_down` with a count whose sum with
the line is an `int`, return with the line of the cursor within the document; they
leave the column as it was. -/
theorem navigation_cursor_bounds (s : code_editor_widget) (h : cursor_in_bounds s = true) :
    (∀ sel, ∃ s', s.move_home sel = .ok s' ∧ cursor_in_bounds s' = true) ∧
    (∀ sel, ∃ s', s.move_end sel = .ok s' ∧ cursor_in_bounds s' = true) ∧
    (∀ sel, ∃ s', s.move_top sel = .ok s' ∧ cursor_in_bounds s' = true) ∧
    (∀ sel, ∃ s', s.move_bottom sel = .ok s' ∧ cursor_in_bounds s' = true) ∧
    (∀ n sel wm, (sel && wm) = false →
      ∃ s', s.move_left n sel wm = .ok s' ∧ cursor_in_bounds s' = true) ∧
    (∀ n sel wm s', s.move_left n sel wm = .ok s' → cursor_in_bounds s' = true) ∧
    (∀ n sel wm s', s.move_right n sel wm = .ok s' → cursor_in_bounds s' = true) ∧
    (∀ n sel wm, (sel && wm) = false →
      (s._cursor_pos.column < ((s._lines.getD s._cursor_pos.line.toNat []).length : Int) ∨
        s._lines.getD s._cursor_pos.line.toNat [] = []) →
      ∃ s', s.move_right n sel wm = .ok s' ∧ cursor_in_bounds s' = true) ∧
    (∀ (n : Nat) sel, n < 2147483648 → s._cursor_pos.line ≤ 2147483647 →
      ∃ s', s.move_up n sel = .ok s' ∧ s'._lines = s._lines ∧
        0 ≤ s'._cursor_pos.line ∧ s'._cursor_pos.line < (s._lines.length : Int) ∧
        s'._cursor_pos.column = s._cursor_pos.column) ∧
    (∀ (n : Nat) sel, s._cursor_pos.line + (n : Int) ≤ 2147483647 →
      ∃ s', s.move_down n sel = .ok s' ∧ s'._lines = s._lines ∧
        0 ≤ s'._cursor_pos.line ∧ s'._cursor_pos.line < (s._lines.length : Int) ∧
        s'._cursor_pos.column = s._cursor_pos.column) := by
  obtain ⟨l, c, line, hl, hc, hcur⟩ := (cursor_in_bounds_iff s).mp h
  have hlt : l < s._lines.length := (List.getElem?_eq_some.mp hl).1
  have hg : s._lines[l] = line := (List.getElem?_eq_some.mp hl).2
  have hne : s._lines ≠ [] := by
    intro h0; rw [h0] at hlt; simp at hlt
  have hpos : 0 < s._lines.length := by omega
  have hat : vec_at s._lines s._cursor_pos.line = .ok line := by
    rw [hcur]
    show vec_at s._lines (l : Int) = .ok line
    rw [vec_at_of_lt s._lines l hlt, hg]
  have hint : ∀ n : Nat, n < 2147483648 → int_of_unsigned n = (n : Int) := by
    intro n hn
    unfold int_of_unsigned
    have hm : n % 4294967296 = n := Nat.mod_eq_of_lt (by omega)
    rw [hm, if_pos hn]
  refine ⟨?_, ?_, ?_, ?_, ?_, ?_, ?_, ?_, ?_, ?_⟩
  · intro sel
    obtain ⟨s', h1, h2, h3⟩ := move_home_result s sel
    refine ⟨s', h1, cursor_in_bounds_of s' _ l 0 line h2 hl (Nat.zero_le _) ?_⟩
    rw [h3, hcur]; rfl
  · intro sel
    obtain ⟨s', h1, h2, h3⟩ := move_end_result s sel line hat
    refine ⟨s', h1, cursor_in_bounds_of s' _ l line.length line h2 hl (Nat.le_refl _) ?_⟩
    rw [h3, hcur]
  · intro sel
    obtain ⟨s', h1, h2, h3⟩ := move_top_result s sel
    refine ⟨s', h1, cursor_in_bounds_of s' _ 0 0 _ h2 (List.getElem?_eq_getElem hpos)
      (Nat.zero_le _) ?_⟩
    rw [h3]; rfl
  · intro sel
    obtain ⟨s', h1, h2, h3⟩ := move_bottom_result s sel
    have hlast : s._lines.length - 1 < s._lines.length := by omega
    refine ⟨s', h1, cursor_in_bounds_of s' _ (s._lines.length - 1) 0 _ h2
      (List.getElem?_eq_getElem hlast) (Nat.zero_le _) ?_⟩
    rw [h3]
    simp only [text_pos.mk.injEq, Nat.cast_zero, and_true]
    omega
  · intro n sel wm hw
    obtain ⟨l', c', line', h1, h2, h3, _⟩ :=
      move_left_loop_spec s._lines (n % 4294967296) l c line hl hc
    rw [← hcur] at h1
    obtain ⟨s', hs'⟩ := move_left_returns s n sel wm _ hw hne h1 (by simp) (by simp)
    have hq := move_left_cursor s n sel wm hne s' hs'
    refine ⟨s', hs', cursor_in_bounds_of s' _ l' c' line' hq.2 h2 h3 ?_⟩
    have e := hq.1.symm.trans h1
    injection e
  · intro n sel wm s' hs'
    obtain ⟨l', c', line', h1, h2, h3, _⟩ :=
      move_left_loop_spec s._lines (n % 4294967296) l c line hl hc
    rw [← hcur] at h1
    have hq := move_left_cursor s n sel wm hne s' hs'
    refine cursor_in_bounds_of s' _ l' c' line' hq.2 h2 h3 ?_
    have e := hq.1.symm.trans h1
    injection e
  · intro n sel wm s' hs'
    obtain ⟨l', c', line', h1, h2, h3, _⟩ :=
      move_right_loop_spec s._lines (n % 4294967296) l c line hl hc
    rw [← hcur] at h1
    have hq := move_right_cursor s n sel wm hne s' hs'
    refine cursor_in_bounds_of s' _ l' c' line' hq.2 h2 h3 ?_
    have e := hq.1.symm.trans h1
    injection e
  · intro n sel wm hw hin
    obtain ⟨l', c', line', h1, h2, h3, h4⟩ :=
      move_right_loop_spec s._lines (n % 4294967296) l c line hl hc
    rw [← hcur] at h1
    have hin' : c < line.length ∨ line = [] := by
      rw [hcur] at hin
      simp only [Int.toNat_ofNat] at hin
      rw [List.getD_eq_getElem _ _ hlt, hg] at hin
      rcases hin with hin | hin
      · left; omega
      · right; exact hin
    have hlt' : l' < s._lines.length := (List.getElem?_eq_some.mp h2).1
    have hg' : s._lines[l'] = line' := (List.getElem?_eq_some.mp h2).2
    have hat' : vec_at s._lines (l' : Int) = .ok line' := by
      rw [vec_at_of_lt s._lines l' hlt', hg']
    obtain ⟨s', hs'⟩ := move_right_returns s n sel wm _ line' hw hne h1
      (by show (l' : Int) < _; omega) hat'
      (by
        rcases h4 hin' with h5 | h5
        · left; show (c' : Int) < _; omega
        · right; exact h5)
    have hq := move_right_cursor s n sel wm hne s' hs'
    refine ⟨s', hs', cursor_in_bounds_of s' _ l' c' line' hq.2 h2 h3 ?_⟩
    have e := hq.1.symm.trans h1
    injection e
  · intro n sel hn hmax
    obtain ⟨s', h1, h2, h3⟩ := move_up_result s n sel hne
    rw [hcur] at hmax
    have hmax' : (l : Int) ≤ 2147483647 := hmax
    clear hmax
    have hw : int_wrap ((l : Int) - (n : Int)) = (l : Int) - (n : Int) :=
      int_wrap_of_int _ (by omega) (by omega)
    refine ⟨s', h1, h2, ?_, ?_, ?_⟩
    · rw [h3]; exact le_max_right _ _
    · rw [h3, hint n hn, hcur]
      show max (int_wrap ((l : Int) - (n : Int))) 0 < _
      rw [hw]
      omega
    · rw [h3]
  · intro n sel hmax
    obtain ⟨s', h1, h2, h3⟩ := move_down_result s n sel hne (by rw [hcur]; simp)
    rw [hcur] at hmax
    have hmax' : (l : Int) + (n : Int) ≤ 2147483647 := hmax
    clear hmax
    have hw : int_wrap ((l : Int) + (n : Int)) = (l : Int) + (n : Int) :=
      int_wrap_of_int _ (by omega) (by omega)
    refine ⟨s', h1, h2, ?_, ?_, ?_⟩
    · rw [h3, hint n (by omega), hcur]
      show 0 ≤ min (int_wrap ((l : Int) + (n : Int))) _
      rw [hw]
      omega
    · rw [h3]
      show min _ ((s._lines.length : Int) - 1) < _
      omega
    · rw [h3]

theorem navigation_cursor_bounds_witness :
    cursor_in_bounds
        { code_editor_widget.create with
          _lines := [glyphs "abc", glyphs ""], _cursor_pos := ⟨0, 3⟩ } = true ∧
    ∃ s1, code_editor_widget.move_end
        { code_editor_widget.create with
          _lines := [glyphs "abc", glyphs ""], _cursor_pos := ⟨0, 3⟩ } true = .ok s1 ∧
      cursor_in_bounds s1 = true :=
  ⟨by decide,
    (navigation_cursor_bounds
      { code_editor_widget.create with
        _lines := [glyphs "abc", glyphs ""], _cursor_pos := ⟨0, 3⟩ } (by decide)).2.1 true⟩

/-! ### Navigation that does not extend the selection -/

theorem text_pos_gt_asymm (a b : text_pos) (h : a.gt b = true) : b.gt a = false := by
  cases a with
  | mk al ac =>
    cases b with
    | mk bl bc =>
      unfold text_pos.gt text_pos.lt at *
      simp only [ne_eq, ite_not] at *
      by_cases hl : bl = al
      · subst hl
        simp only [if_true, decide_eq_true_eq, decide_eq_false_iff_not] at *
        omega
      · have hl' : ¬ al = bl := fun e => hl e.symm
        simp only [hl, hl', if_false, decide_eq_true_eq, decide_eq_false_iff_not] at *
        omega

/-- A state whose selection was stored by `select` in normal mode from its two
anchors has the normalized span of the anchors as its selection. -/
theorem spans_of_select (X : code_editor_widget) (b e : text_pos)
    (hb : X._interactive_beg = b) (he : X._interactive_end = e)
    (h1 : X._select_beg = if e.gt b then b else e)
    (h2 : X._select_end = if e.gt b then e else b) :
    selection_spans_anchors X = true := by
  unfold selection_spans_anchors
  rw [h1, h2, hb, he]
  by_cases hg : e.gt b = true
  · simp [hg, text_pos_gt_asymm e b hg]
  · have hg' : e.gt b = false := by simpa using hg
    simp [hg']

theorem anchors_extended_beg (prev cur ib ie : text_pos) (h : prev = ib) :
    anchors_extended prev cur ib ie cur ie = true := by
  unfold anchors_extended
  rw [decide_eq_true_eq]
  exact ⟨fun _ _ => ⟨rfl, rfl⟩, fun _ b => absurd h b, fun _ _ => Or.inl ⟨rfl, rfl⟩,
    fun a _ => absurd h a⟩

theorem anchors_extended_end (prev cur ib ie : text_pos) (h : prev = ie) :
    anchors_extended prev cur ib ie ib cur = true := by
  unfold anchors_extended
  rw [decide_eq_true_eq]
  exact ⟨fun _ b => absurd h b, fun _ _ => ⟨rfl, rfl⟩, fun _ _ => Or.inr ⟨rfl, rfl⟩,
    fun _ b => absurd h b⟩

theorem anchors_extended_neither (prev cur ib ie : text_pos) (h1 : ¬ prev = ib)
    (h2 : ¬ prev = ie) :
    anchors_extended prev cur ib ie cur prev = true ∧
    anchors_extended prev cur ib ie prev cur = true := by
  unfold anchors_extended
  rw [decide_eq_true_eq, decide_eq_true_eq]
  exact ⟨⟨fun a _ => absurd a h1, fun a _ => absurd a h2, fun a _ => absurd a h1,
      fun _ _ => Or.inr ⟨rfl, rfl⟩⟩,
    ⟨fun a _ => absurd a h1, fun a _ => absurd a h2, fun a _ => absurd a h1,
      fun _ _ => Or.inl ⟨rfl, rfl⟩⟩⟩

theorem move_up_extends (s : code_editor_widget) (n : Nat) (hne : s._lines ≠ []) :
    ∃ s', s.move_up n true = .ok s' ∧
      anchors_extended s._cursor_pos s'._cursor_pos s._interactive_beg s._interactive_end
        s'._interactive_beg s'._interactive_end = true ∧
      selection_spans_anchors s' = true := by
  unfold move_up
  rw [isEmpty_eq_false_of_ne_nil _ hne]
  simp only [Bool.false_eq_true, if_false, if_true, select, except_bind_ok, except_pure]
  refine ⟨_, rfl, ?_, ?_⟩
  · split
    · exact anchors_extended_beg _ _ _ _ (by assumption)
    · split
      · exact anchors_extended_end _ _ _ _ (by assumption)
      · exact (anchors_extended_neither _ _ _ _ (by assumption) (by assumption)).1
  · split
    · exact spans_of_select _ _ _ rfl rfl rfl rfl
    · split
      · exact spans_of_select _ _ _ rfl rfl rfl rfl
      · exact spans_of_select _ _ _ rfl rfl rfl rfl

theorem move_down_extends (s : code_editor_widget) (n : Nat) (hne : s._lines ≠ [])
    (h0 : 0 ≤ s._cursor_pos.column) :
    ∃ s', s.move_down n true = .ok s' ∧
      anchors_extended s._cursor_pos s'._cursor_pos s._interactive_beg s._interactive_end
        s'._interactive_beg s'._interactive_end = true ∧
      selection_spans_anchors s' = true := by
  have ha : decide (s._cursor_pos.column ≥ 0) = true := by simpa using h0
  unfold move_down
  rw [isEmpty_eq_false_of_ne_nil _ hne]
  simp only [ha, assert_that_true, Bool.false_eq_true, if_false, if_true, select, except_bind_ok,
    except_pure]
  refine ⟨_, rfl, ?_, ?_⟩
  · split
    · exact anchors_extended_beg _ _ _ _ (by assumption)
    · split
      · exact anchors_extended_end _ _ _ _ (by assumption)
      · exact (anchors_extended_neither _ _ _ _ (by assumption) (by assumption)).2
  · split
    · exact spans_of_select _ _ _ rfl rfl rfl rfl
    · split
      · exact spans_of_select _ _ _ rfl rfl rfl rfl
      · exact spans_of_select _ _ _ rfl rfl rfl rfl

theorem move_left_extends (s : code_editor_widget) (n : Nat) (hne : s._lines ≠ []) :
    ∀ s', s.move_left n true false = .ok s' →
      anchors_extended s._cursor_pos s'._cursor_pos s._interactive_beg s._interactive_end
        s'._interactive_beg s'._interactive_end = true ∧
      selection_spans_anchors s' = true := by
  unfold move_left
  rw [isEmpty_eq_false_of_ne_nil _ hne]
  simp only [Bool.false_eq_true, if_false, if_true, Bool.and_false, select]
  apply bind_ok_imp; intro q _
  apply bind_ok_imp; intro _ _
  apply bind_ok_imp; intro _ _
  simp only [except_bind_ok, except_pure]
  apply ok_imp
  refine ⟨?_, ?_⟩
  · split
    · exact anchors_extended_beg _ _ _ _ (by assumption)
    · split
      · exact anchors_extended_end _ _ _ _ (by assumption)
      · exact (anchors_extended_neither _ _ _ _ (by assumption) (by assumption)).1
  · split
    · exact spans_of_select _ _ _ rfl rfl rfl rfl
    · split
      · exact spans_of_select _ _ _ rfl rfl rfl rfl
      · exact spans_of_select _ _ _ rfl rfl rfl rfl

theorem move_right_extends (s : code_editor_widget) (n : Nat) (hne : s._lines ≠ []) :
    ∀ s', s.move_right n true false = .ok s' →
      anchors_extended s._cursor_pos s'._cursor_pos s._interactive_beg s._interactive_end
        s'._interactive_beg s'._interactive_end = true ∧
      selection_spans_anchors s' = true := by
  unfold move_right
  rw [isEmpty_eq_false_of_ne_nil _ hne]
  simp only [Bool.false_eq_true, if_false, if_true, Bool.and_false, select]
  apply bind_ok_imp; intro q _
  apply bind_ok_imp; intro _ _
  apply bind_ok_imp; intro _ _
  apply bind_ok_imp; intro _ _
  simp only [except_bind_ok, except_pure]
  apply ok_imp
  refine ⟨?_, ?_⟩
  · split
    · exact anchors_extended_end _ _ _ _ (by assumption)
    · split
      · exact anchors_extended_beg _ _ _ _ (by assumption)
      · exact (anchors_extended_neither _ _ _ _ (by assumption) (by assumption)).2
  · split
    · exact spans_of_select _ _ _ rfl rfl rfl rfl
    · split
      · exact spans_of_select _ _ _ rfl rfl rfl rfl
      · exact spans_of_select _ _ _ rfl rfl rfl rfl

theorem move_home_extends (s : code_editor_widget) (h0 : s._cursor_pos.column ≠ 0) :
    ∃ s', s.move_home true = .ok s' ∧
      anchors_extended s._cursor_pos s'._cursor_pos s._interactive_beg s._interactive_end
        s'._interactive_beg s'._interactive_end = true ∧
      selection_spans_anchors s' = true := by
  have hp : ¬ ((⟨s._cursor_pos.line, 0⟩ : text_pos) = s._cursor_pos) := by
    intro h; apply h0; rw [← h]
  unfold move_home
  simp only [hp, if_false, if_true, select]
  refine ⟨_, rfl, ?_, ?_⟩
  · split
    · exact anchors_extended_beg _ _ _ _ (by assumption)
    · split
      · exact anchors_extended_end _ _ _ _ (by assumption)
      · exact (anchors_extended_neither _ _ _ _ (by assumption) (by assumption)).1
  · split
    · exact spans_of_select _ _ _ rfl rfl rfl rfl
    · split
      · exact spans_of_select _ _ _ rfl rfl rfl rfl
      · exact spans_of_select _ _ _ rfl rfl rfl rfl

theorem move_end_extends (s : code_editor_widget) (line : List glyph)
    (hat : vec_at s._lines s._cursor_pos.line = .ok line)
    (h0 : s._cursor_pos.column ≠ (line.length : Int)) :
    ∃ s', s.move_end true = .ok s' ∧
      anchors_extended s._cursor_pos s'._cursor_pos s._interactive_beg s._interactive_end
        s'._interactive_beg s'._interactive_end = true ∧
      selection_spans_anchors s' = true := by
  have hp : ¬ ((⟨s._cursor_pos.line, (line.length : Int)⟩ : text_pos) = s._cursor_pos) := by
    intro h; apply h0; rw [← h]
  unfold move_end
  simp only [hat, except_bind_ok, hp, if_false, if_true, select]
  refine ⟨_, rfl, ?_, ?_⟩
  · split
    · exact anchors_extended_end _ _ _ _ (by assumption)
    · split
      · exact anchors_extended_beg _ _ _ _ (by assumption)
      · exact (anchors_extended_neither _ _ _ _ (by assumption) (by assumption)).2
  · split
    · exact spans_of_select _ _ _ rfl rfl rfl rfl
    · split
      · exact spans_of_select _ _ _ rfl rfl rfl rfl
      · exact spans_of_select _ _ _ rfl rfl rfl rfl

theorem move_top_extends (s : code_editor_widget) :
    ∃ s', s.move_top true = .ok s' ∧ s'._cursor_pos = ⟨0, 0⟩ ∧
      s'._interactive_beg = ⟨0, 0⟩ ∧
      s'._interactive_end =
        (if s._cursor_pos =
            (if s._interactive_beg.gt s._interactive_end then s._interactive_end
              else s._interactive_beg)
          then (if s._interactive_beg.gt s._interactive_end then s._interactive_beg
              else s._interactive_end)
          else (if s._interactive_beg.gt s._interactive_end then s._interactive_end
              else s._interactive_beg)) ∧
      selection_spans_anchors s' = true := by
  by_cases hg : s._interactive_beg.gt s._interactive_end = true
  · by_cases hp : s._cursor_pos = s._interactive_end
    · unfold move_top
      simp only [hg, hp, if_true, if_false, Bool.false_eq_true, select, except_bind_ok, except_pure,
        ne_eq, ite_not,
        not_true_eq_false, not_false_eq_true]
      exact ⟨_, rfl, rfl, rfl, rfl, spans_of_select _ _ _ rfl rfl rfl rfl⟩
    · unfold move_top
      simp only [hg, hp, if_true, if_false, Bool.false_eq_true, select, except_bind_ok, except_pure,
        ne_eq, ite_not,
        not_true_eq_false, not_false_eq_true]
      exact ⟨_, rfl, rfl, rfl, rfl, spans_of_select _ _ _ rfl rfl rfl rfl⟩
  · by_cases hp : s._cursor_pos = s._interactive_beg
    · unfold move_top
      simp only [hg, hp, if_true, if_false, Bool.false_eq_true, select, except_bind_ok, except_pure,
        ne_eq, ite_not,
        not_true_eq_false, not_false_eq_true]
      exact ⟨_, rfl, rfl, rfl, rfl, spans_of_select _ _ _ rfl rfl rfl rfl⟩
    · unfold move_top
      simp only [hg, hp, if_true, if_false, Bool.false_eq_true, select, except_bind_ok, except_pure,
        ne_eq, ite_not,
        not_true_eq_false, not_false_eq_true]
      exact ⟨_, rfl, rfl, rfl, rfl, spans_of_select _ _ _ rfl rfl rfl rfl⟩

theorem move_bottom_extends (s : code_editor_widget) :
    ∃ s', s.move_bottom true = .ok s' ∧ s'._cursor_pos = ⟨(s._lines.length : Int) - 1, 0⟩ ∧
      s'._interactive_end = ⟨(s._lines.length : Int) - 1, 0⟩ ∧
      s'._interactive_beg =
        (if s._cursor_pos =
            (if s._interactive_beg.gt s._interactive_end then s._interactive_beg
              else s._interactive_end)
          then (if s._interactive_beg.gt s._interactive_end then s._interactive_end
              else s._interactive_beg)
          else (if s._interactive_beg.gt s._interactive_end then s._interactive_beg
              else s._interactive_end)) ∧
      selection_spans_anchors s' = true := by
  by_cases hg : s._interactive_beg.gt s._interactive_end = true
  · by_cases hp : s._cursor_pos = s._interactive_beg
    · unfold move_bottom
      simp only [hg, hp, if_true, if_false, Bool.false_eq_true, select, except_bind_ok, except_pure,
        ne_eq, ite_not,
        not_true_eq_false, not_false_eq_true]
      exact ⟨_, rfl, rfl, rfl, rfl, spans_of_select _ _ _ rfl rfl rfl rfl⟩
    · unfold move_bottom
      simp only [hg, hp, if_true, if_false, Bool.false_eq_true, select, except_bind_ok, except_pure,
        ne_eq, ite_not,
        not_true_eq_false, not_false_eq_true]
      exact ⟨_, rfl, rfl, rfl, rfl, spans_of_select _ _ _ rfl rfl rfl rfl⟩
  · by_cases hp : s._cursor_pos = s._interactive_end
    · unfold move_bottom
      simp only [hg, hp, if_true, if_false, Bool.false_eq_true, select, except_bind_ok, except_pure,
        ne_eq, ite_not,
        not_true_eq_false, not_false_eq_true]
      exact ⟨_, rfl, rfl, rfl, rfl, spans_of_select _ _ _ rfl rfl rfl rfl⟩
    · unfold move_bottom
      simp only [hg, hp, if_true, if_false, Bool.false_eq_true, select, except_bind_ok, except_pure,
        ne_eq, ite_not,
        not_true_eq_false, not_false_eq_true]
      exact ⟨_, rfl, rfl, rfl, rfl, spans_of_select _ _ _ rfl rfl rfl rfl⟩

/-- C18 fails for `move_top` and `move_bottom`, which lack the branch for a cursor
that equals neither anchor.  With the cursor at `(1, 0)` and the anchors at `(0, 1)`
and `(0, 2)`, `move_top(true)` makes the anchors `(0, 0)` and `(0, 1)`, the new cursor
and the smaller old anchor, not the old cursor and the new cursor; with the cursor at
`(0, 0)` and the same anchors, `move_bottom(true)` makes them `(0, 2)` and `(1, 0)`.
An edit does not move the anchors, so after typing `a`, newline, `b` into the new
widget the cursor is at `(1, 1)` and both anchors are at `(0, 0)`: `move_top(true)`
then leaves both anchors at `(0, 0)` and selects nothing, where `move_up(1, true)`
from the same state makes the pair the new and the old cursor. -/
theorem move_top_drops_old_cursor :
    (∃ s1, code_editor_widget.move_top
        { code_editor_widget.create with
          _lines := [glyphs "abc", glyphs "de"], _cursor_pos := ⟨1, 0⟩,
          _interactive_beg := ⟨0, 1⟩, _interactive_end := ⟨0, 2⟩,
          _select_beg := ⟨0, 1⟩, _select_end := ⟨0, 2⟩ } true = .ok s1 ∧
      s1._cursor_pos = ⟨0, 0⟩ ∧
      s1._interactive_beg = ⟨0, 0⟩ ∧ s1._interactive_end = ⟨0, 1⟩ ∧
      anchors_extended ⟨1, 0⟩ s1._cursor_pos ⟨0, 1⟩ ⟨0, 2⟩
        s1._interactive_beg s1._interactive_end = false) ∧
    (∃ s1, code_editor_widget.move_bottom
        { code_editor_widget.create with
          _lines := [glyphs "abc", glyphs "de"], _cursor_pos := ⟨0, 0⟩,
          _interactive_beg := ⟨0, 1⟩, _interactive_end := ⟨0, 2⟩,
          _select_beg := ⟨0, 1⟩, _select_end := ⟨0, 2⟩ } true = .ok s1 ∧
      s1._cursor_pos = ⟨1, 0⟩ ∧
      s1._interactive_beg = ⟨0, 2⟩ ∧ s1._interactive_end = ⟨1, 0⟩ ∧
      anchors_extended ⟨0, 0⟩ s1._cursor_pos ⟨0, 1⟩ ⟨0, 2⟩
        s1._interactive_beg s1._interactive_end = false) ∧
    (∃ s0 s1 s2,
      run [operation.insert_character 'a' false, operation.insert_character '\n' false,
          operation.insert_character 'b' false] code_editor_widget.create = .ok s0 ∧
      s0._cursor_pos = ⟨1, 1⟩ ∧ s0._interactive_beg = ⟨0, 0⟩ ∧ s0._interactive_end = ⟨0, 0⟩ ∧
      s0.move_top true = .ok s1 ∧ s1._cursor_pos = ⟨0, 0⟩ ∧
      s1._interactive_beg = ⟨0, 0⟩ ∧ s1._interactive_end = ⟨0, 0⟩ ∧
      s1.has_selection = false ∧
      anchors_extended ⟨1, 1⟩ s1._cursor_pos ⟨0, 0⟩ ⟨0, 0⟩
        s1._interactive_beg s1._interactive_end = false ∧
      s0.move_up 1 true = .ok s2 ∧ s2._cursor_pos = ⟨0, 1⟩ ∧
      s2._interactive_beg = ⟨0, 1⟩ ∧ s2._interactive_end = ⟨1, 1⟩ ∧
      s2._select_beg = ⟨0, 1⟩ ∧ s2._select_end = ⟨1, 1⟩ ∧
      anchors_extended ⟨1, 1⟩ s2._cursor_pos ⟨0, 0⟩ ⟨0, 0⟩
        s2._interactive_beg s2._interactive_end = true) :=
  ⟨⟨_, rfl, rfl, rfl, rfl, by decide⟩, ⟨_, rfl, rfl, rfl, rfl, by decide⟩,
    ⟨_, _, _, rfl, rfl, rfl, rfl, rfl, rfl, rfl, rfl, rfl, by decide, rfl, rfl, rfl, rfl, rfl,
      rfl, by decide⟩⟩

/-- The anchor update of the eight navigation functions, side by side.  Called with
the extend flag on a document that has a line, the six functions with a three-way
update, `move_up`, `move_down` (from a column that is not negative), `move_left` and
`move_right` without word mode (whenever they return; `move_left` returns from an
in-bounds cursor), and `move_home` and `move_end` when they move the cursor, replace
the anchor that equals the old cursor by the new cursor and keep the other one, or,
if neither equals it, make the pair the old and the new cursor; `move_home` and
`move_end` change nothing when the cursor does not move.  The two functions without
the third branch keep an old anchor in every case: `move_top` makes the pair the new
cursor and the larger old anchor if the old cursor is the smaller one, else the new
cursor and the smaller old anchor; `move_bottom` makes it the smaller old anchor and
the new cursor if the old cursor is the larger one, else the larger old anchor and
the new cursor.  In each case the selection afterwards is the normalized span of the
two anchors. -/
theorem navigation_extends (s : code_editor_widget) (hne : s._lines ≠ []) :
    (∀ n, ∃ s', s.move_up n true = .ok s' ∧
      anchors_extended s._cursor_pos s'._cursor_pos s._interactive_beg s._interactive_end
        s'._interactive_beg s'._interactive_end = true ∧
      selection_spans_anchors s' = true) ∧
    (∀ n, 0 ≤ s._cursor_pos.column → ∃ s', s.move_down n true = .ok s' ∧
      anchors_extended s._cursor_pos s'._cursor_pos s._interactive_beg s._interactive_end
        s'._interactive_beg s'._interactive_end = true ∧
      selection_spans_anchors s' = true) ∧
    (∀ n s', s.move_left n true false = .ok s' →
      anchors_extended s._cursor_pos s'._cursor_pos s._interactive_beg s._interactive_end
        s'._interactive_beg s'._interactive_end = true ∧
      selection_spans_anchors s' = true) ∧
    (∀ n s', s.move_right n true false = .ok s' →
      anchors_extended s._cursor_pos s'._cursor_pos s._interactive_beg s._interactive_end
        s'._interactive_beg s'._interactive_end = true ∧
      selection_spans_anchors s' = true) ∧
    (cursor_in_bounds s = true → ∀ n, ∃ s', s.move_left n true false = .ok s') ∧
    (s._cursor_pos.column ≠ 0 → ∃ s', s.move_home true = .ok s' ∧
      anchors_extended s._cursor_pos s'._cursor_pos s._interactive_beg s._interactive_end
        s'._interactive_beg s'._interactive_end = true ∧
      selection_spans_anchors s' = true) ∧
    (s._cursor_pos.column = 0 → s.move_home true = .ok s) ∧
    (∀ line, vec_at s._lines s._cursor_pos.line = .ok line →
      (s._cursor_pos.column ≠ (line.length : Int) → ∃ s', s.move_end true = .ok s' ∧
        anchors_extended s._cursor_pos s'._cursor_pos s._interactive_beg s._interactive_end
          s'._interactive_beg s'._interactive_end = true ∧
        selection_spans_anchors s' = true) ∧
      (s._cursor_pos.column = (line.length : Int) → s.move_end true = .ok s)) ∧
    (∃ s', s.move_top true = .ok s' ∧ s'._cursor_pos = ⟨0, 0⟩ ∧
      s'._interactive_beg = ⟨0, 0⟩ ∧
      s'._interactive_end =
        (if s._cursor_pos =
            (if s._interactive_beg.gt s._interactive_end then s._interactive_end
              else s._interactive_beg)
          then (if s._interactive_beg.gt s._interactive_end then s._interactive_beg
              else s._interactive_end)
          else (if s._interactive_beg.gt s._interactive_end then s._interactive_end
              else s._interactive_beg)) ∧
      selection_spans_anchors s' = true) ∧
    (∃ s', s.move_bottom true = .ok s' ∧ s'._cursor_pos = ⟨(s._lines.length : Int) - 1, 0⟩ ∧
      s'._interactive_end = ⟨(s._lines.length : Int) - 1, 0⟩ ∧
      s'._interactive_beg =
        (if s._cursor_pos =
            (if s._interactive_beg.gt s._interactive_end then s._interactive_beg
              else s._interactive_end)
          then (if s._interactive_beg.gt s._interactive_end then s._interactive_end
              else s._interactive_beg)
          else (if s._interactive_beg.gt s._interactive_end then s._interactive_beg
              else s._interactive_end)) ∧
      selection_spans_anchors s' = true) := by
  refine ⟨fun n => move_up_extends s n hne, fun n h0 => move_down_extends s n hne h0,
    fun n => move_left_extends s n hne, fun n => move_right_extends s n hne, ?_,
    move_home_extends s, ?_, ?_, move_top_extends s, move_bottom_extends s⟩
  · intro hin n
    obtain ⟨l, c, line, hl, hc, hcur⟩ := (cursor_in_bounds_iff s).mp hin
    obtain ⟨l', c', line', h1, _, _, _⟩ :=
      move_left_loop_spec s._lines (n % 4294967296) l c line hl hc
    rw [← hcur] at h1
    exact move_left_returns s n true false _ (by simp) hne h1 (by simp) (by simp)
  · intro h0
    have hp : (⟨s._cursor_pos.line, 0⟩ : text_pos) = s._cursor_pos := by
      cases hs : s._cursor_pos with
      | mk a b => rw [hs] at h0; simp only at h0; rw [h0]
    unfold move_home
    simp only [hp, if_true]
  · intro line hat
    constructor
    · exact move_end_extends s line hat
    · intro h0
      have hp : (⟨s._cursor_pos.line, (line.length : Int)⟩ : text_pos) = s._cursor_pos := by
        cases hs : s._cursor_pos with
        | mk a b => rw [hs] at h0; simp only at h0; rw [h0]
      unfold move_end
      simp only [hat, except_bind_ok, hp, if_true, except_pure]

theorem navigation_extends_witness :
    ∃ s1, code_editor_widget.move_up
        { code_editor_widget.create with
          _lines := [glyphs "abc", glyphs "de"], _cursor_pos := ⟨1, 2⟩,
          _interactive_beg := ⟨0, 1⟩, _interactive_end := ⟨1, 2⟩,
          _select_beg := ⟨0, 1⟩, _select_end := ⟨1, 2⟩ } 1 true = .ok s1 ∧
      anchors_extended ⟨1, 2⟩ s1._cursor_pos ⟨0, 1⟩ ⟨1, 2⟩
        s1._interactive_beg s1._interactive_end = true ∧
      selection_spans_anchors s1 = true :=
  (navigation_extends
    { code_editor_widget.create with
      _lines := [glyphs "abc", glyphs "de"], _cursor_pos := ⟨1, 2⟩,
      _interactive_beg := ⟨0, 1⟩, _interactive_end := ⟨1, 2⟩,
      _select_beg := ⟨0, 1⟩, _select_end := ⟨1, 2⟩ } (by decide)).1 1

/-! ### Mutations and the bounds of the cursor -/

theorem position_in_bounds_iff (lines : List (List glyph)) (p : text_pos) :
    position_in_bounds lines p = true ↔
      ∃ (l c : Nat) (line : List glyph), lines[l]? = some line ∧ c ≤ line.length ∧
        p = ⟨(l : Int), (c : Int)⟩ := by
  unfold position_in_bounds
  rw [decide_eq_true_iff]
  constructor
  · rintro ⟨h0, h1, h2, h3⟩
    have hlt : p.line.toNat < lines.length := by omega
    refine ⟨p.line.toNat, p.column.toNat, lines[p.line.toNat],
      List.getElem?_eq_getElem hlt, ?_, ?_⟩
    · rw [List.getD_eq_getElem _ _ hlt] at h3
      omega
    · cases p with
      | mk a b =>
        simp only at h0 h2
        simp only [text_pos.mk.injEq]
        constructor <;> omega
  · rintro ⟨l, c, line, hl, hc, hp⟩
    have hlt : l < lines.length := (List.getElem?_eq_some.mp hl).1
    have hg : lines[l] = line := (List.getElem?_eq_some.mp hl).2
    rw [hp]
    simp only [Int.toNat_ofNat]
    rw [List.getD_eq_getElem _ _ hlt, hg]
    refine ⟨?_, ?_, ?_, ?_⟩ <;> omega

/-- A cursor between the two parts of a line of the document is in bounds. -/
theorem in_bounds_parts (s' : code_editor_widget) (P Q : List (List glyph)) (U V : List glyph)
    (l c : Int) (h : s'._lines = P ++ (U ++ V) :: Q) (hcur : s'._cursor_pos = ⟨l, c⟩)
    (hl : l = (P.length : Int)) (hc : c = (U.length : Int)) :
    cursor_in_bounds s' = true := by
  subst hl hc
  exact cursor_in_bounds_of s' _ P.length U.length (U ++ V) h
    (getElem?_append_cons_length P (U ++ V) Q) (by simp) hcur

/-- The parts of the document around an in-bounds cursor. -/
theorem parts_of_in_bounds (s : code_editor_widget) (h : cursor_in_bounds s = true) :
    ∃ (P Q : List (List glyph)) (U V : List glyph), s._lines = P ++ (U ++ V) :: Q ∧
      s._cursor_pos = ⟨(P.length : Int), (U.length : Int)⟩ := by
  obtain ⟨l, c, line, hl, hc, hcur⟩ := (cursor_in_bounds_iff s).mp h
  obtain ⟨A, B, hL, hAl, _, _⟩ := exists_split_at s._lines l line hl
  obtain ⟨X, Y, hx, hXl, _, _⟩ := exists_line_split line c hc
  refine ⟨A, B, X, Y, by rw [hL, hx], ?_⟩
  rw [hcur, hAl, hXl]

theorem insert_text_in_bounds (s : code_editor_widget) (text : List Char)
    (h : cursor_in_bounds s = true) :
    ∃ s', s.insert_text text = .ok s' ∧ cursor_in_bounds s' = true := by
  obtain ⟨P, Q, U, V, hL, hcur⟩ := parts_of_in_bounds s h
  obtain ⟨s', h1, h2⟩ := insert_text_shape P Q U V text s hL hcur
  refine ⟨s', h1, ?_⟩
  rcases h2 with ⟨T, h3, h4⟩ | ⟨T, Mid, Z, h3, h4⟩
  · exact in_bounds_parts s' P Q (U ++ T) V _ _ (by rw [h3]) h4 rfl (by simp)
  · exact in_bounds_parts s' (P ++ (U ++ T) :: Mid) Q Z V _ _ (by rw [h3]; simp) h4
      (by simp; omega) rfl

theorem insert_character_in_bounds (s : code_editor_widget) (c : Char) (shift : Bool)
    (h : cursor_in_bounds s = true) (hsel : s.has_selection = false) :
    ∃ s', s.insert_character c shift = .ok s' ∧ cursor_in_bounds s' = true := by
  obtain ⟨P, Q, U, V, hL, hcur⟩ := parts_of_in_bounds s h
  by_cases hn : c = '\n'
  · subst hn
    refine ⟨_, insert_character_newline_parts s P Q U V shift hL hsel hcur, ?_⟩
    exact in_bounds_parts _ (P ++ [U]) Q ((U ++ V).takeWhile (fun g => isblank g.c)) V _ _
      (by simp) rfl (by simp) rfl
  · by_cases hov : s._overwrite = false ∨ V = []
    · refine ⟨_, insert_character_insert_parts s P Q U V c shift hn hL hsel hcur hov, ?_⟩
      exact in_bounds_parts _ P Q (U ++ [⟨c, color_palette.color_default⟩]) V _ _
        (by simp) rfl rfl (by simp)
    · have hov1 : s._overwrite = true := by
        cases ho : s._overwrite with
        | false => exact absurd (Or.inl ho) hov
        | true => rfl
      cases V with
      | nil => exact absurd (Or.inr rfl) hov
      | cons g V =>
        refine ⟨_, insert_character_overwrite_parts s P Q U V g c shift hn hL hsel hcur hov1, ?_⟩
        exact in_bounds_parts _ P Q (U ++ [⟨c, color_palette.color_default⟩]) V _ _
          (by simp) rfl rfl (by simp)

theorem text_pos_gt_cases (bl bc el ec : Nat)
    (h : (⟨(el : Int), (ec : Int)⟩ : text_pos).gt ⟨(bl : Int), (bc : Int)⟩ = true) :
    bl < el ∨ (bl = el ∧ bc < ec) := by
  unfold text_pos.gt text_pos.lt at h
  simp only [ne_eq, ite_not] at h
  by_cases hl : (bl : Int) = (el : Int)
  · rw [if_pos hl, decide_eq_true_eq] at h
    right; constructor <;> omega
  · rw [if_neg hl, decide_eq_true_eq] at h
    left; omega

/-- With a non-empty in-bounds selection, `delete_selection` returns with the cursor
in bounds, at the place of the removed text, and with no selection. -/
theorem delete_selection_parts (s : code_editor_widget) (hsel : s.has_selection = true)
    (hin : selection_in_bounds s = true) :
    ∃ (s1 : code_editor_widget) (P Q : List (List glyph)) (U V : List glyph),
      delete_selection s = .ok s1 ∧ s1._lines = P ++ (U ++ V) :: Q ∧
      s1._cursor_pos = ⟨(P.length : Int), (U.length : Int)⟩ ∧ s1.has_selection = false := by
  unfold selection_in_bounds at hin
  rw [hsel] at hin
  simp only [Bool.not_true, Bool.false_or, Bool.and_eq_true] at hin
  obtain ⟨bl, bc, beg_line, hb, hbc, hsb⟩ := (position_in_bounds_iff _ _).mp hin.1
  obtain ⟨el, ec, end_line, he, hec, hse⟩ := (position_in_bounds_iff _ _).mp hin.2
  have hlt : bl < el ∨ (bl = el ∧ bc < ec) := by
    unfold has_selection at hsel
    rw [hsb, hse] at hsel
    exact text_pos_gt_cases bl bc el ec hsel
  have hne : ¬ s._select_end = s._select_beg := by
    rw [hsb, hse]
    simp only [text_pos.mk.injEq]
    omega
  have hdel : ∃ (s1 : code_editor_widget) (A B : List (List glyph)) (X Y : List glyph),
      delete_range s s._select_beg s._select_end = .ok s1 ∧
      s1._select_beg = s._select_beg ∧ s1._lines = A ++ (X ++ Y) :: B ∧
      s._select_beg = ⟨(A.length : Int), (X.length : Int)⟩ := by
    rw [hsb, hse]
    rcases hlt with hlt | ⟨hll, hcc⟩
    · obtain ⟨A, Mid, B, hL, hAl, hMl, _, _, _⟩ :=
        exists_split_two s._lines bl el beg_line end_line hb he hlt
      obtain ⟨X, X', hx, hXl, _, _⟩ := exists_line_split beg_line bc hbc
      obtain ⟨Z, Y, hy, hZl, _, _⟩ := exists_line_split end_line ec hec
      rw [hx, hy] at hL
      have key := delete_range_cross_line s A Mid B X X' Z Y hL
      rw [hMl, hAl, hXl, hZl] at key
      exact ⟨_, A, B, X, Y, key, hsb, rfl, by rw [hAl, hXl]⟩
    · subst hll
      have hsame : beg_line = end_line := by
        rw [hb] at he; exact Option.some.inj he
      subst hsame
      obtain ⟨A, B, hL, hAl, _, _⟩ := exists_split_at s._lines bl beg_line hb
      obtain ⟨X, M, Y, hx, hXl, hMl, _, _⟩ :=
        exists_line_split_two beg_line bc ec (Nat.le_of_lt hcc) hec
      rw [hx] at hL
      have hM : M ≠ [] := by
        intro h; rw [h] at hMl; simp at hMl; omega
      have key := delete_range_same_line s A B X M Y hL hM
      have e1 : (X.length : Int) + (M.length : Int) = (ec : Int) := by omega
      rw [e1, hAl, hXl] at key
      exact ⟨_, A, B, X, Y, key, hsb, rfl, by rw [hAl, hXl]⟩
  obtain ⟨s1, A, B, X, Y, h1, h2, h3, h4⟩ := hdel
  refine ⟨_, A, B, X, Y, delete_selection_after s s1 hne hsel h1 h2, h3, h4, ?_⟩
  exact text_pos_gt_irrefl _

/-- Typing over a selection: the selection is deleted, then the character is typed. -/
theorem insert_character_over_selection (s s1 : code_editor_widget) (c : Char) (shift : Bool)
    (hsel : s.has_selection = true) (hc : c ≠ '\t') (hd : delete_selection s = .ok s1)
    (h1 : s1.has_selection = false) :
    insert_character s c shift = insert_character s1 c shift := by
  unfold insert_character
  simp only [hsel, h1, hc, hd, decide_False, Bool.and_false, Bool.false_and,
    Bool.false_eq_true, if_false, if_true, except_bind_ok, except_pure]

theorem delete_next_glyph_parts (s : code_editor_widget) (A B : List (List glyph))
    (X Y : List glyph) (g : glyph) (h : s._lines = A ++ (X ++ g :: Y) :: B)
    (hsel : s.has_selection = false)
    (hcur : s._cursor_pos = ⟨(A.length : Int), (X.length : Int)⟩) :
    delete_next s = .ok
      { s with _lines := A ++ (X ++ Y) :: B
               _colorize_line_beg := min s._colorize_line_beg (A.length : Int)
               _colorize_line_end := max s._colorize_line_end ((A.length : Int) + 1) } := by
  have hemp : (A ++ (X ++ g :: Y) :: B).isEmpty = false := by simp
  have h1 : vec_at (A ++ (X ++ g :: Y) :: B) (A.length : Int) = .ok (X ++ g :: Y) :=
    vec_at_eq rfl rfl
  have h2 : ¬ ((X.length : Int) = ((X ++ g :: Y).length : Int)) := by
    simp only [List.length_append, List.length_cons, Nat.cast_add, Nat.cast_one]; omega
  have h3 : vec_erase (X ++ g :: Y) (X.length : Int) = .ok (X ++ Y) :=
    vec_erase_eq rfl rfl
  have h4 : vec_set (A ++ (X ++ g :: Y) :: B) (A.length : Int) (X ++ Y)
      = .ok (A ++ (X ++ Y) :: B) := vec_set_eq rfl rfl _
  unfold delete_next
  simp only [hemp, hsel, hcur, h, h1, h2, h3, h4, if_false, if_true, except_bind_ok,
    except_pure, Bool.false_eq_true]

theorem delete_next_last (s : code_editor_widget) (A : List (List glyph)) (line : List glyph)
    (h : s._lines = A ++ [line]) (hsel : s.has_selection = false)
    (hcur : s._cursor_pos = ⟨(A.length : Int), (line.length : Int)⟩) :
    delete_next s = .ok s := by
  have hemp : (A ++ [line]).isEmpty = false := by simp
  have h1 : vec_at (A ++ [line]) (A.length : Int) = .ok line := vec_at_eq rfl rfl
  have hlast : (A.length : Int) = ((A ++ [line]).length : Int) - 1 := by
    simp only [List.length_append, List.length_cons, List.length_nil, Nat.cast_add,
      Nat.cast_one]; omega
  unfold delete_next
  simp only [hemp, hsel, hcur, h, h1, if_false, if_true, except_bind_ok, except_pure,
    Bool.false_eq_true]
  rw [if_pos hlast]

theorem delete_next_in_bounds (s : code_editor_widget) (h : cursor_in_bounds s = true)
    (hin : selection_in_bounds s = true) :
    ∃ s', s.delete_next = .ok s' ∧ cursor_in_bounds s' = true := by
  obtain ⟨P, Q, U, V, hL, hcur⟩ := parts_of_in_bounds s h
  cases hsel : s.has_selection with
  | true =>
    obtain ⟨s1, P1, Q1, U1, V1, h1, h2, h3, _⟩ := delete_selection_parts s hsel hin
    refine ⟨s1, ?_, in_bounds_parts s1 P1 Q1 U1 V1 _ _ h2 h3 rfl rfl⟩
    have hemp : s._lines.isEmpty = false := by rw [hL]; simp
    unfold delete_next
    simp only [hemp, hsel, if_true, Bool.false_eq_true, if_false]
    exact h1
  | false =>
    cases V with
    | cons g V =>
      exact ⟨_, delete_next_glyph_parts s P Q U V g hL hsel hcur,
        in_bounds_parts _ P Q U V _ _ rfl hcur rfl rfl⟩
    | nil =>
      rw [List.append_nil] at hL
      cases Q with
      | nil => exact ⟨s, delete_next_last s P U hL hsel hcur, h⟩
      | cons next_line Q =>
        exact ⟨_, delete_next_join_parts s P Q U next_line hL hsel hcur,
          in_bounds_parts _ P Q U next_line _ _ rfl hcur rfl rfl⟩

theorem delete_previous_origin (s : code_editor_widget) (hne : s._lines ≠ [])
    (hsel : s.has_selection = false) (hcur : s._cursor_pos = ⟨0, 0⟩) :
    delete_previous s = .ok s := by
  unfold delete_previous
  simp only [isEmpty_eq_false_of_ne_nil _ hne, hsel, hcur, if_true, Bool.false_eq_true, if_false]

theorem delete_previous_in_bounds (s : code_editor_widget) (h : cursor_in_bounds s = true)
    (hin : selection_in_bounds s = true) :
    ∃ s', s.delete_previous = .ok s' ∧ cursor_in_bounds s' = true := by
  obtain ⟨P, Q, U, V, hL, hcur⟩ := parts_of_in_bounds s h
  have hne : s._lines ≠ [] := by rw [hL]; simp
  cases hsel : s.has_selection with
  | true =>
    obtain ⟨s1, P1, Q1, U1, V1, h1, h2, h3, _⟩ := delete_selection_parts s hsel hin
    refine ⟨s1, ?_, in_bounds_parts s1 P1 Q1 U1 V1 _ _ h2 h3 rfl rfl⟩
    unfold delete_previous
    simp only [isEmpty_eq_false_of_ne_nil _ hne, hsel, if_true, Bool.false_eq_true, if_false]
    exact h1
  | false =>
    rcases List.eq_nil_or_concat U with hU | ⟨X, g, hU⟩
    · subst hU
      rcases List.eq_nil_or_concat P with hP | ⟨A, prev_line, hP⟩
      · subst hP
        exact ⟨s, delete_previous_origin s hne hsel hcur, h⟩
      · subst hP
        have hL' : s._lines = A ++ prev_line :: ([] ++ V) :: Q := by rw [hL]; simp
        have hcur' : s._cursor_pos = ⟨(A.length : Int) + 1, 0⟩ := by
          rw [hcur]; simp
        exact ⟨_, delete_previous_join_parts s A Q prev_line ([] ++ V) hL' hsel hcur',
          in_bounds_parts _ A Q prev_line ([] ++ V) _ _ rfl rfl rfl rfl⟩
    · subst hU
      have hL' : s._lines = P ++ (X ++ g :: V) :: Q := by rw [hL]; simp
      have hcur' : s._cursor_pos = ⟨(P.length : Int), (X.length : Int) + 1⟩ := by
        rw [hcur]; simp
      exact ⟨_, delete_previous_glyph_parts s P Q X V g hL' hsel hcur',
        in_bounds_parts _ P Q X V _ _ rfl rfl rfl rfl⟩

theorem delete_selection_in_bounds (s : code_editor_widget) (h : cursor_in_bounds s = true)
    (hin : selection_in_bounds s = true)
    (hsel : s.has_selection = true ∨ s._select_end = s._select_beg) :
    ∃ s', s.delete_selection = .ok s' ∧ cursor_in_bounds s' = true := by
  by_cases he : s._select_end = s._select_beg
  · refine ⟨s, ?_, h⟩
    unfold delete_selection
    rw [if_pos he]
  · have hs : s.has_selection = true := hsel.resolve_right he
    obtain ⟨s1, P1, Q1, U1, V1, h1, h2, h3, _⟩ := delete_selection_parts s hs hin
    exact ⟨s1, h1, in_bounds_parts s1 P1 Q1 U1 V1 _ _ h2 h3 rfl rfl⟩

theorem insert_character_selection_in_bounds (s : code_editor_widget) (c : Char) (shift : Bool)
    (hin : selection_in_bounds s = true) (hsel : s.has_selection = true) (hc : c ≠ '\t') :
    ∃ s', s.insert_character c shift = .ok s' ∧ cursor_in_bounds s' = true := by
  obtain ⟨s1, P1, Q1, U1, V1, h1, h2, h3, h4⟩ := delete_selection_parts s hsel hin
  rw [insert_character_over_selection s s1 c shift hsel hc h1 h4]
  exact insert_character_in_bounds s1 c shift
    (in_bounds_parts s1 P1 Q1 U1 V1 _ _ h2 h3 rfl rfl) h4

theorem set_text_cursor (s : code_editor_widget) (text : List Char) :
    ∃ s', s.set_text text = .ok s' ∧ s'._cursor_pos = s._cursor_pos := by
  obtain ⟨lines, h1, _, _⟩ := set_text_loop_text text [] []
  simp only [List.nil_append] at h1
  unfold set_text
  rw [h1]
  exact ⟨_, rfl, rfl⟩

theorem getElem?_indent_block (g : glyph) (B : List (List glyph)) (line : List glyph) :
    ∀ (M : List (List glyph)) (l : Nat), (M ++ B)[l]? = some line →
      ∃ line', (M.map (fun m => g :: m) ++ B)[l]? = some line' ∧ line.length ≤ line'.length := by
  intro M
  induction M with
  | nil => intro l h; exact ⟨line, h, Nat.le_refl _⟩
  | cons m M ih =>
    intro l h
    cases l with
    | zero =>
      simp only [List.cons_append, List.getElem?_cons_zero, Option.some.injEq] at h
      subst h
      exact ⟨g :: m, by simp, by simp⟩
    | succ l =>
      simp only [List.cons_append, List.getElem?_cons_succ] at h
      obtain ⟨line', h1, h2⟩ := ih l h
      exact ⟨line', by simpa using h1, h2⟩

theorem getElem?_indent (g : glyph) (M B : List (List glyph)) (line : List glyph) :
    ∀ (A : List (List glyph)) (l : Nat), (A ++ M ++ B)[l]? = some line →
      ∃ line', (A ++ M.map (fun m => g :: m) ++ B)[l]? = some line' ∧
        line.length ≤ line'.length := by
  intro A
  induction A with
  | nil =>
    intro l h
    simp only [List.nil_append] at h ⊢
    exact getElem?_indent_block g B line M l h
  | cons a A ih =>
    intro l h
    cases l with
    | zero =>
      simp only [List.cons_append, List.getElem?_cons_zero, Option.some.injEq] at h
      subst h
      exact ⟨a, by simp, Nat.le_refl _⟩
    | succ l =>
      simp only [List.cons_append, List.getElem?_cons_succ] at h
      obtain ⟨line', h1, h2⟩ := ih l h
      exact ⟨line', by simpa using h1, h2⟩

/-- Pressing tab without shift on a non-empty in-bounds selection indents the selected
lines and leaves the cursor, which stays in bounds, where it was. -/
theorem insert_character_indent_in_bounds (s : code_editor_widget)
    (h : cursor_in_bounds s = true) (hin : selection_in_bounds s = true)
    (hsel : s.has_selection = true) :
    ∃ s', s.insert_character '\t' false = .ok s' ∧ s'._cursor_pos = s._cursor_pos ∧
      cursor_in_bounds s' = true := by
  have hin' := hin
  unfold selection_in_bounds at hin'
  rw [hsel] at hin'
  simp only [Bool.not_true, Bool.false_or, Bool.and_eq_true] at hin'
  obtain ⟨bl, bc, beg_line, hb, hbc, hsb⟩ := (position_in_bounds_iff _ _).mp hin'.1
  obtain ⟨el, ec, end_line, he, hec, hse⟩ := (position_in_bounds_iff _ _).mp hin'.2
  have hlt : bl < el ∨ (bl = el ∧ bc < ec) := by
    unfold has_selection at hsel
    rw [hsb, hse] at hsel
    exact text_pos_gt_cases bl bc el ec hsel
  have hel : el < s._lines.length := (List.getElem?_eq_some.mp he).1
  obtain ⟨n, hn⟩ : ∃ n : Nat, n = if ec = 0 ∧ 0 < el then el - bl else el - bl + 1 := ⟨_, rfl⟩
  have hn1 : 1 ≤ n ∧ bl + n ≤ s._lines.length := by
    rw [hn]; split <;> omega
  obtain ⟨A, M, B, hL, hAl, hMl, _, _, _⟩ := exists_split_block s._lines bl n hn1.2
  have hMne : M ≠ [] := by
    intro hnil; rw [hnil] at hMl; simp at hMl; omega
  have hlast : (if (ec : Int) = 0 ∧ (el : Int) > 0 then (el : Int) - 1 else (el : Int))
      = (A.length : Int) + (M.length : Int) - 1 := by
    rw [hAl, hMl, hn]
    by_cases hc : ec = 0 ∧ 0 < el
    · have hc' : (ec : Int) = 0 ∧ (el : Int) > 0 := by omega
      rw [if_pos hc, if_pos hc']
      omega
    · have hc' : ¬ ((ec : Int) = 0 ∧ (el : Int) > 0) := by omega
      rw [if_neg hc, if_neg hc']
      omega
  have hb' : s._select_beg = ⟨(A.length : Int), (bc : Int)⟩ := by rw [hAl]; exact hsb
  have key := (insert_character_tab_parts s A M B bc ec el false hL hb' hse hsel hMne hlast).trans
    (indent_lines_indent M A B
      { s with _colorize_line_beg := min s._colorize_line_beg (A.length : Int)
               _colorize_line_end := max s._colorize_line_end ((el : Int) + 1) } hL)
  refine ⟨_, key, rfl, ?_⟩
  obtain ⟨l, c, line, hl, hc, hcur⟩ := (cursor_in_bounds_iff s).mp h
  rw [hL] at hl
  obtain ⟨line', h1, h2⟩ := getElem?_indent ⟨'\t', color_palette.color_background⟩ M B line A l hl
  exact cursor_in_bounds_of _ _ l c line' rfl h1 (by omega) hcur

/-- C15 fails.  `set_text` does not touch the cursor, so on `["abc", "def"]` with the
cursor at `(1, 3)`, `set_text("")` leaves the cursor at `(1, 3)` in a document of one
empty line, and the edits that follow index `_lines[1]`: typing a character,
`insert_text` and `delete_next` are accesses out of range.  The outdent of a selection
shortens the line under the cursor and only adjusts a local copy of the selection
end, so on `["\tabc"]` with the whole line selected and the cursor at `(0, 4)`,
`insert_character('\t', true)` leaves the cursor at `(0, 4)` on the line `"abc"`,
where typing is an access out of range; and on `["a", "", "b"]` with the three lines
selected the outdent reads `line[0]` of the empty line. -/
theorem set_text_keeps_cursor :
    (cursor_in_bounds
        { code_editor_widget.create with
          _lines := [glyphs "abc", glyphs "def"], _cursor_pos := ⟨1, 3⟩ } = true ∧
      ∃ s1, code_editor_widget.set_text
          { code_editor_widget.create with
            _lines := [glyphs "abc", glyphs "def"], _cursor_pos := ⟨1, 3⟩ } [] = .ok s1 ∧
        s1._lines = [[]] ∧ s1._cursor_pos = ⟨1, 3⟩ ∧ cursor_in_bounds s1 = false ∧
        s1.insert_character 'x' false = .error fault.out_of_range ∧
        s1.insert_text ['x'] = .error fault.out_of_range ∧
        s1.delete_next = .error fault.out_of_range) ∧
    (cursor_in_bounds
        { code_editor_widget.create with
          _lines := [glyphs "\tabc"], _cursor_pos := ⟨0, 4⟩,
          _select_beg := ⟨0, 0⟩, _select_end := ⟨0, 4⟩ } = true ∧
      ∃ s1, code_editor_widget.insert_character
          { code_editor_widget.create with
            _lines := [glyphs "\tabc"], _cursor_pos := ⟨0, 4⟩,
            _select_beg := ⟨0, 0⟩, _select_end := ⟨0, 4⟩ } '\t' true = .ok s1 ∧
        s1._lines = [glyphs "abc"] ∧ s1._cursor_pos = ⟨0, 4⟩ ∧ cursor_in_bounds s1 = false ∧
        (code_editor_widget.select s1 ⟨0, 0⟩ ⟨0, 0⟩ selection_mode.normal).bind
            (fun s2 => s2.insert_character 'x' false) = .error fault.out_of_range) ∧
    (cursor_in_bounds
        { code_editor_widget.create with
          _lines := [glyphs "a", glyphs "", glyphs "b"], _cursor_pos := ⟨2, 1⟩,
          _select_beg := ⟨0, 0⟩, _select_end := ⟨2, 1⟩ } = true ∧
      code_editor_widget.insert_character
          { code_editor_widget.create with
            _lines := [glyphs "a", glyphs "", glyphs "b"], _cursor_pos := ⟨2, 1⟩,
            _select_beg := ⟨0, 0⟩, _select_end := ⟨2, 1⟩ } '\t' true
        = .error fault.out_of_range) :=
  ⟨⟨by decide, _, rfl, rfl, rfl, by decide, rfl, rfl, rfl⟩,
    ⟨by decide, _, rfl, rfl, rfl, by decide, rfl⟩, ⟨by decide, rfl⟩⟩

/-- The mutations that do keep the cursor in bounds.  From a state whose cursor is in
bounds and whose selection is empty or has both ends in bounds, `insert_text`,
`insert_character` (of a character other than a tab, of a tab without a selection,
and of a tab without shift on a selection, which indents and leaves the cursor in
place), `delete_next`, `delete_previous` and `delete_selection` return with the
cursor in bounds; `set_text` returns with the cursor where it was, which is all it
has in common with them. -/
theorem mutation_cursor_bounds (s : code_editor_widget) (h : cursor_in_bounds s = true)
    (hin : selection_in_bounds s = true) :
    (∀ text, ∃ s', s.insert_text text = .ok s' ∧ cursor_in_bounds s' = true) ∧
    (∀ c shift, (c ≠ '\t' ∨ s.has_selection = false) →
      ∃ s', s.insert_character c shift = .ok s' ∧ cursor_in_bounds s' = true) ∧
    (s.has_selection = true →
      ∃ s', s.insert_character '\t' false = .ok s' ∧ s'._cursor_pos = s._cursor_pos ∧
        cursor_in_bounds s' = true) ∧
    (∃ s', s.delete_next = .ok s' ∧ cursor_in_bounds s' = true) ∧
    (∃ s', s.delete_previous = .ok s' ∧ cursor_in_bounds s' = true) ∧
    ((s.has_selection = true ∨ s._select_end = s._select_beg) →
      ∃ s', s.delete_selection = .ok s' ∧ cursor_in_bounds s' = true) ∧
    (∀ text, ∃ s', s.set_text text = .ok s' ∧ s'._cursor_pos = s._cursor_pos) := by
  refine ⟨fun text => insert_text_in_bounds s text h, ?_,
    insert_character_indent_in_bounds s h hin, delete_next_in_bounds s h hin,
    delete_previous_in_bounds s h hin, delete_selection_in_bounds s h hin,
    set_text_cursor s⟩
  intro c shift hc
  cases hsel : s.has_selection with
  | false => exact insert_character_in_bounds s c shift h hsel
  | true =>
    rcases hc with hc | hc
    · exact insert_character_selection_in_bounds s c shift hin hsel hc
    · rw [hsel] at hc; exact absurd hc (by decide)

theorem mutation_cursor_bounds_witness :
    ∃ s1, code_editor_widget.insert_character
        { code_editor_widget.create with
          _lines := [glyphs "abc", glyphs "def"], _cursor_pos := ⟨1, 3⟩,
          _select_beg := ⟨0, 1⟩, _select_end := ⟨1, 2⟩ } 'x' false = .ok s1 ∧
      cursor_in_bounds s1 = true :=
  (mutation_cursor_bounds
    { code_editor_widget.create with
      _lines := [glyphs "abc", glyphs "def"], _cursor_pos := ⟨1, 3⟩,
      _select_beg := ⟨0, 1⟩, _select_end := ⟨1, 2⟩ } (by decide) (by decide)).2.1 'x' false
    (Or.inl (by decide))

/-! ### Degenerate ranges and the ends of the buffer -/

/-- C22 fails: `delete_range((0, 1), (0, 0))`, with the end before the begin, fails
the assertion `end > beg` instead of returning. -/
theorem delete_range_backwards_asserts :
    code_editor_widget.delete_range
        { code_editor_widget.create with _lines := [glyphs "ab", glyphs "cd"] } ⟨0, 1⟩ ⟨0, 0⟩
      = .error fault.assertion :=
  rfl

/-- C22, amended: `delete_range(beg, end)` with `end = beg` returns with the state
unchanged, and with `end` before `beg` it fails the assertion `end > beg`. -/
theorem delete_range_degenerate (s : code_editor_widget) (beg end_ : text_pos) :
    (end_ = beg → delete_range s beg end_ = .ok s) ∧
    (beg.gt end_ = true → delete_range s beg end_ = .error fault.assertion) := by
  constructor
  · intro h
    unfold delete_range
    rw [if_pos h]
  · intro h
    have hne : ¬ end_ = beg := by
      intro e
      rw [e, text_pos_gt_irrefl] at h
      exact Bool.false_ne_true h
    have hg : end_.gt beg = false := text_pos_gt_asymm beg end_ h
    unfold delete_range
    rw [if_neg hne, hg]
    rfl

theorem delete_range_degenerate_witness :
    code_editor_widget.delete_range
        { code_editor_widget.create with _lines := [glyphs "ab", glyphs "cd"] } ⟨1, 0⟩ ⟨0, 1⟩
      = .error fault.assertion :=
  (delete_range_degenerate
    { code_editor_widget.create with _lines := [glyphs "ab", glyphs "cd"] } ⟨1, 0⟩ ⟨0, 1⟩).2
    (by decide)

/-- C23: with no selection, `delete_next` with the cursor at the end of the last line
and `delete_previous` with the cursor at `(0, 0)` return the state they were called
on: lines, error markers, cursor, selection and dirty range are unchanged. -/
theorem delete_at_buffer_ends (s : code_editor_widget) (hsel : s.has_selection = false) :
    (∀ (l : Nat) (line : List glyph), s._lines[l]? = some line → l + 1 = s._lines.length →
      s._cursor_pos = ⟨(l : Int), (line.length : Int)⟩ → delete_next s = .ok s) ∧
    (s._cursor_pos = ⟨0, 0⟩ → delete_previous s = .ok s) := by
  constructor
  · intro l line hl hlast hcur
    obtain ⟨A, B, hL, hAl, _, _⟩ := exists_split_at s._lines l line hl
    have hB : B = [] := by
      have := congrArg List.length hL
      simp only [List.length_append, List.length_cons] at this
      have hb : B.length = 0 := by omega
      exact List.length_eq_zero.mp hb
    subst hB
    exact delete_next_last s A line hL hsel (by rw [hcur, hAl])
  · intro hcur
    by_cases hne : s._lines = []
    · unfold delete_previous
      simp [hne]
    · exact delete_previous_origin s hne hsel hcur

theorem delete_at_buffer_ends_witness :
    code_editor_widget.delete_next
        { code_editor_widget.create with
          _lines := [glyphs "ab", glyphs "cd"], _cursor_pos := ⟨1, 2⟩ }
      = .ok { code_editor_widget.create with
          _lines := [glyphs "ab", glyphs "cd"], _cursor_pos := ⟨1, 2⟩ } :=
  (delete_at_buffer_ends
    { code_editor_widget.create with
      _lines := [glyphs "ab", glyphs "cd"], _cursor_pos := ⟨1, 2⟩ } rfl).1
    1 (glyphs "cd") rfl rfl rfl

/-! ### Typing and backspacing -/

/-- C30: with no selection, overwrite mode off and an in-bounds cursor,
`insert_character(c, false)` for a character other than a newline followed by
`delete_previous()` returns, with every line, hence the line count, and the cursor as
they were before the insertion. -/
theorem type_then_backspace (s : code_editor_widget) (l c : Nat) (line : List glyph)
    (ch : Char) (hl : s._lines[l]? = some line) (hc : c ≤ line.length)
    (hcur : s._cursor_pos = ⟨(l : Int), (c : Int)⟩) (hsel : s.has_selection = false)
    (hov : s._overwrite = false) (hn : ch ≠ '\n') :
    ∃ s1 s2, insert_character s ch false = .ok s1 ∧ delete_previous s1 = .ok s2 ∧
      s2._lines = s._lines ∧ s2._cursor_pos = s._cursor_pos := by
  obtain ⟨P, Q, hL, hPl, _, _⟩ := exists_split_at s._lines l line hl
  obtain ⟨U, V, hx, hUl, _, _⟩ := exists_line_split line c hc
  rw [hx] at hL
  have hcur' : s._cursor_pos = ⟨(P.length : Int), (U.length : Int)⟩ := by
    rw [hcur, hPl, hUl]
  have h1 := insert_character_insert_parts s P Q U V ch false hn hL hsel hcur' (Or.inl hov)
  have h2 := delete_previous_glyph_parts
    { s with _lines := P ++ (U ++ ⟨ch, color_palette.color_default⟩ :: V) :: Q
             _cursor_pos := ⟨(P.length : Int), (U.length : Int) + 1⟩
             _colorize_line_beg := min s._colorize_line_beg (P.length : Int)
             _colorize_line_end := max s._colorize_line_end ((P.length : Int) + 1)
             _scroll_to_cursor := true }
    P Q U V ⟨ch, color_palette.color_default⟩ rfl hsel rfl
  exact ⟨_, _, h1, h2, hL.symm, hcur'.symm⟩

theorem type_then_backspace_witness :
    ∃ s1 s2,
      code_editor_widget.insert_character
        { code_editor_widget.create with
          _lines := [glyphs "ab", glyphs "cd"], _cursor_pos := ⟨1, 1⟩ } 'x' false = .ok s1 ∧
      code_editor_widget.delete_previous s1 = .ok s2 ∧
      s2._lines = [glyphs "ab", glyphs "cd"] ∧ s2._cursor_pos = ⟨1, 1⟩ :=
  type_then_backspace
    { code_editor_widget.create with
      _lines := [glyphs "ab", glyphs "cd"], _cursor_pos := ⟨1, 1⟩ }
    1 1 (glyphs "cd") 'x' rfl (by decide) rfl rfl rfl (by decide)

/-! ### Selecting a word -/

/-- C21 fails: on the line `ab c` whose glyphs `a`, `b` and `c` are identifiers and
whose space has the default color, `select((0, 1), (0, 1), word)` selects the
columns `[0, 3)`: the selection ends behind the space, a glyph of another color class
than the glyph at column 0. -/
theorem select_word_takes_next_glyph :
    ∃ s1, code_editor_widget.select
        { code_editor_widget.create with
          _lines := [[⟨'a', color_palette.color_identifier⟩,
                      ⟨'b', color_palette.color_identifier⟩,
                      ⟨' ', color_palette.color_default⟩,
                      ⟨'c', color_palette.color_identifier⟩]] }
        ⟨0, 1⟩ ⟨0, 1⟩ selection_mode.word = .ok s1 ∧
      s1._select_beg = ⟨0, 0⟩ ∧ s1._select_end = ⟨0, 3⟩ :=
  ⟨_, rfl, rfl, rfl⟩

/-- C24 fails: on the document `["abc"]`, `select((0, 0), (0, 0), word)` reads the
glyph at index -1 of line 0, outside the line. -/
theorem select_word_reads_before_line :
    code_editor_widget.select
        { code_editor_widget.create with _lines := [glyphs "abc"] }
        ⟨0, 0⟩ ⟨0, 0⟩ selection_mode.word
      = .error fault.out_of_range :=
  rfl

/-! ### The dirty range after a line join -/

/-- C25 fails: on `["ab", "cd"]` with no pending dirty range, `delete_next` with the
cursor at `(0, 2)` and `delete_previous` with the cursor at `(1, 0)` both join the
two lines into line 0, where the cursor is afterwards, and leave the dirty range
`[1, 2)`, which does not hold line 0. -/
theorem join_leaves_line_clean :
    (∃ s1, code_editor_widget.delete_next
        { code_editor_widget.create with
          _lines := [glyphs "ab", glyphs "cd"], _cursor_pos := ⟨0, 2⟩ } = .ok s1 ∧
      s1._lines = [glyphs "abcd"] ∧ s1._cursor_pos = ⟨0, 2⟩ ∧
      s1._colorize_line_beg = 1 ∧ s1._colorize_line_end = 2) ∧
    (∃ s1, code_editor_widget.delete_previous
        { code_editor_widget.create with
          _lines := [glyphs "ab", glyphs "cd"], _cursor_pos := ⟨1, 0⟩ } = .ok s1 ∧
      s1._lines = [glyphs "abcd"] ∧ s1._cursor_pos = ⟨0, 2⟩ ∧
      s1._colorize_line_beg = 1 ∧ s1._colorize_line_end = 2) :=
  ⟨⟨_, rfl, rfl, rfl, rfl, rfl⟩, ⟨_, rfl, rfl, rfl, rfl, rfl⟩⟩

/-! ### Selecting everything -/

/-- C29 fails: on the document `["ab"]`, `select_all()` selects `(0, 0)` to `(0, 1)`,
so that `get_selected_text()` is `"a"` while `get_text()` is `"ab"`. -/
theorem select_all_misses_last_glyph :
    ∃ s1, code_editor_widget.select_all
        { code_editor_widget.create with _lines := [glyphs "ab"] } = .ok s1 ∧
      s1._select_beg = ⟨0, 0⟩ ∧ s1._select_end = ⟨0, 1⟩ ∧
      s1.get_selected_text = .ok "a".toList ∧ s1.get_text = .ok "ab".toList :=
  ⟨_, rfl, rfl, rfl, rfl, rfl⟩

/-! ### The color class of inserted glyphs -/

theorem default_colored_append (X Y : List glyph) :
    default_colored (X ++ Y) = (default_colored X && default_colored Y) := by
  simp [default_colored, List.all_append]

theorem default_colored_snoc (T : List glyph) (c : Char) (h : default_colored T = true) :
    default_colored (T ++ [⟨c, color_palette.color_default⟩]) = true := by
  rw [default_colored_append, h]
  rfl

theorem set_text_loop_default (cs : List Char) :
    ∀ (lines : List (List glyph)), (∀ line ∈ lines, default_colored line = true) →
      lines ≠ [] →
      ∃ lines', set_text_loop cs lines = .ok lines' ∧
        ∀ line ∈ lines', default_colored line = true := by
  induction cs with
  | nil => intro lines h _; exact ⟨lines, rfl, h⟩
  | cons c cs ih =>
    intro lines h hne
    by_cases hr : c = '\r'
    · obtain ⟨lines', h1, h2⟩ := ih lines h hne
      exact ⟨lines', by simp [set_text_loop, hr, h1], h2⟩
    · by_cases hn : c = '\n'
      · obtain ⟨lines', h1, h2⟩ := ih (lines ++ [[]]) (by
          intro line hl
          rcases List.mem_append.mp hl with hl | hl
          · exact h line hl
          · simp only [List.mem_singleton] at hl
            subst hl; rfl) (by simp)
        exact ⟨lines', by rw [set_text_loop, if_neg hr, if_pos hn]; exact h1, h2⟩
      · rcases List.eq_nil_or_concat lines with hnil | ⟨A, l, hA⟩
        · exact absurd hnil hne
        · rw [List.concat_eq_append] at hA
          subst hA
          obtain ⟨lines', h1, h2⟩ := ih (A ++ [l ++ [⟨c, color_palette.color_default⟩]]) (by
            intro line hl
            rcases List.mem_append.mp hl with hl | hl
            · exact h line (List.mem_append.mpr (Or.inl hl))
            · simp only [List.mem_singleton] at hl
              subst hl
              exact default_colored_snoc l c (h l (by simp))) (by simp)
          refine ⟨lines', ?_, h2⟩
          rw [set_text_loop, if_neg hr, if_neg hn, vec_back_push_snoc]
          exact h1

theorem set_text_default (s : code_editor_widget) (text : List Char) :
    ∃ s', s.set_text text = .ok s' ∧ ∀ line ∈ s'._lines, default_colored line = true := by
  obtain ⟨lines, h1, h2⟩ := set_text_loop_default text [[]] (by
    intro line hl
    simp only [List.mem_singleton] at hl
    subst hl; rfl) (by simp)
  unfold set_text
  rw [h1]
  exact ⟨_, rfl, h2⟩

/-- One character of `insert_text` keeps the shape of the document, see
`insert_text_step_shape`, and what it puts between the old parts has the default
color class. -/
theorem insert_text_step_default (A B : List (List glyph)) (X Y : List glyph)
    (s : code_editor_widget) (c : Char)
    (hinv :
      (∃ T, s._lines = A ++ (X ++ T ++ Y) :: B ∧
        s._cursor_pos = ⟨(A.length : Int), (X.length : Int) + (T.length : Int)⟩ ∧
        default_colored T = true) ∨
      (∃ T Mid Z, s._lines = A ++ (X ++ T) :: (Mid ++ (Z ++ Y) :: B) ∧
        s._cursor_pos = ⟨(A.length : Int) + 1 + (Mid.length : Int), (Z.length : Int)⟩ ∧
        default_colored T = true ∧ (∀ m ∈ Mid, default_colored m = true) ∧
        default_colored Z = true)) :
    ∃ s', insert_text_step s c = .ok s' ∧
      ((∃ T, s'._lines = A ++ (X ++ T ++ Y) :: B ∧
        s'._cursor_pos = ⟨(A.length : Int), (X.length : Int) + (T.length : Int)⟩ ∧
        default_colored T = true) ∨
      (∃ T Mid Z, s'._lines = A ++ (X ++ T) :: (Mid ++ (Z ++ Y) :: B) ∧
        s'._cursor_pos = ⟨(A.length : Int) + 1 + (Mid.length : Int), (Z.length : Int)⟩ ∧
        default_colored T = true ∧ (∀ m ∈ Mid, default_colored m = true) ∧
        default_colored Z = true)) := by
  by_cases hr : c = '\r'
  · exact ⟨s, by simp [insert_text_step, hr], hinv⟩
  by_cases hn : c = '\n'
  · subst hn
    rcases hinv with ⟨T, hL, hcur, hT⟩ | ⟨T, Mid, Z, hL, hcur, hT, hM, hZ⟩
    · have hcur' : s._cursor_pos = ⟨(A.length : Int), ((X ++ T).length : Int)⟩ := by
        rw [hcur]; simp
      refine ⟨_, insert_text_step_newline s A B (X ++ T) Y hL hcur',
        Or.inr ⟨T, [], [], ?_, ?_, hT, ?_, rfl⟩⟩
      · simp
      · simp
      · intro m hm; simp at hm
    · have hL' : s._lines = (A ++ (X ++ T) :: Mid) ++ (Z ++ Y) :: B := by rw [hL]; simp
      have hcur' : s._cursor_pos = ⟨((A ++ (X ++ T) :: Mid).length : Int), (Z.length : Int)⟩ := by
        rw [hcur]; simp; omega
      refine ⟨_, insert_text_step_newline s _ B Z Y hL' hcur',
        Or.inr ⟨T, Mid ++ [Z], [], ?_, ?_, hT, ?_, rfl⟩⟩
      · simp
      · simp; omega
      · intro m hm
        rcases List.mem_append.mp hm with hm | hm
        · exact hM m hm
        · simp only [List.mem_singleton] at hm
          subst hm; exact hZ
  · rcases hinv with ⟨T, hL, hcur, hT⟩ | ⟨T, Mid, Z, hL, hcur, hT, hM, hZ⟩
    · have hcur' : s._cursor_pos = ⟨(A.length : Int), ((X ++ T).length : Int)⟩ := by
        rw [hcur]; simp
      refine ⟨_, insert_text_step_char s A B (X ++ T) Y c hr hn hL hcur',
        Or.inl ⟨T ++ [⟨c, color_palette.color_default⟩], ?_, ?_, default_colored_snoc T c hT⟩⟩
      · simp
      · simp; omega
    · have hL' : s._lines = (A ++ (X ++ T) :: Mid) ++ (Z ++ Y) :: B := by rw [hL]; simp
      have hcur' : s._cursor_pos = ⟨((A ++ (X ++ T) :: Mid).length : Int), (Z.length : Int)⟩ := by
        rw [hcur]; simp; omega
      refine ⟨_, insert_text_step_char s _ B Z Y c hr hn hL' hcur',
        Or.inr ⟨T, Mid, Z ++ [⟨c, color_palette.color_default⟩], ?_, ?_, hT, hM,
          default_colored_snoc Z c hZ⟩⟩
      · simp
      · simp; omega

theorem insert_text_loop_default (A B : List (List glyph)) (X Y : List glyph)
    (text : List Char) :
    ∀ s : code_editor_widget,
      ((∃ T, s._lines = A ++ (X ++ T ++ Y) :: B ∧
        s._cursor_pos = ⟨(A.length : Int), (X.length : Int) + (T.length : Int)⟩ ∧
        default_colored T = true) ∨
      (∃ T Mid Z, s._lines = A ++ (X ++ T) :: (Mid ++ (Z ++ Y) :: B) ∧
        s._cursor_pos = ⟨(A.length : Int) + 1 + (Mid.length : Int), (Z.length : Int)⟩ ∧
        default_colored T = true ∧ (∀ m ∈ Mid, default_colored m = true) ∧
        default_colored Z = true)) →
      ∃ s', insert_text_loop text s = .ok s' ∧
        ((∃ T, s'._lines = A ++ (X ++ T ++ Y) :: B ∧
          s'._cursor_pos = ⟨(A.length : Int), (X.length : Int) + (T.length : Int)⟩ ∧
          default_colored T = true) ∨
        (∃ T Mid Z, s'._lines = A ++ (X ++ T) :: (Mid ++ (Z ++ Y) :: B) ∧
          s'._cursor_pos = ⟨(A.length : Int) + 1 + (Mid.length : Int), (Z.length : Int)⟩ ∧
          default_colored T = true ∧ (∀ m ∈ Mid, default_colored m = true) ∧
          default_colored Z = true)) := by
  induction text with
  | nil => intro s hinv; exact ⟨s, rfl, hinv⟩
  | cons c cs ih =>
    intro s hinv
    obtain ⟨s1, h1, hinv1⟩ := insert_text_step_default A B X Y s c hinv
    obtain ⟨s2, h2, hinv2⟩ := ih s1 hinv1
    exact ⟨s2, by simp [insert_text_loop, h1, h2], hinv2⟩

theorem insert_text_default (A B : List (List glyph)) (X Y : List glyph) (text : List Char)
    (s : code_editor_widget) (h : s._lines = A ++ (X ++ Y) :: B)
    (hcur : s._cursor_pos = ⟨(A.length : Int), (X.length : Int)⟩) :
    ∃ s', insert_text s text = .ok s' ∧
      ((∃ T, s'._lines = A ++ (X ++ T ++ Y) :: B ∧ default_colored T = true) ∨
      (∃ T Mid Z, s'._lines = A ++ (X ++ T) :: (Mid ++ (Z ++ Y) :: B) ∧
        default_colored T = true ∧ (∀ m ∈ Mid, default_colored m = true) ∧
        default_colored Z = true)) := by
  obtain ⟨s1, h1, hinv1⟩ := insert_text_loop_default A B X Y text
    { s with _colorize_line_beg := min s._colorize_line_beg s._cursor_pos.line }
    (Or.inl ⟨[], by simp [h], by simp [hcur], rfl⟩)
  refine ⟨_, by simp only [insert_text, h1, except_bind_ok, select, except_pure]; rfl, ?_⟩
  rcases hinv1 with ⟨T, h2, _, h3⟩ | ⟨T, Mid, Z, h2, _, h3, h4, h5⟩
  · exact Or.inl ⟨T, h2, h3⟩
  · exact Or.inr ⟨T, Mid, Z, h2, h3, h4, h5⟩

/-- C28 fails: pressing tab on `["ab"]` with the whole line selected puts a tab glyph
of the color class background in front of the line; and a newline typed at the end
of a line that begins with such a tab copies the tab, with its color class, to the
new line. -/
theorem indent_adds_background_glyph :
    (∃ s1, code_editor_widget.insert_character
        { code_editor_widget.create with
          _lines := [glyphs "ab"], _select_beg := ⟨0, 0⟩, _select_end := ⟨0, 2⟩ } '\t' false
        = .ok s1 ∧
      s1._lines = [⟨'\t', color_palette.color_background⟩ :: glyphs "ab"]) ∧
    (∃ s1, code_editor_widget.insert_character
        { code_editor_widget.create with
          _lines := [⟨'\t', color_palette.color_background⟩ :: glyphs "ab"],
          _cursor_pos := ⟨0, 3⟩ } '\n' false = .ok s1 ∧
      s1._lines = [⟨'\t', color_palette.color_background⟩ :: glyphs "ab",
        [⟨'\t', color_palette.color_background⟩]]) :=
  ⟨⟨_, rfl, rfl⟩, ⟨_, rfl, rfl⟩⟩

/-- C28, amended: every glyph of the document that `set_text` builds has the default
color class; with an in-bounds cursor at `(l, c)`, the glyphs that `insert_text` puts
between the two parts of line l have the default color class, and so has the glyph
that `insert_character` puts at the cursor for a character other than a newline when
there is no selection; the glyphs that a newline adds to the new line are the leading
spaces and tabs of line l as they are, with their color classes; and an indent of a
selection puts a tab of the color class background in front of each selected line. -/
theorem inserted_glyph_colors (s : code_editor_widget) :
    (∀ text, ∃ s', s.set_text text = .ok s' ∧
      ∀ line ∈ s'._lines, default_colored line = true) ∧
    (∀ (l c : Nat) (line : List glyph), s._lines[l]? = some line → c ≤ line.length →
      s._cursor_pos = ⟨(l : Int), (c : Int)⟩ →
      (∀ text, ∃ s', s.insert_text text = .ok s' ∧
        ((∃ T, s'._lines = s._lines.take l ++ (line.take c ++ T ++ line.drop c)
            :: s._lines.drop (l + 1) ∧ default_colored T = true) ∨
        (∃ T Mid Z, s'._lines = s._lines.take l ++ (line.take c ++ T)
            :: (Mid ++ (Z ++ line.drop c) :: s._lines.drop (l + 1)) ∧
          default_colored T = true ∧ (∀ m ∈ Mid, default_colored m = true) ∧
          default_colored Z = true))) ∧
      (s.has_selection = false → ∀ ch shift, ch ≠ '\n' →
        ∃ s', s.insert_character ch shift = .ok s' ∧
          s'._lines = s._lines.take l ++ (line.take c ++ ⟨ch, color_palette.color_default⟩
            :: line.drop (if s._overwrite = true ∧ c < line.length then c + 1 else c))
            :: s._lines.drop (l + 1)) ∧
      (s.has_selection = false → ∀ shift,
        ∃ s', s.insert_character '\n' shift = .ok s' ∧
          s'._lines = s._lines.take l ++ line.take c
            :: (line.takeWhile (fun g => isblank g.c) ++ line.drop c)
            :: s._lines.drop (l + 1))) ∧
    (∀ (bl bc el ec n : Nat), s._select_beg = ⟨(bl : Int), (bc : Int)⟩ →
      s._select_end = ⟨(el : Int), (ec : Int)⟩ → (bl < el ∨ (bl = el ∧ bc < ec)) →
      el < s._lines.length → n = (if ec = 0 ∧ 0 < el then el - bl else el - bl + 1) →
      ∃ s', s.insert_character '\t' false = .ok s' ∧
        s'._lines = s._lines.take bl
          ++ ((s._lines.drop bl).take n).map (fun line =>
               (⟨'\t', color_palette.color_background⟩ : glyph) :: line)
          ++ s._lines.drop (bl + n)) := by
  refine ⟨set_text_default s, ?_, ?_⟩
  · intro l c line hl hc hcur
    obtain ⟨P, Q, hL, hPl, hP, hQ⟩ := exists_split_at s._lines l line hl
    obtain ⟨U, V, hx, hUl, hU, hV⟩ := exists_line_split line c hc
    rw [hx] at hL
    have hcur' : s._cursor_pos = ⟨(P.length : Int), (U.length : Int)⟩ := by
      rw [hcur, hPl, hUl]
    rw [hP, hQ, hU, hV]
    refine ⟨fun text => insert_text_default P Q U V text s hL hcur', ?_, ?_⟩
    · intro hsel ch shift hn
      by_cases hov : s._overwrite = false ∨ V = []
      · refine ⟨_, insert_character_insert_parts s P Q U V ch shift hn hL hsel hcur' hov, ?_⟩
        have hcond : ¬ (s._overwrite = true ∧ c < line.length) := by
          rintro ⟨h1, h2⟩
          rcases hov with h3 | h3
          · rw [h3] at h1; exact Bool.false_ne_true h1
          · rw [hx, h3] at h2; simp at h2; omega
        rw [if_neg hcond, hV]
      · have hov1 : s._overwrite = true := by
          cases ho : s._overwrite with
          | false => exact absurd (Or.inl ho) hov
          | true => rfl
        cases V with
        | nil => exact absurd (Or.inr rfl) hov
        | cons g V =>
          refine ⟨_, insert_character_overwrite_parts s P Q U V g ch shift hn hL hsel hcur' hov1,
            ?_⟩
          have hcond : s._overwrite = true ∧ c < line.length := by
            refine ⟨hov1, ?_⟩
            rw [hx]; simp; omega
          rw [if_pos hcond]
          have hd : line.drop (c + 1) = V := by
            rw [hx, ← hUl]
            have e : U ++ g :: V = (U ++ [g]) ++ V := by simp
            rw [e]
            exact List.drop_left' (by simp)
          rw [hd]
    · intro hsel shift
      refine ⟨_, insert_character_newline_parts s P Q U V shift hL hsel hcur', ?_⟩
      rw [hx]
  · intro bl bc el ec n hb he hlt hel hn
    have hsel : s.has_selection = true := by
      unfold has_selection
      rw [hb, he]
      rcases hlt with h | ⟨h1, h2⟩
      · exact text_pos_gt_of_line_lt _ _ _ _ (by omega)
      · subst h1; exact text_pos_gt_same_line _ _ _ (by omega)
    have hn1 : 1 ≤ n ∧ bl + n ≤ s._lines.length := by
      rw [hn]; split <;> omega
    obtain ⟨A, M, B, hL, hAl, hMl, hA, hM, hB⟩ := exists_split_block s._lines bl n hn1.2
    have hMne : M ≠ [] := by
      intro hnil; rw [hnil] at hMl; simp at hMl; omega
    have hlast : (if (ec : Int) = 0 ∧ (el : Int) > 0 then (el : Int) - 1 else (el : Int))
        = (A.length : Int) + (M.length : Int) - 1 := by
      rw [hAl, hMl, hn]
      by_cases hc : ec = 0 ∧ 0 < el
      · have hc' : (ec : Int) = 0 ∧ (el : Int) > 0 := by omega
        rw [if_pos hc, if_pos hc']
        omega
      · have hc' : ¬ ((ec : Int) = 0 ∧ (el : Int) > 0) := by omega
        rw [if_neg hc, if_neg hc']
        omega
    have hb' : s._select_beg = ⟨(A.length : Int), (bc : Int)⟩ := by rw [hAl]; exact hb
    have key := (insert_character_tab_parts s A M B bc ec el false hL hb' he hsel hMne hlast).trans
      (indent_lines_indent M A B
        { s with _colorize_line_beg := min s._colorize_line_beg (A.length : Int)
                 _colorize_line_end := max s._colorize_line_end ((el : Int) + 1) } hL)
    exact ⟨_, key, by rw [hA, hM, hB]⟩

theorem inserted_glyph_colors_witness :
    ∃ s', code_editor_widget.insert_character
        { code_editor_widget.create with
          _lines := [glyphs "ab", glyphs "cd"], _cursor_pos := ⟨1, 1⟩ } 'x' false = .ok s' ∧
      s'._lines = [glyphs "ab", glyphs "cxd"] :=
  ((inserted_glyph_colors
    { code_editor_widget.create with
      _lines := [glyphs "ab", glyphs "cd"], _cursor_pos := ⟨1, 1⟩ }).2.1
    1 1 (glyphs "cd") rfl (by decide) rfl).2.1 rfl 'x' false (by decide)

/-! ### The walk of `colorize` over a token -/

theorem length_batch_text (B : List (List glyph)) :
    (batch_text B).length = (B.map (fun line => line.length + 1)).sum := by
  induction B with
  | nil => rfl
  | cons b B ih =>
    simp only [batch_text, List.length_append, List.length_map, List.length_cons, ih,
      List.map_cons, List.sum_cons]
    omega

/-- The walk over n characters from the position between U and V of a line, with at
most the text from there to the end of the lines `(U ++ V) :: Q` to walk: it returns,
and changes only color classes of glyphs of V and Q. -/
theorem colorize_span_parts (col : color_palette) (A C : List (List glyph)) (n : Nat) :
    ∀ (P : List (List glyph)) (U V : List glyph) (Q : List (List glyph)),
      n ≤ V.length + 1 + (Q.map (fun line => line.length + 1)).sum →
      ∃ (V' : List glyph) (Q' : List (List glyph)),
        colorize_span col n (A ++ (P ++ (U ++ V) :: Q) ++ C)
          ((A.length : Int) + (P.length : Int)) (U.length : Int)
          = .ok (A ++ (P ++ (U ++ V') :: Q') ++ C) ∧
        V'.map glyph.c = V.map glyph.c ∧
        Q'.map (List.map glyph.c) = Q.map (List.map glyph.c) := by
  induction n with
  | zero => intro P U V Q _; exact ⟨V, Q, rfl, rfl, rfl⟩
  | succ n ih =>
    intro P U V Q hn
    have hat : vec_at (A ++ (P ++ (U ++ V) :: Q) ++ C) ((A.length : Int) + (P.length : Int))
        = .ok (U ++ V) :=
      vec_at_eq (A := A ++ P) (B := Q ++ C) (by simp) (by simp)
    cases V with
    | nil =>
      have hcol : (U.length : Int) = ((U ++ []).length : Int) := by simp
      cases Q with
      | nil =>
        have hn0 : n = 0 := by simp at hn; omega
        subst hn0
        refine ⟨[], [], ?_, rfl, rfl⟩
        simp only [colorize_span, hat, except_bind_ok, hcol, if_true]
      | cons q Q =>
        obtain ⟨V', Q', h1, h2, h3⟩ := ih (P ++ [U]) [] q Q (by simp at hn ⊢; omega)
        refine ⟨[], V' :: Q', ?_, rfl, ?_⟩
        · simp only [colorize_span, hat, except_bind_ok, hcol, if_true]
          have e1 : (A.length : Int) + (P.length : Int) + 1
              = (A.length : Int) + ((P ++ [U]).length : Int) := by simp; omega
          have e2 : A ++ (P ++ (U ++ []) :: q :: Q) ++ C
              = A ++ ((P ++ [U]) ++ ([] ++ q) :: Q) ++ C := by simp
          have e3 : A ++ (P ++ (U ++ []) :: V' :: Q') ++ C
              = A ++ ((P ++ [U]) ++ ([] ++ V') :: Q') ++ C := by simp
          rw [e1, e2, e3]
          exact h1
        · simp [h2, h3]
    | cons g V =>
      have hcol : ¬ ((U.length : Int) = ((U ++ g :: V).length : Int)) := by
        simp only [List.length_append, List.length_cons, Nat.cast_add, Nat.cast_one]; omega
      have hg : vec_at (U ++ g :: V) (U.length : Int) = .ok g := vec_at_eq rfl rfl
      have hs : vec_set (U ++ g :: V) (U.length : Int) { g with col := col }
          = .ok (U ++ { g with col := col } :: V) := vec_set_eq rfl rfl _
      have hs2 : vec_set (A ++ (P ++ (U ++ g :: V) :: Q) ++ C)
          ((A.length : Int) + (P.length : Int)) (U ++ { g with col := col } :: V)
          = .ok (A ++ (P ++ (U ++ { g with col := col } :: V) :: Q) ++ C) := by
        have := vec_set_eq (v := A ++ (P ++ (U ++ g :: V) :: Q) ++ C) (A := A ++ P)
          (B := Q ++ C) (x := U ++ g :: V) (i := (A.length : Int) + (P.length : Int))
          (by simp) (by simp) (U ++ { g with col := col } :: V)
        simpa using this
      obtain ⟨V', Q', h1, h2, h3⟩ := ih P (U ++ [{ g with col := col }]) V Q
        (by simp at hn ⊢; omega)
      refine ⟨{ g with col := col } :: V', Q', ?_, ?_, h3⟩
      · simp only [colorize_span, hat, except_bind_ok, hcol, if_false, hg, hs, hs2]
        have e1 : (U.length : Int) + 1 = ((U ++ [{ g with col := col }]).length : Int) := by simp
        have e2 : A ++ (P ++ (U ++ { g with col := col } :: V) :: Q) ++ C
            = A ++ (P ++ ((U ++ [{ g with col := col }]) ++ V) :: Q) ++ C := by simp
        have e3 : A ++ (P ++ (U ++ { g with col := col } :: V') :: Q') ++ C
            = A ++ (P ++ ((U ++ [{ g with col := col }]) ++ V') :: Q') ++ C := by simp
        rw [e1, e2, e3]
        exact h1
      · simp [h2]

theorem map_length_of_map_c (B B' : List (List glyph))
    (h : B'.map (List.map glyph.c) = B.map (List.map glyph.c)) :
    B'.map List.length = B.map List.length := by
  have e : ∀ X : List (List glyph), (X.map (List.map glyph.c)).map List.length
      = X.map List.length := by
    intro X
    rw [List.map_map]
    apply List.map_congr_left
    intro a _
    simp
  have := congrArg (List.map List.length) h
  rw [e, e] at this
  exact this

theorem batch_text_congr (B : List (List glyph)) :
    ∀ B' : List (List glyph), B'.map (List.map glyph.c) = B.map (List.map glyph.c) →
      batch_text B' = batch_text B := by
  induction B with
  | nil =>
    intro B' h
    cases B' with
    | nil => rfl
    | cons b B' => simp at h
  | cons b B ih =>
    intro B' h
    cases B' with
    | nil => simp at h
    | cons b' B' =>
      simp only [List.map_cons, List.cons.injEq] at h
      simp only [batch_text, h.1, ih B' h.2]

theorem token_fits_congr (B B' : List (List glyph)) (tok : token)
    (h : B'.map (List.map glyph.c) = B.map (List.map glyph.c)) :
    token_fits B' tok = token_fits B tok := by
  have hl := map_length_of_map_c B B' h
  have h1 : B'.length = B.length := by
    have := congrArg List.length hl
    simpa using this
  have h2 : ∀ i, (B'.getD i []).length = (B.getD i []).length := by
    intro i
    have e : ∀ X : List (List glyph), (X.getD i []).length = (X.map List.length).getD i 0 := by
      intro X
      simp only [List.getD_eq_getElem?_getD, List.getElem?_map]
      cases X[i]? <;> rfl
    rw [e, e, hl]
  have h3 : ∀ l c, text_offset B' l c = text_offset B l c := by
    intro l c
    unfold text_offset
    have e : ∀ X : List (List glyph), (X.take l).map (fun ln => ln.length + 1)
        = ((X.map List.length).take l).map (fun n => n + 1) := by
      intro X
      rw [← List.map_take, List.map_map]
      rfl
    rw [e, e, hl]
  unfold token_fits
  rw [h1, h2, h3, batch_text_congr B B' h]

/-- The walk of `colorize` over a token that fits the lines B given to the lexer,
in a document `A ++ B ++ C`: it returns and changes only color classes in B. -/
theorem colorize_span_fits (A B C : List (List glyph)) (tok : token)
    (h : token_fits B tok = true) :
    ∃ B', colorize_span (token_color tok).1 (token_color tok).2 (A ++ B ++ C)
        ((A.length : Int) + (tok.line : Int) - 1) ((tok.column : Int) - 1)
        = .ok (A ++ B' ++ C) ∧
      B'.map (List.map glyph.c) = B.map (List.map glyph.c) := by
  unfold token_fits at h
  rw [decide_eq_true_eq] at h
  obtain ⟨h1, h2, h3, h4, h5⟩ := h
  have hlt : tok.line - 1 < B.length := by omega
  have hl := List.getElem?_eq_getElem hlt
  rw [List.getD_eq_getElem _ _ hlt] at h4
  obtain ⟨P, Q, hB, hPl, hP, _⟩ := exists_split_at B (tok.line - 1) _ hl
  obtain ⟨U, V, hx, hUl, _, _⟩ := exists_line_split _ (tok.column - 1) h4
  rw [hx] at hB
  have hcap : (token_color tok).2 ≤ V.length + 1 + (Q.map (fun line => line.length + 1)).sum := by
    rw [length_batch_text] at h5
    unfold text_offset at h5
    rw [hP] at h5
    rw [hB] at h5
    simp only [List.map_append, List.map_cons, List.sum_append, List.sum_cons,
      List.length_append] at h5
    omega
  obtain ⟨V', Q', h6, h7, h8⟩ := colorize_span_parts (token_color tok).1 A C (token_color tok).2
    P U V Q hcap
  have e1 : (A.length : Int) + (tok.line : Int) - 1 = (A.length : Int) + (P.length : Int) := by
    omega
  have e2 : (tok.column : Int) - 1 = (U.length : Int) := by omega
  refine ⟨P ++ (U ++ V') :: Q', ?_, ?_⟩
  · rw [e1, e2, hB]
    exact h6
  · rw [hB]
    simp [h7, h8]

theorem colorize_tokens_fit (A C : List (List glyph)) (toks : List token) :
    ∀ B : List (List glyph), (∀ tok ∈ toks, token_fits B tok = true) →
      ∃ B', colorize_tokens (A.length : Int) toks (A ++ B ++ C) = .ok (A ++ B' ++ C) ∧
        B'.map (List.map glyph.c) = B.map (List.map glyph.c) := by
  induction toks with
  | nil => intro B _; exact ⟨B, rfl, rfl⟩
  | cons tok toks ih =>
    intro B h
    obtain ⟨B1, h1, h2⟩ := colorize_span_fits A B C tok (h tok (by simp))
    obtain ⟨B2, h3, h4⟩ := ih B1 (by
      intro t ht
      rw [token_fits_congr B B1 t h2]
      exact h t (by simp [ht]))
    refine ⟨B2, ?_, h4.trans h2⟩
    simp only [colorize_tokens, h1, except_bind_ok]
    exact h3

/-! ### One call of `colorize` -/

theorem lex_nil_of_in_bounds (lex : List Char → List token) (hlex : lexer_in_bounds lex) :
    lex [] = [] := by
  cases h : lex [] with
  | nil => rfl
  | cons tok toks =>
    exfalso
    have := hlex [] rfl tok (by
      show tok ∈ lex []
      rw [h]; simp)
    unfold token_fits at this
    rw [decide_eq_true_eq] at this
    simp only [List.length_nil] at this
    omega

theorem newline_free_of_subset (L B : List (List glyph)) (h : ∀ line ∈ B, line ∈ L)
    (hL : newline_free L = true) : newline_free B = true := by
  unfold newline_free at *
  rw [List.all_eq_true] at *
  intro line hl
  exact hL line (h line hl)

/-- The token walk of one call of `colorize`, for a lexer that keeps its contract and
any bound `to` of the input loop: the walk returns, changes no character and no line
before `from`, and no line from `to` on when `to` is not negative. -/
theorem colorize_walk (lex : List Char → List token) (hlex : lexer_in_bounds lex)
    (lines : List (List glyph)) (hnl : newline_free lines = true) (from_ to_ : Int) :
    ∃ L', colorize_tokens from_ (lex (colorize_input lines from_ to_)) lines = .ok L' ∧
      L'.map (List.map glyph.c) = lines.map (List.map glyph.c) ∧
      L'.take from_.toNat = lines.take from_.toNat ∧
      (0 ≤ to_ ∨ from_ < 0 → L'.drop to_.toNat = lines.drop to_.toNat) := by
  generalize ht : (if to_ < 0 then lines.length else to_.toNat) = t
  have hin0 : ∀ b : Nat, from_ = (b : Int) →
      colorize_input lines from_ to_ = batch_text ((lines.take t).drop b) := by
    intro b hb
    unfold colorize_input
    rw [if_neg (by omega), ht, hb]
    simp only [Int.toNat_ofNat]
  by_cases hb : from_ < 0 ∨ (lines.length : Int) ≤ from_ ∨ (t : Int) ≤ from_
  · have hin : colorize_input lines from_ to_ = [] := by
      by_cases h0 : from_ < 0
      · unfold colorize_input
        rw [if_pos h0]
      · rw [hin0 from_.toNat (by omega)]
        have : (lines.take t).drop from_.toNat = [] := by
          apply List.drop_eq_nil_of_le
          rw [List.length_take]
          omega
        rw [this]
        rfl
    rw [hin, lex_nil_of_in_bounds lex hlex]
    exact ⟨lines, rfl, rfl, rfl, fun _ => rfl⟩
  · obtain ⟨b, hbe⟩ : ∃ b : Nat, from_ = (b : Int) := ⟨from_.toNat, by omega⟩
    rw [hin0 b hbe]
    subst hbe
    have hbL : b < lines.length := by omega
    have hbt : b < t := by omega
    have hA : (lines.take b).length = b := by
      rw [List.length_take]; omega
    have hsplit : lines = lines.take b ++ (lines.take t).drop b ++ lines.drop t := by
      have e1 : lines.take b = (lines.take t).take b := by
        rw [List.take_take]
        congr 1
        omega
      rw [e1, List.take_append_drop, List.take_append_drop]
    have hnlB : newline_free ((lines.take t).drop b) = true :=
      newline_free_of_subset lines _
        (fun line hl => List.mem_of_mem_take (List.mem_of_mem_drop hl)) hnl
    obtain ⟨B', h2, h3⟩ := colorize_tokens_fit (lines.take b) (lines.drop t)
      (lex (batch_text ((lines.take t).drop b))) ((lines.take t).drop b)
      (hlex _ hnlB)
    rw [hA, ← hsplit] at h2
    have hlenB : B'.length = ((lines.take t).drop b).length := by
      have := congrArg List.length h3
      simpa using this
    refine ⟨_, h2, ?_, ?_, ?_⟩
    · conv_rhs => rw [hsplit]
      simp only [List.map_append, h3]
    · simp only [Int.toNat_ofNat]
      rw [List.append_assoc]
      exact List.take_left' hA
    · intro h0
      have htt : to_.toNat = t := by
        rw [← ht, if_neg (by omega)]
      rw [htt]
      have hlen : (lines.take b ++ B').length = min t lines.length := by
        rw [List.length_append, hA, hlenB, List.length_drop, List.length_take]
        omega
      by_cases htL : t ≤ lines.length
      · have : (lines.take b ++ B').length = t := by rw [hlen]; omega
        exact List.drop_left' this
      · have e1 : lines.drop t = [] := List.drop_eq_nil_of_le (by omega)
        rw [e1]
        apply List.drop_eq_nil_of_le
        rw [List.append_nil, hlen]
        omega

/-- One call of `colorize` on a pending dirty range, for a lexer that keeps its
contract: the call returns, the batch `[from, to)` with `to = min(from + 1000, end)`,
the sum taken as an `int`, leaves the dirty range, no character changes, no line
before the batch changes, and no line behind it when `to` is not negative. -/
theorem colorize_step (lex : List Char → List token) (hlex : lexer_in_bounds lex)
    (s : code_editor_widget) (hnl : newline_free s._lines = true) (hne : s._lines ≠ [])
    (hlt : s._colorize_line_beg < s._colorize_line_end) :
    ∃ L', s.colorize lex = .ok
        { s with _lines := L'
                 _colorize_line_beg :=
                   if min (int_wrap (s._colorize_line_beg + 1000)) s._colorize_line_end
                      = s._colorize_line_end then 2147483647
                   else min (int_wrap (s._colorize_line_beg + 1000)) s._colorize_line_end
                 _colorize_line_end :=
                   if min (int_wrap (s._colorize_line_beg + 1000)) s._colorize_line_end
                      = s._colorize_line_end then 0
                   else s._colorize_line_end } ∧
      L'.map (List.map glyph.c) = s._lines.map (List.map glyph.c) ∧
      L'.take s._colorize_line_beg.toNat = s._lines.take s._colorize_line_beg.toNat ∧
      (0 ≤ min (int_wrap (s._colorize_line_beg + 1000)) s._colorize_line_end ∨ s._colorize_line_beg < 0 →
        L'.drop (min (int_wrap (s._colorize_line_beg + 1000)) s._colorize_line_end).toNat
          = s._lines.drop (min (int_wrap (s._colorize_line_beg + 1000)) s._colorize_line_end).toNat) := by
  have hE := isEmpty_eq_false_of_ne_nil _ hne
  have hguard : ¬ (s._lines.isEmpty = true ∨ s._colorize_line_beg ≥ s._colorize_line_end) := by
    rw [hE]
    intro h
    rcases h with h | h
    · exact Bool.false_ne_true h
    · omega
  obtain ⟨L', h1, h2, h3, h4⟩ := colorize_walk lex hlex s._lines hnl s._colorize_line_beg
    (min (int_wrap (s._colorize_line_beg + 1000)) s._colorize_line_end)
  refine ⟨L', ?_, h2, h3, h4⟩
  unfold colorize
  rw [if_neg hguard]
  by_cases hc : min (int_wrap (s._colorize_line_beg + 1000)) s._colorize_line_end = s._colorize_line_end
  · simp only [hc, if_true] at h1 ⊢
    simp only [h1, except_bind_ok, except_pure]
  · simp only [hc, if_false] at h1 ⊢
    simp only [h1, except_bind_ok, except_pure]

theorem newline_free_congr (L L' : List (List glyph))
    (h : L'.map (List.map glyph.c) = L.map (List.map glyph.c)) :
    newline_free L' = newline_free L := by
  have e : ∀ X : List (List glyph), newline_free X
      = (X.map (List.map glyph.c)).all (fun cs => cs.all (fun c => decide (c ≠ '\n'))) := by
    intro X
    unfold newline_free
    induction X with
    | nil => rfl
    | cons x X ih =>
      simp only [List.all_cons, List.map_cons, ih]
      congr 1
      induction x with
      | nil => rfl
      | cons g x ihx => simp only [List.all_cons, List.map_cons, ihx]
  rw [e, e, h]

theorem ne_nil_of_map_c (L L' : List (List glyph))
    (h : L'.map (List.map glyph.c) = L.map (List.map glyph.c)) (hne : L ≠ []) : L' ≠ [] := by
  intro h0
  rw [h0] at h
  cases L with
  | nil => exact hne rfl
  | cons a b => simp at h

theorem colorize_idle (lex : List Char → List token) (s : code_editor_widget)
    (h : s._colorize_line_end ≤ s._colorize_line_beg) : s.colorize lex = .ok s := by
  unfold colorize
  rw [if_pos (Or.inr h)]

theorem colorize_repeat_idle (lex : List Char → List token) (k : Nat) :
    ∀ s : code_editor_widget, s._colorize_line_end ≤ s._colorize_line_beg →
      colorize_repeat lex k s = .ok s := by
  induction k with
  | zero => intro s _; rfl
  | succ k ih =>
    intro s h
    simp only [colorize_repeat, colorize_idle lex s h, except_bind_ok]
    exact ih s h

/-- A call of `colorize` returns for a lexer whose tokens lie within its input, on a
document without newline glyphs, whatever the dirty range is. -/
theorem colorize_returns (lex : List Char → List token) (hlex : lexer_in_bounds lex)
    (s : code_editor_widget) (hnl : newline_free s._lines = true) :
    ∃ s', s.colorize lex = .ok s' ∧
      s'._lines.map (List.map glyph.c) = s._lines.map (List.map glyph.c) := by
  by_cases hne : s._lines = []
  · refine ⟨s, ?_, rfl⟩
    unfold colorize
    rw [if_pos (Or.inl (by rw [hne]; rfl))]
  · by_cases hlt : s._colorize_line_beg < s._colorize_line_end
    · obtain ⟨L', h1, h2, _⟩ := colorize_step lex hlex s hnl hne hlt
      exact ⟨_, h1, h2⟩
    · exact ⟨s, colorize_idle lex s (by omega), rfl⟩

/-- Calls of `colorize` in a row return for a lexer whose tokens lie within its
input, on a document without newline glyphs, whatever the dirty range is. -/
theorem colorize_repeat_returns (lex : List Char → List token) (hlex : lexer_in_bounds lex)
    (k : Nat) :
    ∀ s : code_editor_widget, newline_free s._lines = true →
      ∃ s', colorize_repeat lex k s = .ok s' ∧
        s'._lines.map (List.map glyph.c) = s._lines.map (List.map glyph.c) := by
  induction k with
  | zero => intro s _; exact ⟨s, rfl, rfl⟩
  | succ k ih =>
    intro s hnl
    obtain ⟨s1, h1, h2⟩ := colorize_returns lex hlex s hnl
    obtain ⟨s', h3, h4⟩ := ih s1 (by rw [newline_free_congr _ _ h2]; exact hnl)
    refine ⟨s', ?_, h4.trans h2⟩
    simp only [colorize_repeat, h1, except_bind_ok]
    exact h3

/-- Calls of `colorize` in a row, for a lexer that keeps its contract, on a pending
dirty range `[b, e)` whose batches all end within the range of an `int`: k calls move
the begin of the dirty range by 1000 lines each while it stays before the end, and
leave the sentinel from then on. -/
theorem colorize_repeat_range (lex : List Char → List token) (hlex : lexer_in_bounds lex)
    (k : Nat) :
    ∀ s : code_editor_widget, newline_free s._lines = true → s._lines ≠ [] →
      s._colorize_line_beg < s._colorize_line_end →
      -2147483648 ≤ s._colorize_line_beg →
      s._colorize_line_beg
          + 1000 * ((s._colorize_line_end - s._colorize_line_beg + 999) / 1000) ≤ 2147483647 →
      ∃ s', colorize_repeat lex k s = .ok s' ∧
        s'._lines.map (List.map glyph.c) = s._lines.map (List.map glyph.c) ∧
        ((1000 * (k : Int) < s._colorize_line_end - s._colorize_line_beg →
          s'._colorize_line_beg = s._colorize_line_beg + 1000 * (k : Int) ∧
          s'._colorize_line_end = s._colorize_line_end) ∧
        (s._colorize_line_end - s._colorize_line_beg ≤ 1000 * (k : Int) →
          s'._colorize_line_beg = 2147483647 ∧ s'._colorize_line_end = 0)) := by
  induction k with
  | zero =>
    intro s _ _ hlt _ _
    refine ⟨s, rfl, rfl, ?_, ?_⟩
    · intro _; constructor <;> simp
    · intro h; simp at h; omega
  | succ k ih =>
    intro s hnl hne hlt hmin hmax
    obtain ⟨L', h1, h2, _, _⟩ := colorize_step lex hlex s hnl hne hlt
    have hw : int_wrap (s._colorize_line_beg + 1000) = s._colorize_line_beg + 1000 :=
      int_wrap_of_int _ (by omega) (by omega)
    rw [hw] at h1
    by_cases hc : min (s._colorize_line_beg + 1000) s._colorize_line_end = s._colorize_line_end
    · simp only [hc, if_true] at h1
      refine ⟨{ s with _lines := L', _colorize_line_beg := 2147483647, _colorize_line_end := 0 },
        ?_, h2, ?_, ?_⟩
      · simp only [colorize_repeat, h1, except_bind_ok]
        exact colorize_repeat_idle lex k _ (by show (0 : Int) ≤ 2147483647; omega)
      · intro h; push_cast at h; omega
      · intro _; exact ⟨rfl, rfl⟩
    · simp only [hc, if_false] at h1
      have hm : min (s._colorize_line_beg + 1000) s._colorize_line_end
          = s._colorize_line_beg + 1000 := by omega
      rw [hm] at h1
      obtain ⟨s', h3, h4, h5, h6⟩ := ih
        { s with _lines := L', _colorize_line_beg := s._colorize_line_beg + 1000 }
        (by rw [newline_free_congr _ _ h2]; exact hnl) (ne_nil_of_map_c _ _ h2 hne)
        (by show s._colorize_line_beg + 1000 < s._colorize_line_end; omega)
        (by show -2147483648 ≤ s._colorize_line_beg + 1000; omega)
        (by
          show s._colorize_line_beg + 1000
            + 1000 * ((s._colorize_line_end - (s._colorize_line_beg + 1000) + 999) / 1000)
              ≤ 2147483647
          omega)
      refine ⟨s', ?_, h4.trans h2, ?_, ?_⟩
      · simp only [colorize_repeat, h1, except_bind_ok]
        exact h3
      · intro h
        have := h5 (by
          show 1000 * (k : Int) < s._colorize_line_end - (s._colorize_line_beg + 1000)
          push_cast at h; omega)
        simp only at this
        push_cast
        constructor
        · rw [this.1]; ring
        · exact this.2
      · intro h
        exact h6 (by
          show s._colorize_line_end - (s._colorize_line_beg + 1000) ≤ 1000 * (k : Int)
          push_cast at h; omega)

theorem first_character_lexer_in_bounds : lexer_in_bounds first_character_lexer := by
  intro batch hnl tok htok
  cases batch with
  | nil => simp [batch_text, first_character_lexer] at htok
  | cons b B =>
    cases b with
    | nil => simp [batch_text, first_character_lexer] at htok
    | cons g b =>
      have hg : g.c ≠ '\n' := by
        unfold newline_free at hnl
        simp only [List.all_cons, Bool.and_eq_true, decide_eq_true_eq] at hnl
        exact hnl.1.1
      simp only [batch_text, first_character_lexer, List.map_cons, List.cons_append, hg,
        if_false, List.mem_singleton] at htok
      subst htok
      unfold token_fits
      rw [decide_eq_true_eq]
      refine ⟨by decide, by simp, by decide, by simp, ?_⟩
      have hc : (token_color ⟨tokenid.identifier, "", 1, 1, 1⟩).2 = 1 := rfl
      rw [hc, length_batch_text]
      simp [text_offset]
      omega

/-! ### Coloring as a map over the glyphs -/

theorem except_map_ok {α β : Type} (f : α → β) (x : α) :
    (Except.ok x : Except fault α).map f = .ok (f x) := rfl

theorem except_map_error {α β : Type} (f : α → β) (e : fault) :
    (Except.error e : Except fault α).map f = .error e := rfl

theorem vec_at_map {α β : Type} (f : α → β) (v : List α) (i : Int) :
    vec_at (v.map f) i = (vec_at v i).map f := by
  unfold vec_at
  by_cases h : i < 0
  · simp only [h, if_true]; rfl
  · simp only [h, if_false, List.getElem?_map]
    cases v[i.toNat]? <;> rfl

theorem vec_set_map {α β : Type} (f : α → β) (v : List α) (i : Int) (x : α) :
    vec_set (v.map f) i (f x) = (vec_set v i x).map (List.map f) := by
  unfold vec_set
  rw [List.length_map]
  by_cases h : 0 ≤ i ∧ i < (v.length : Int)
  · simp only [h, and_self, if_true]
    rw [except_map_ok, List.map_set]
  · simp only [h, if_false]; rfl

/-- The walk over a token commutes with a map of the glyphs that commutes with the
update of a glyph. -/
theorem paint_span_map {α β : Type} (f : α → β) (pa : α → α) (pb : β → β)
    (hf : ∀ a, f (pa a) = pb (f a)) (n : Nat) :
    ∀ (X : List (List α)) (l c : Int),
      paint_span pb n (X.map (List.map f)) l c
        = (paint_span pa n X l c).map (fun R => R.map (List.map f)) := by
  induction n with
  | zero => intro X l c; rfl
  | succ n ih =>
    intro X l c
    simp only [paint_span]
    rw [vec_at_map]
    cases h1 : vec_at X l with
    | error e => rfl
    | ok line =>
      simp only [except_map_ok, except_bind_ok, List.length_map]
      by_cases hc : c = (line.length : Int)
      · simp only [hc, if_true]
        exact ih X _ _
      · simp only [hc, if_false]
        rw [vec_at_map]
        cases h2 : vec_at line c with
        | error e => rfl
        | ok g =>
          simp only [except_map_ok, except_bind_ok]
          rw [← hf, vec_set_map]
          cases h3 : vec_set line c (pa g) with
          | error e => rfl
          | ok line' =>
            simp only [except_map_ok, except_bind_ok]
            rw [vec_set_map]
            cases h4 : vec_set X l line' with
            | error e => rfl
            | ok X' =>
              simp only [except_map_ok, except_bind_ok]
              exact ih X' _ _

theorem paint_tokens_map {α β : Type} (f : α → β) (pa : color_palette → α → α)
    (pb : color_palette → β → β) (hf : ∀ col a, f (pa col a) = pb col (f a)) (from_ : Int)
    (toks : List token) :
    ∀ X : List (List α),
      paint_tokens pb from_ toks (X.map (List.map f))
        = (paint_tokens pa from_ toks X).map (fun R => R.map (List.map f)) := by
  induction toks with
  | nil => intro X; rfl
  | cons tok toks ih =>
    intro X
    simp only [paint_tokens]
    rw [paint_span_map f (pa (token_color tok).1) (pb (token_color tok).1)
      (hf (token_color tok).1)]
    cases h : paint_span (pa (token_color tok).1) (token_color tok).2 X
        (from_ + (tok.line : Int) - 1) ((tok.column : Int) - 1) with
    | error e => rfl
    | ok X' =>
      simp only [except_map_ok, except_bind_ok]
      exact ih X'

theorem vec_at_mem {α : Type} (v : List α) (i : Int) (x : α) (h : vec_at v i = .ok x) :
    x ∈ v := by
  unfold vec_at at h
  by_cases hi : i < 0
  · simp [hi] at h
  · simp only [hi, if_false] at h
    cases hg : v[i.toNat]? with
    | none => simp [hg] at h
    | some y =>
      simp only [hg, Except.ok.injEq] at h
      subst h
      exact List.mem_iff_getElem?.mpr ⟨_, hg⟩

theorem vec_set_mem {α : Type} (v : List α) (i : Int) (x : α) (v' : List α)
    (h : vec_set v i x = .ok v') : ∀ a ∈ v', a ∈ v ∨ a = x := by
  unfold vec_set at h
  by_cases hi : 0 ≤ i ∧ i < (v.length : Int)
  · simp only [hi, and_self, if_true, Except.ok.injEq] at h
    subst h
    intro a ha
    exact List.mem_or_eq_of_mem_set ha
  · simp [hi] at h

/-- A property of glyphs that the update keeps, and that holds for every glyph of
the lines, holds for every glyph after the walk over a token. -/
theorem paint_span_all {α : Type} (I : α → Prop) (p : α → α) (hI : ∀ a, I a → I (p a))
    (n : Nat) :
    ∀ (X : List (List α)) (l c : Int), (∀ line ∈ X, ∀ a ∈ line, I a) →
      ∀ R, paint_span p n X l c = .ok R → ∀ line ∈ R, ∀ a ∈ line, I a := by
  induction n with
  | zero =>
    intro X l c hX R h
    cases h
    exact hX
  | succ n ih =>
    intro X l c hX
    simp only [paint_span]
    apply bind_ok_imp; intro line h1
    split
    · exact ih X _ _ hX
    · apply bind_ok_imp; intro g h2
      apply bind_ok_imp; intro line' h3
      apply bind_ok_imp; intro X' h4
      apply ih X' _ _
      intro ln hln a ha
      rcases vec_set_mem X l line' X' h4 ln hln with hm | hm
      · exact hX ln hm a ha
      · subst hm
        rcases vec_set_mem line c (p g) _ h3 a ha with hm | hm
        · exact hX line (vec_at_mem X l line h1) a hm
        · subst hm
          exact hI g (hX line (vec_at_mem X l line h1) g (vec_at_mem line c g h2))

theorem paint_tokens_all {α : Type} (I : α → Prop) (p : color_palette → α → α)
    (hI : ∀ col a, I a → I (p col a)) (from_ : Int) (toks : List token) :
    ∀ X : List (List α), (∀ line ∈ X, ∀ a ∈ line, I a) →
      ∀ R, paint_tokens p from_ toks X = .ok R → ∀ line ∈ R, ∀ a ∈ line, I a := by
  induction toks with
  | nil =>
    intro X hX R h
    cases h
    exact hX
  | cons tok toks ih =>
    intro X hX
    simp only [paint_tokens]
    apply bind_ok_imp; intro X' h1
    exact ih X' (paint_span_all I _ (hI _) _ X _ _ hX X' h1)

theorem list_set_self {α : Type} :
    ∀ (v : List α) (n : Nat) (y : α), v[n]? = some y → v.set n y = v := by
  intro v
  induction v with
  | nil => intro n y h; simp at h
  | cons a v ih =>
    intro n y h
    cases n with
    | zero =>
      simp only [List.getElem?_cons_zero, Option.some.injEq] at h
      subst h; rfl
    | succ n =>
      simp only [List.getElem?_cons_succ] at h
      simp only [List.set_cons_succ, ih n y h]

theorem vec_set_self {α : Type} (v : List α) (i : Int) (x : α) (h : vec_at v i = .ok x) :
    vec_set v i x = .ok v := by
  have hb := vec_at_bounds v i x h
  unfold vec_at at h
  have hi : ¬ i < 0 := by omega
  simp only [hi, if_false] at h
  cases hg : v[i.toNat]? with
  | none => simp [hg] at h
  | some y =>
    simp only [hg, Except.ok.injEq] at h
    subst h
    unfold vec_set
    rw [if_pos hb]
    rw [list_set_self v _ _ hg]

theorem paint_span_id {α : Type} (n : Nat) :
    ∀ (X : List (List α)) (l c : Int) (R : List (List α)),
      paint_span (fun a => a) n X l c = .ok R → R = X := by
  induction n with
  | zero => intro X l c R h; cases h; rfl
  | succ n ih =>
    intro X l c
    simp only [paint_span]
    apply bind_ok_imp; intro line h1
    split
    · exact ih X _ _
    · apply bind_ok_imp; intro g h2
      rw [vec_set_self line c g h2]
      simp only [except_bind_ok]
      rw [vec_set_self X l line h1]
      simp only [except_bind_ok]
      exact ih X _ _

theorem paint_tokens_id {α : Type} (from_ : Int) (toks : List token) :
    ∀ (X R : List (List α)), paint_tokens (fun _ a => a) from_ toks X = .ok R → R = X := by
  induction toks with
  | nil => intro X R h; cases h; rfl
  | cons tok toks ih =>
    intro X
    simp only [paint_tokens]
    apply bind_ok_imp; intro X' h1
    rw [paint_span_id _ X _ _ X' h1]
    exact ih X

theorem colorize_span_eq_paint (col : color_palette) (n : Nat) :
    ∀ (X : List (List glyph)) (l c : Int),
      colorize_span col n X l c = paint_span (fun g => { g with col := col }) n X l c := by
  induction n with
  | zero => intro X l c; rfl
  | succ n ih =>
    intro X l c
    simp only [colorize_span, paint_span, ih]

theorem colorize_tokens_eq_paint (from_ : Int) (toks : List token) :
    ∀ X : List (List glyph),
      colorize_tokens from_ toks X
        = paint_tokens (fun col g => { g with col := col }) from_ toks X := by
  induction toks with
  | nil => intro X; rfl
  | cons tok toks ih =>
    intro X
    simp only [colorize_tokens, paint_tokens, ih, colorize_span_eq_paint]

/-- The loop of `colorize` over the tokens changes no character. -/
theorem colorize_tokens_chars (from_ : Int) (toks : List token) (X R : List (List glyph))
    (h : colorize_tokens from_ toks X = .ok R) :
    R.map (List.map glyph.c) = X.map (List.map glyph.c) := by
  rw [colorize_tokens_eq_paint] at h
  have key := paint_tokens_map glyph.c (fun col g => { g with col := col }) (fun _ c => c)
    (fun _ _ => rfl) from_ toks X
  rw [h, except_map_ok] at key
  exact (paint_tokens_id from_ toks _ _ key).symm ▸ rfl

theorem colorize_input_congr (L L' : List (List glyph)) (from_ to_ : Int)
    (h : L'.map (List.map glyph.c) = L.map (List.map glyph.c)) :
    colorize_input L' from_ to_ = colorize_input L from_ to_ := by
  have hlen : L'.length = L.length := by
    have := congrArg List.length h
    simpa using this
  unfold colorize_input
  rw [hlen]
  split
  · rfl
  · apply batch_text_congr
    rw [List.map_drop, List.map_take, List.map_drop, List.map_take, h]

/-- What a call of `colorize` that returns leaves as it was: every field but the
lines and the dirty range, every character, and the dirty range is set without
regard to the lines. -/
theorem colorize_frame (lex : List Char → List token) (s s' : code_editor_widget)
    (h : s.colorize lex = .ok s') :
    s' = { s with _lines := s'._lines, _colorize_line_beg := s'._colorize_line_beg,
                  _colorize_line_end := s'._colorize_line_end } ∧
    s'._lines.map (List.map glyph.c) = s._lines.map (List.map glyph.c) := by
  unfold colorize at h
  split at h
  · cases h
    exact ⟨rfl, rfl⟩
  · revert h
    simp only
    apply bind_ok_imp; intro L' h1
    apply pure_imp
    refine ⟨?_, ?_⟩
    · split <;> rfl
    · have := colorize_tokens_chars _ _ _ _ h1
      revert this
      split <;> exact fun h => h

/-! ### Two passes of `colorize` side by side -/

/-- Two runs of the loop of `colorize` over the same tokens, on lines that hold the
same characters: the lines are the second and the third components of lines Z of
triples of glyphs.  If the first run returns, so does the second; the first
components stay as they are, and wherever the two runs leave glyphs of different
color classes, the second run has left the glyph as it was. -/
theorem colorize_tokens_parallel (from_ : Int) (toks : List token)
    (Z : List (List (glyph × glyph × glyph))) (R : List (List glyph))
    (h : colorize_tokens from_ toks (Z.map (List.map (fun q => q.2.1))) = .ok R)
    (hJ : ∀ zl ∈ Z, ∀ q ∈ zl, q.2.1.c = q.2.2.c ∧ (q.2.1.col = q.2.2.col ∨ q.2.2 = q.1)) :
    ∃ Z' : List (List (glyph × glyph × glyph)),
      R = Z'.map (List.map (fun q => q.2.1)) ∧
      colorize_tokens from_ toks (Z.map (List.map (fun q => q.2.2)))
        = .ok (Z'.map (List.map (fun q => q.2.2))) ∧
      Z'.map (List.map (fun q => q.1)) = Z.map (List.map (fun q => q.1)) ∧
      ∀ zl ∈ Z', ∀ q ∈ zl, q.2.1.c = q.2.2.c ∧ (q.2.1.col = q.2.2.col ∨ q.2.2 = q.1) := by
  rw [colorize_tokens_eq_paint] at h
  have k1 := paint_tokens_map (fun q : glyph × glyph × glyph => q.2.1)
    (fun col q => (q.1, { q.2.1 with col := col }, { q.2.2 with col := col }))
    (fun col g => { g with col := col }) (fun _ _ => rfl) from_ toks Z
  have k2 := paint_tokens_map (fun q : glyph × glyph × glyph => q.2.2)
    (fun col q => (q.1, { q.2.1 with col := col }, { q.2.2 with col := col }))
    (fun col g => { g with col := col }) (fun _ _ => rfl) from_ toks Z
  have k3 := paint_tokens_map (fun q : glyph × glyph × glyph => q.1)
    (fun col q => (q.1, { q.2.1 with col := col }, { q.2.2 with col := col }))
    (fun _ g => g) (fun _ _ => rfl) from_ toks Z
  cases hz : paint_tokens
      (fun col (q : glyph × glyph × glyph) =>
        (q.1, { q.2.1 with col := col }, { q.2.2 with col := col })) from_ toks Z with
  | error e =>
    rw [hz, except_map_error] at k1
    rw [k1] at h
    cases h
  | ok Z' =>
    rw [hz, except_map_ok] at k1 k2 k3
    rw [k1] at h
    cases h
    refine ⟨Z', rfl, ?_, paint_tokens_id from_ toks _ _ k3, ?_⟩
    · rw [colorize_tokens_eq_paint]
      exact k2
    · refine paint_tokens_all
        (fun q : glyph × glyph × glyph =>
          q.2.1.c = q.2.2.c ∧ (q.2.1.col = q.2.2.col ∨ q.2.2 = q.1))
        _ ?_ from_ toks Z hJ Z' hz
      intro col q hq
      exact ⟨hq.1, Or.inl rfl⟩

theorem map_c_of_agree (Z : List (List (glyph × glyph × glyph)))
    (hJ : ∀ zl ∈ Z, ∀ q ∈ zl, q.2.1.c = q.2.2.c ∧ (q.2.1.col = q.2.2.col ∨ q.2.2 = q.1)) :
    (Z.map (List.map (fun q => q.2.2))).map (List.map glyph.c)
      = (Z.map (List.map (fun q => q.2.1))).map (List.map glyph.c) := by
  rw [List.map_map, List.map_map]
  apply List.map_congr_left
  intro zl hzl
  simp only [Function.comp, List.map_map]
  apply List.map_congr_left
  intro q hq
  exact (hJ zl hzl q hq).1.symm

theorem isEmpty_map {α β : Type} (f : α → β) (l : List α) : (l.map f).isEmpty = l.isEmpty := by
  cases l <;> rfl

/-- One call of `colorize` on two states that differ in the color classes of their
lines only, see `colorize_tokens_parallel`. -/
theorem colorize_parallel (lex : List Char → List token) (s s' : code_editor_widget)
    (Z : List (List (glyph × glyph × glyph)))
    (hs : s._lines = Z.map (List.map (fun q => q.2.1)))
    (hJ : ∀ zl ∈ Z, ∀ q ∈ zl, q.2.1.c = q.2.2.c ∧ (q.2.1.col = q.2.2.col ∨ q.2.2 = q.1))
    (h : s.colorize lex = .ok s') :
    ∃ Z' : List (List (glyph × glyph × glyph)),
      s'._lines = Z'.map (List.map (fun q => q.2.1)) ∧
      code_editor_widget.colorize lex { s with _lines := Z.map (List.map (fun q => q.2.2)) }
        = .ok { s' with _lines := Z'.map (List.map (fun q => q.2.2)) } ∧
      Z'.map (List.map (fun q => q.1)) = Z.map (List.map (fun q => q.1)) ∧
      ∀ zl ∈ Z', ∀ q ∈ zl, q.2.1.c = q.2.2.c ∧ (q.2.1.col = q.2.2.col ∨ q.2.2 = q.1) := by
  have hE : (Z.map (List.map (fun q : glyph × glyph × glyph => q.2.2))).isEmpty
      = s._lines.isEmpty := by
    rw [hs, isEmpty_map, isEmpty_map]
  have hin : ∀ a b, colorize_input (Z.map (List.map (fun q => q.2.2))) a b
      = colorize_input s._lines a b := by
    intro a b
    apply colorize_input_congr
    rw [hs]
    exact map_c_of_agree Z hJ
  unfold colorize at h ⊢
  simp only [hE, hin]
  by_cases hg : s._lines.isEmpty = true ∨ s._colorize_line_beg ≥ s._colorize_line_end
  · rw [if_pos hg] at h ⊢
    cases h
    exact ⟨Z, hs, rfl, rfl, hJ⟩
  · rw [if_neg hg] at h ⊢
    simp only at h ⊢
    by_cases hc : min (int_wrap (s._colorize_line_beg + 1000)) s._colorize_line_end = s._colorize_line_end
    · simp only [hc, if_true] at h ⊢
      rw [hs] at h
      cases ht : colorize_tokens s._colorize_line_beg
          (lex (colorize_input (Z.map (List.map (fun q => q.2.1))) s._colorize_line_beg
            s._colorize_line_end)) (Z.map (List.map (fun q => q.2.1))) with
      | error e => rw [ht] at h; cases h
      | ok R =>
        rw [ht] at h
        cases h
        obtain ⟨Z', h1, h2, h3, h4⟩ := colorize_tokens_parallel _ _ Z R ht hJ
        refine ⟨Z', h1, ?_, h3, h4⟩
        rw [hin, hs, h2]
        rfl
    · simp only [hc, if_false] at h ⊢
      rw [hs] at h
      cases ht : colorize_tokens s._colorize_line_beg
          (lex (colorize_input (Z.map (List.map (fun q => q.2.1))) s._colorize_line_beg
            (min (int_wrap (s._colorize_line_beg + 1000)) s._colorize_line_end)))
          (Z.map (List.map (fun q => q.2.1))) with
      | error e => rw [ht] at h; cases h
      | ok R =>
        rw [ht] at h
        cases h
        obtain ⟨Z', h1, h2, h3, h4⟩ := colorize_tokens_parallel _ _ Z R ht hJ
        refine ⟨Z', h1, ?_, h3, h4⟩
        rw [hin, hs, h2]
        rfl

theorem colorize_repeat_frame (lex : List Char → List token) (k : Nat) :
    ∀ s s' : code_editor_widget, colorize_repeat lex k s = .ok s' →
      s' = { s with _lines := s'._lines, _colorize_line_beg := s'._colorize_line_beg,
                    _colorize_line_end := s'._colorize_line_end } ∧
      s'._lines.map (List.map glyph.c) = s._lines.map (List.map glyph.c) := by
  induction k with
  | zero => intro s s' h; cases h; exact ⟨rfl, rfl⟩
  | succ k ih =>
    intro s
    simp only [colorize_repeat]
    apply bind_ok_imp; intro s1 h1 s' h2
    obtain ⟨f1, c1⟩ := colorize_frame lex s s1 h1
    obtain ⟨f2, c2⟩ := ih s1 s' h2
    refine ⟨?_, c2.trans c1⟩
    rw [f2, f1]

theorem colorize_repeat_parallel (lex : List Char → List token) (k : Nat) :
    ∀ (s s' : code_editor_widget) (Z : List (List (glyph × glyph × glyph))),
      s._lines = Z.map (List.map (fun q => q.2.1)) →
      (∀ zl ∈ Z, ∀ q ∈ zl, q.2.1.c = q.2.2.c ∧ (q.2.1.col = q.2.2.col ∨ q.2.2 = q.1)) →
      colorize_repeat lex k s = .ok s' →
      ∃ Z' : List (List (glyph × glyph × glyph)),
        s'._lines = Z'.map (List.map (fun q => q.2.1)) ∧
        colorize_repeat lex k { s with _lines := Z.map (List.map (fun q => q.2.2)) }
          = .ok { s' with _lines := Z'.map (List.map (fun q => q.2.2)) } ∧
        Z'.map (List.map (fun q => q.1)) = Z.map (List.map (fun q => q.1)) ∧
        ∀ zl ∈ Z', ∀ q ∈ zl,
          q.2.1.c = q.2.2.c ∧ (q.2.1.col = q.2.2.col ∨ q.2.2 = q.1) := by
  induction k with
  | zero =>
    intro s s' Z hs hJ h
    cases h
    exact ⟨Z, hs, rfl, rfl, hJ⟩
  | succ k ih =>
    intro s s' Z hs hJ h
    simp only [colorize_repeat] at h ⊢
    cases h1 : s.colorize lex with
    | error e => rw [h1] at h; cases h
    | ok s1 =>
      rw [h1, except_bind_ok] at h
      obtain ⟨Z1, a1, a2, a3, a4⟩ := colorize_parallel lex s s1 Z hs hJ h1
      obtain ⟨Z2, b1, b2, b3, b4⟩ := ih s1 s' Z1 a1 a4 h
      refine ⟨Z2, b1, ?_, b3.trans a3, b4⟩
      rw [a2, except_bind_ok]
      exact b2

theorem zip_line (l : List glyph) :
    ∀ l1 : List glyph, l1.map glyph.c = l.map glyph.c →
      ∃ z : List (glyph × glyph × glyph),
        z.map (fun q => q.2.1) = l ∧ z.map (fun q => q.2.2) = l1 ∧
        z.map (fun q => q.1) = l1 ∧
        ∀ q ∈ z, q.2.1.c = q.2.2.c ∧ (q.2.1.col = q.2.2.col ∨ q.2.2 = q.1) := by
  induction l with
  | nil =>
    intro l1 h
    cases l1 with
    | nil => exact ⟨[], rfl, rfl, rfl, by simp⟩
    | cons a b => simp at h
  | cons g l ih =>
    intro l1 h
    cases l1 with
    | nil => simp at h
    | cons g1 l1 =>
      simp only [List.map_cons, List.cons.injEq] at h
      obtain ⟨z, h1, h2, h3, h4⟩ := ih l1 h.2
      refine ⟨(g1, g, g1) :: z, by simp [h1], by simp [h2], by simp [h3], ?_⟩
      intro q hq
      rcases List.mem_cons.mp hq with hq | hq
      · subst hq
        exact ⟨h.1.symm, Or.inr rfl⟩
      · exact h4 q hq

theorem zip_lines (L : List (List glyph)) :
    ∀ L1 : List (List glyph), L1.map (List.map glyph.c) = L.map (List.map glyph.c) →
      ∃ Z : List (List (glyph × glyph × glyph)),
        Z.map (List.map (fun q => q.2.1)) = L ∧ Z.map (List.map (fun q => q.2.2)) = L1 ∧
        Z.map (List.map (fun q => q.1)) = L1 ∧
        ∀ zl ∈ Z, ∀ q ∈ zl, q.2.1.c = q.2.2.c ∧ (q.2.1.col = q.2.2.col ∨ q.2.2 = q.1) := by
  induction L with
  | nil =>
    intro L1 h
    cases L1 with
    | nil => exact ⟨[], rfl, rfl, rfl, by simp⟩
    | cons a b => simp at h
  | cons l L ih =>
    intro L1 h
    cases L1 with
    | nil => simp at h
    | cons l1 L1 =>
      simp only [List.map_cons, List.cons.injEq] at h
      obtain ⟨z, a1, a2, a3, a4⟩ := zip_line l l1 h.1
      obtain ⟨Z, h1, h2, h3, h4⟩ := ih L1 h.2
      refine ⟨z :: Z, by simp [a1, h1], by simp [a2, h2], by simp [a3, h3], ?_⟩
      intro zl hzl
      rcases List.mem_cons.mp hzl with hzl | hzl
      · subst hzl; exact a4
      · exact h4 zl hzl

/-- Lines of triples whose first and second components are the same lines, and whose
third component is, glyph by glyph, the second one where their color classes differ:
the third components are these lines too. -/
theorem third_eq_second (Z : List (List (glyph × glyph × glyph)))
    (h : Z.map (List.map (fun q => q.2.1)) = Z.map (List.map (fun q => q.1)))
    (hJ : ∀ zl ∈ Z, ∀ q ∈ zl, q.2.1.c = q.2.2.c ∧ (q.2.1.col = q.2.2.col ∨ q.2.2 = q.1)) :
    Z.map (List.map (fun q => q.2.2)) = Z.map (List.map (fun q => q.2.1)) := by
  apply List.map_congr_left
  intro zl hzl
  have h1 := List.map_inj_left.mp h zl hzl
  apply List.map_congr_left
  intro q hq
  have h2 := List.map_inj_left.mp h1 q hq
  simp only at h2
  obtain ⟨hc, hcol⟩ := hJ zl hzl q hq
  rcases hcol with hcol | hcol
  · cases hx : q.2.1 with
    | mk c1 col1 =>
      cases hy : q.2.2 with
      | mk c2 col2 =>
        rw [hx, hy] at hc hcol
        simp only at hc hcol
        rw [hc, hcol]
  · rw [hcol, h2]

/-! ### Coloring twice -/

/-- C27: for every lexer, a function of the input text, every document and every
number k of calls: if k calls of `colorize` on the document with the whole document
dirty return a state, then k calls on that state with the whole document dirty again
return that same state, so that every glyph has the color class it had after the
first pass; and for a lexer whose tokens lie within its input, on a document without
newline glyphs, the pass of one call for every 1000 lines returns, with the dirty
range at the sentinel when the document has at most 2147483000 lines, so that the
end of every batch is an `int`. -/
theorem colorize_idempotent (lex : List Char → List token) (s : code_editor_widget) :
    (∀ (k : Nat) (s1 : code_editor_widget),
      colorize_repeat lex k (whole_document_dirty s) = .ok s1 →
      colorize_repeat lex k (whole_document_dirty s1) = .ok s1) ∧
    (lexer_in_bounds lex → newline_free s._lines = true → s._lines ≠ [] →
      ∃ s1, colorize_repeat lex ((s._lines.length + 999) / 1000) (whole_document_dirty s)
          = .ok s1 ∧
        (s._lines.length ≤ 2147483000 →
          s1._colorize_line_beg = 2147483647 ∧ s1._colorize_line_end = 0)) := by
  constructor
  · intro k s1 h
    obtain ⟨hf, hc⟩ := colorize_repeat_frame lex k _ s1 h
    have hlen : s1._lines.length = s._lines.length := by
      have := congrArg List.length hc
      simpa [whole_document_dirty] using this
    obtain ⟨Z, z1, z2, z3, z4⟩ := zip_lines s._lines s1._lines hc
    obtain ⟨Z', a1, a2, a3, a4⟩ := colorize_repeat_parallel lex k (whole_document_dirty s) s1 Z
      z1.symm z4 h
    have hthird : Z'.map (List.map (fun q => q.2.2)) = s1._lines := by
      rw [third_eq_second Z' (by rw [← a1, a3, z3]) a4, ← a1]
    rw [hthird, z2] at a2
    have e1 : whole_document_dirty s1
        = { whole_document_dirty s with _lines := s1._lines } := by
      unfold whole_document_dirty
      rw [hlen]
      conv_lhs => rw [hf]
      rfl
    rw [e1]
    exact a2
  · intro hlex hnl hne
    have hpos : 0 < s._lines.length := List.length_pos.mpr hne
    by_cases hbig : s._lines.length ≤ 2147483000
    · obtain ⟨s1, h1, _, _, h4⟩ := colorize_repeat_range lex hlex
        ((s._lines.length + 999) / 1000) (whole_document_dirty s) hnl hne
        (by
          show (0 : Int) < (s._lines.length : Int)
          omega)
        (by
          show (-2147483648 : Int) ≤ 0
          omega)
        (by
          show (0 : Int) + 1000 * (((s._lines.length : Int) - 0 + 999) / 1000) ≤ 2147483647
          omega)
      refine ⟨s1, h1, fun _ => ?_⟩
      apply h4
      show (s._lines.length : Int) - 0 ≤ 1000 * (((s._lines.length + 999) / 1000 : Nat) : Int)
      omega
    · obtain ⟨s1, h1, _⟩ := colorize_repeat_returns lex hlex
        ((s._lines.length + 999) / 1000) (whole_document_dirty s) hnl
      exact ⟨s1, h1, fun h => absurd h hbig⟩

theorem colorize_idempotent_witness :
    code_editor_widget.colorize first_character_lexer
        { code_editor_widget.create with
          _lines := [⟨'a', color_palette.color_identifier⟩ ::
            glyphs "b", glyphs "cd"],
          _colorize_line_beg := 0, _colorize_line_end := 2 }
      = .ok { code_editor_widget.create with
          _lines := [⟨'a', color_palette.color_identifier⟩ ::
            glyphs "b", glyphs "cd"] } := by
  have h := (colorize_idempotent first_character_lexer
    { code_editor_widget.create with _lines := [glyphs "ab", glyphs "cd"] }).1 1
    { code_editor_widget.create with
      _lines := [⟨'a', color_palette.color_identifier⟩ :: glyphs "b", glyphs "cd"] } rfl
  exact h

theorem colorize_range_of_ok (lex : List Char → List token) (s s' : code_editor_widget)
    (hne : s._lines ≠ []) (hlt : s._colorize_line_beg < s._colorize_line_end)
    (h : s.colorize lex = .ok s') :
    s'._colorize_line_beg =
      (if min (int_wrap (s._colorize_line_beg + 1000)) s._colorize_line_end = s._colorize_line_end
        then 2147483647 else min (int_wrap (s._colorize_line_beg + 1000)) s._colorize_line_end) ∧
    s'._colorize_line_end =
      (if min (int_wrap (s._colorize_line_beg + 1000)) s._colorize_line_end = s._colorize_line_end
        then 0 else s._colorize_line_end) := by
  have hguard : ¬ (s._lines.isEmpty = true ∨ s._colorize_line_beg ≥ s._colorize_line_end) := by
    rw [isEmpty_eq_false_of_ne_nil _ hne]
    intro h
    rcases h with h | h
    · exact Bool.false_ne_true h
    · omega
  unfold colorize at h
  rw [if_neg hguard] at h
  revert h
  simp only
  apply bind_ok_imp; intro L' _
  apply pure_imp
  split <;> exact ⟨rfl, rfl⟩

/-! ### The batches of `colorize` -/

theorem newline_free_replicate (n : Nat) (line : List glyph)
    (h : line.all (fun g => decide (g.c ≠ '\n')) = true) :
    newline_free (List.replicate n line) = true := by
  unfold newline_free
  rw [List.all_eq_true]
  intro x hx
  rw [List.eq_of_mem_replicate hx]
  exact h

/-- C26 fails for a dirty range that begins within 1000 of the largest `int`: with the
dirty range `[2147483000, 2147483647)`, where `e - b = 647`, a call of `colorize` does
not leave the sentinel but the dirty range `[-2147483296, 2147483647)`, because the
sum `from + 1000` is an `int`. -/
theorem colorize_wraps_behind_largest_int :
    ∃ s', code_editor_widget.colorize first_character_lexer
        { code_editor_widget.create with
          _lines := [glyphs "ab"],
          _colorize_line_beg := 2147483000, _colorize_line_end := 2147483647 } = .ok s' ∧
      s'._colorize_line_beg = -2147483296 ∧ s'._colorize_line_end = 2147483647 ∧
      s'._lines = [glyphs "ab"] :=
  ⟨_, rfl, rfl, rfl, rfl⟩

/-- C26, amended: a call of `colorize` with nothing pending (`b >= e`) changes nothing.
With a pending dirty range `[b, e)` whose begin b is an `int` with `b + 1000` at most
the largest `int`, on a document that has a line, a call that returns leaves the dirty
range `[b + 1000, e)` if `e - b > 1000` and the sentinel `(2147483647, 0)` otherwise,
and changes no character; for a lexer whose tokens lie within its input, on a document
without newline glyphs, the call returns and changes no line outside
`[b, min(b + 1000, e))`.  If moreover the end of the last batch,
`b + 1000 ceil((e - b) / 1000)`, is at most the largest `int`, then k calls in a row
leave the dirty range `[b + 1000 k, e)` while `1000 k < e - b` and the sentinel from
then on. -/
theorem colorize_batches (lex : List Char → List token) (s : code_editor_widget) :
    (s._colorize_line_end ≤ s._colorize_line_beg → s.colorize lex = .ok s) ∧
    (s._lines ≠ [] → s._colorize_line_beg < s._colorize_line_end →
      -2147483648 ≤ s._colorize_line_beg → s._colorize_line_beg + 1000 ≤ 2147483647 →
      ∀ s', s.colorize lex = .ok s' →
        (s._colorize_line_end - s._colorize_line_beg > 1000 →
          s'._colorize_line_beg = s._colorize_line_beg + 1000 ∧
          s'._colorize_line_end = s._colorize_line_end) ∧
        (s._colorize_line_end - s._colorize_line_beg ≤ 1000 →
          s'._colorize_line_beg = 2147483647 ∧ s'._colorize_line_end = 0) ∧
        s'._lines.map (List.map glyph.c) = s._lines.map (List.map glyph.c)) ∧
    (lexer_in_bounds lex → newline_free s._lines = true → s._lines ≠ [] →
      s._colorize_line_beg < s._colorize_line_end → -2147483648 ≤ s._colorize_line_beg →
      (s._colorize_line_beg + 1000 ≤ 2147483647 →
        ∃ s', s.colorize lex = .ok s' ∧
          ∀ i : Nat, ((i : Int) < s._colorize_line_beg ∨
              min (s._colorize_line_beg + 1000) s._colorize_line_end ≤ (i : Int)) →
            s'._lines[i]? = s._lines[i]?) ∧
      (s._colorize_line_beg
          + 1000 * ((s._colorize_line_end - s._colorize_line_beg + 999) / 1000) ≤ 2147483647 →
        ∀ k : Nat, ∃ s', colorize_repeat lex k s = .ok s' ∧
          (1000 * (k : Int) < s._colorize_line_end - s._colorize_line_beg →
            s'._colorize_line_beg = s._colorize_line_beg + 1000 * (k : Int) ∧
            s'._colorize_line_end = s._colorize_line_end) ∧
          (s._colorize_line_end - s._colorize_line_beg ≤ 1000 * (k : Int) →
            s'._colorize_line_beg = 2147483647 ∧ s'._colorize_line_end = 0))) := by
  refine ⟨colorize_idle lex s, ?_, ?_⟩
  · intro hne hlt hmin hmax s' h
    obtain ⟨r1, r2⟩ := colorize_range_of_ok lex s s' hne hlt h
    rw [int_wrap_of_int _ (by omega) hmax] at r1 r2
    refine ⟨?_, ?_, (colorize_frame lex s s' h).2⟩
    · intro hgt
      have hc : ¬ (min (s._colorize_line_beg + 1000) s._colorize_line_end
          = s._colorize_line_end) := by omega
      rw [if_neg hc] at r1 r2
      exact ⟨by rw [r1]; omega, r2⟩
    · intro hle
      have hc : min (s._colorize_line_beg + 1000) s._colorize_line_end
          = s._colorize_line_end := by omega
      rw [if_pos hc] at r1 r2
      exact ⟨r1, r2⟩
  · intro hlex hnl hne hlt hmin
    constructor
    · intro hmax
      obtain ⟨L', h1, _, h3, h4⟩ := colorize_step lex hlex s hnl hne hlt
      rw [int_wrap_of_int _ (by omega) hmax] at h4
      refine ⟨_, h1, ?_⟩
      intro i hi
      show L'[i]? = s._lines[i]?
      rcases hi with hi | hi
      · have hlt' : i < s._colorize_line_beg.toNat := by omega
        have e1 := congrArg (fun X : List (List glyph) => X[i]?) h3
        simp only [List.getElem?_take, hlt', if_true] at e1
        exact e1
      · have e1 := congrArg
          (fun X : List (List glyph) =>
            X[i - (min (s._colorize_line_beg + 1000) s._colorize_line_end).toNat]?)
          (h4 (by
            by_cases hb0 : s._colorize_line_beg < 0
            · exact Or.inr hb0
            · exact Or.inl (by omega)))
        simp only [List.getElem?_drop] at e1
        have e2 : (min (s._colorize_line_beg + 1000) s._colorize_line_end).toNat
            + (i - (min (s._colorize_line_beg + 1000) s._colorize_line_end).toNat) = i := by
          omega
        rw [e2] at e1
        exact e1
    · intro hmax k
      obtain ⟨s', h1, _, h3, h4⟩ := colorize_repeat_range lex hlex k s hnl hne hlt hmin hmax
      exact ⟨s', h1, h3, h4⟩

theorem colorize_batches_witness :
    (∃ s1, code_editor_widget.colorize first_character_lexer
        { code_editor_widget.create with
          _lines := List.replicate 1500 (glyphs "a"),
          _colorize_line_beg := 0, _colorize_line_end := 1500 } = .ok s1 ∧
      ∀ i : Nat, 1000 ≤ i → s1._lines[i]? = (List.replicate 1500 (glyphs "a"))[i]?) ∧
    (∃ s1, colorize_repeat first_character_lexer 1
        { code_editor_widget.create with
          _lines := List.replicate 1500 (glyphs "a"),
          _colorize_line_beg := 0, _colorize_line_end := 1500 } = .ok s1 ∧
      s1._colorize_line_beg = 1000 ∧ s1._colorize_line_end = 1500) ∧
    (∃ s2, colorize_repeat first_character_lexer 2
        { code_editor_widget.create with
          _lines := List.replicate 1500 (glyphs "a"),
          _colorize_line_beg := 0, _colorize_line_end := 1500 } = .ok s2 ∧
      s2._colorize_line_beg = 2147483647 ∧ s2._colorize_line_end = 0) := by
  have h := (colorize_batches first_character_lexer
      { code_editor_widget.create with
        _lines := List.replicate 1500 (glyphs "a"),
        _colorize_line_beg := 0, _colorize_line_end := 1500 }).2.2
    first_character_lexer_in_bounds (newline_free_replicate 1500 (glyphs "a") (by decide))
    (List.ne_nil_of_length_pos (by rw [List.length_replicate]; decide)) (by decide) (by decide)
  refine ⟨?_, ?_, ?_⟩
  · obtain ⟨s1, h1, h2⟩ := h.1 (by decide)
    exact ⟨s1, h1, fun i hi => h2 i (Or.inr (by
      show min ((0 : Int) + 1000) 1500 ≤ (i : Int)
      omega))⟩
  · obtain ⟨s1, h1, h2, _⟩ := h.2 (by decide) 1
    exact ⟨s1, h1, h2 (by decide)⟩
  · obtain ⟨s2, h1, _, h3⟩ := h.2 (by decide) 2
    exact ⟨s2, h1, h3 (by decide)⟩

/-! ### What `colorize` leaves as it was -/

theorem lines_tail_text_congr (L : List (List glyph)) :
    ∀ L' : List (List glyph), L'.map (List.map glyph.c) = L.map (List.map glyph.c) →
      lines_tail_text L' = lines_tail_text L := by
  induction L with
  | nil =>
    intro L' h
    cases L' with
    | nil => rfl
    | cons b B => simp at h
  | cons l L ih =>
    intro L' h
    cases L' with
    | nil => simp at h
    | cons l' L' =>
      simp only [List.map_cons, List.cons.injEq] at h
      simp only [lines_tail_text, h.1, ih L' h.2]

theorem lines_text_congr (L L' : List (List glyph))
    (h : L'.map (List.map glyph.c) = L.map (List.map glyph.c)) :
    lines_text L' = lines_text L := by
  cases L with
  | nil =>
    cases L' with
    | nil => rfl
    | cons b B => simp at h
  | cons l L =>
    cases L' with
    | nil => simp at h
    | cons l' L' =>
      simp only [List.map_cons, List.cons.injEq] at h
      simp only [lines_text, h.1, lines_tail_text_congr L L' h.2]

/-- C31: for every lexer, hence every sequence of tokens, every document and every
dirty range, a call of `colorize` that returns leaves the number of lines, the length
of every line, the character of every glyph, the text of `get_text()`, the error
markers, the cursor and the selection as they were; and the call returns for a lexer
whose tokens lie within its input, on a document without newline glyphs. -/
theorem colorize_rewrites_colors_only (lex : List Char → List token)
    (s : code_editor_widget) :
    (∀ s', s.colorize lex = .ok s' →
      s'._lines.length = s._lines.length ∧
      s'._lines.map List.length = s._lines.map List.length ∧
      s'._lines.map (List.map glyph.c) = s._lines.map (List.map glyph.c) ∧
      s'.get_text = s.get_text ∧
      s'._errors = s._errors ∧ s'._cursor_pos = s._cursor_pos ∧
      s'._select_beg = s._select_beg ∧ s'._select_end = s._select_end) ∧
    (lexer_in_bounds lex → newline_free s._lines = true → ∃ s', s.colorize lex = .ok s') := by
  refine ⟨?_, fun hlex hnl => (colorize_returns lex hlex s hnl).imp (fun _ h => h.1)⟩
  intro s' h
  obtain ⟨hf, hc⟩ := colorize_frame lex s s' h
  have hl := map_length_of_map_c s._lines s'._lines hc
  refine ⟨?_, hl, hc, ?_, ?_, ?_, ?_, ?_⟩
  · have := congrArg List.length hl
    simpa using this
  · rw [get_text_eq_lines_text, get_text_eq_lines_text, lines_text_congr _ _ hc]
  · rw [hf]
  · rw [hf]
  · rw [hf]
  · rw [hf]

theorem colorize_rewrites_colors_only_witness :
    ∃ s', code_editor_widget.colorize first_character_lexer
        { code_editor_widget.create with
          _lines := [glyphs "ab", glyphs "cd"], _cursor_pos := ⟨1, 1⟩,
          _errors := [(1, "e")],
          _colorize_line_beg := 0, _colorize_line_end := 2 } = .ok s' ∧
      s'._lines.length = 2 ∧
      s'._lines.map (List.map glyph.c) = ["ab".toList, "cd".toList] ∧
      s'.get_text = .ok "ab\ncd".toList ∧
      s'._errors = [(1, "e")] ∧ s'._cursor_pos = ⟨1, 1⟩ := by
  obtain ⟨s', h⟩ := (colorize_rewrites_colors_only first_character_lexer
    { code_editor_widget.create with
      _lines := [glyphs "ab", glyphs "cd"], _cursor_pos := ⟨1, 1⟩,
      _errors := [(1, "e")],
      _colorize_line_beg := 0, _colorize_line_end := 2 }).2
    first_character_lexer_in_bounds (by decide)
  obtain ⟨h1, _, h3, h4, h5, h6, _, _⟩ := (colorize_rewrites_colors_only first_character_lexer
    { code_editor_widget.create with
      _lines := [glyphs "ab", glyphs "cd"], _cursor_pos := ⟨1, 1⟩,
      _errors := [(1, "e")],
      _colorize_line_beg := 0, _colorize_line_end := 2 }).1 s' h
  exact ⟨s', h, h1, h3, h4.trans rfl, h5, h6⟩

end reshade
